import Mathlib

/-! Zone intersection and combination (`pcbnew/zones_test_and_combine_areas.cpp`) and hot
key names (`common/hotkeys_basic.cpp`).

A shallow embedding of `BOARD::CombineZones`, `BOARD::TestZoneIntersection`,
`BOARD::TestZoneIntersections`, `BOARD::CombineAllZonesInNet` and
`BOARD::OnAreaPolygonModified`, and of `KeyNameFromKeyCode` and `KeyCodeFromKeyName`.

* Zones are heap objects addressed by a `ZONE_PTR`; the board owns the vector `m_zones`
  of such pointers, so identity checks (`aRefZone == aZoneToCombine`) are pointer
  comparisons and a write through a pointer is seen by every holder of it.
* The polygon library (`SHAPE_POLY_SET`, `SEG`, `BOX2I`) is not part of this translation
  unit.  Its operations are the fields of a `KERNEL`, over which every general theorem is
  quantified; `specKernel` is one instance, written after the contracts of the design
  document, on which concrete boards are evaluated.
* `unsigned` loop counters are natural numbers reduced modulo `2 ^ 32`, `size_t` values
  modulo `2 ^ 64`.
-/

namespace KiCad

/-! ## Geometry data -/

/-- Integer point of the board plane. -/
structure VECTOR2I where
  x : Int
  y : Int
deriving DecidableEq, Repr

/-- Finite segment between two points. -/
structure SEG where
  A : VECTOR2I
  B : VECTOR2I
deriving DecidableEq, Repr

/-- Axis-aligned box: origin and size. -/
structure BOX2I where
  m_Pos : VECTOR2I
  m_Size : VECTOR2I
deriving DecidableEq, Repr

/-- Closed contour: its vertices in order. -/
abbrev SHAPE_LINE_CHAIN := List VECTOR2I

/-- Polygon with holes: the outer contour first, then the hole contours. -/
abbrev POLYGON := List SHAPE_LINE_CHAIN

/-- Modelled from the spec: the declaration of `SHAPE_POLY_SET` (not in this translation
unit), "an ordered sequence of closed polygon contours forming a polygon-with-holes":
a vector of polygons, each one outline component with its holes. -/
structure SHAPE_POLY_SET where
  m_polys : List POLYGON
deriving DecidableEq, Repr

/-- Modelled from the spec: `SHAPE_POLY_SET::OutlineCount`, the number of "disjoint outline
components" of the set. -/
def SHAPE_POLY_SET.OutlineCount (s : SHAPE_POLY_SET) : Nat :=
  s.m_polys.length

/-- Precision mode handed to the boolean operations. -/
inductive POLYGON_MODE where
  | PM_FAST
  | PM_STRICTLY_SIMPLE
deriving DecidableEq, Repr

/-- Operations of the polygon library used by the zone code; the library itself is not part
of this translation unit, so the zone functions take it as a parameter. -/
structure KERNEL where
  /-- `SHAPE_POLY_SET::BBox()` -/
  BBox : SHAPE_POLY_SET → BOX2I
  /-- `BOX2I::Intersects( const BOX2I& )` -/
  Intersects : BOX2I → BOX2I → Bool
  /-- `SHAPE_POLY_SET::IterateSegmentsWithHoles()`, the segments in iteration order -/
  IterateSegmentsWithHoles : SHAPE_POLY_SET → List SEG
  /-- `SHAPE_POLY_SET::IterateWithHoles()`, the vertices in iteration order -/
  IterateWithHoles : SHAPE_POLY_SET → List VECTOR2I
  /-- `SEG::Collide( const SEG&, int aClearance )` -/
  Collide : SEG → SEG → Int → Bool
  /-- `SHAPE_POLY_SET::Contains( const VECTOR2I& )` -/
  Contains : SHAPE_POLY_SET → VECTOR2I → Bool
  /-- `a.BooleanAdd( b, mode )`: the new value of `a` -/
  BooleanAdd : SHAPE_POLY_SET → SHAPE_POLY_SET → POLYGON_MODE → SHAPE_POLY_SET
  /-- `a.Simplify( mode )`: the new value of `a` -/
  Simplify : SHAPE_POLY_SET → POLYGON_MODE → SHAPE_POLY_SET
  /-- the hatch lines `ZONE::HatchBorder()` draws for an outline -/
  hatchLines : SHAPE_POLY_SET → List SEG

/-! ## Zones and the board -/

/-- The attributes of a `ZONE` read or written by the zone combination code. -/
structure ZONE where
  netCode : Int
  layer : Int
  layerSet : Nat
  priority : Nat
  isRuleArea : Bool
  doNotAllowCopperPour : Bool
  doNotAllowTracks : Bool
  doNotAllowVias : Bool
  doNotAllowPads : Bool
  doNotAllowFootprints : Bool
  localClearance : Int
  thermalReliefGap : Int
  thermalReliefSpokeWidth : Int
  padConnection : Int
  minThickness : Int
  cornerSmoothingType : Int
  cornerRadius : Nat
  outline : SHAPE_POLY_SET
  localFlags : Int
  borderHatchLines : List SEG
deriving DecidableEq, Repr

/-- Address of a `ZONE` object. -/
abbrev ZONE_PTR := Nat

/-- The state the zone functions work on: the `ZONE` objects (`zone p` is the object at
address `p`), the board's vector `m_zones`, the `PICKED_ITEMS_LIST` the caller passes as
`aDeletedList`, and the messages sent to `wxLogMessage`. -/
structure BOARD where
  zone : ZONE_PTR → ZONE
  m_zones : List ZONE_PTR
  aDeletedList : List ZONE_PTR
  log : List String

/-- `aZone->SetOutline( aOutline )` -/
def BOARD.SetOutline (b : BOARD) (aZone : ZONE_PTR) (aOutline : SHAPE_POLY_SET) : BOARD :=
  let z := b.zone aZone
  { b with zone := Function.update b.zone aZone { z with outline := aOutline } }

/-- `aZone->SetLocalFlags( aFlags )` -/
def BOARD.SetLocalFlags (b : BOARD) (aZone : ZONE_PTR) (aFlags : Int) : BOARD :=
  let z := b.zone aZone
  { b with zone := Function.update b.zone aZone { z with localFlags := aFlags } }

/-- Modelled from the spec: `ZONE::HatchBorder` (not in this translation unit), "recompute
any cached hatch/border decoration" of the zone from its present outline. -/
def BOARD.HatchBorder (K : KERNEL) (b : BOARD) (aZone : ZONE_PTR) : BOARD :=
  let z := b.zone aZone
  { b with zone := Function.update b.zone aZone
             { z with borderHatchLines := K.hatchLines z.outline } }

/-- Modelled from the spec: `BOARD::RemoveZone` (not in this translation unit), "delete
`otherZone` from the board's zone collection (recording the deletion for undo)": the zone
is appended to the picked-items list and leaves `m_zones`. -/
def BOARD.RemoveZone (b : BOARD) (aZone : ZONE_PTR) : BOARD :=
  { b with
      aDeletedList := b.aDeletedList ++ [aZone]
      m_zones := b.m_zones.filter (fun z => decide (z ≠ aZone)) }

/-! ## `BOARD::CombineZones` -/

/-- The outline `CombineZones` computes: the copy of the reference outline after
`BooleanAdd( areaToMergePoly, PM_FAST )` and `Simplify( PM_FAST )`. -/
def mergedOutlines (K : KERNEL) (b : BOARD) (aRefZone aZoneToCombine : ZONE_PTR) :
    SHAPE_POLY_SET :=
  K.Simplify
    (K.BooleanAdd (b.zone aRefZone).outline (b.zone aZoneToCombine).outline
      POLYGON_MODE.PM_FAST)
    POLYGON_MODE.PM_FAST

/-- `BOARD::CombineZones( aDeletedList, aRefZone, aZoneToCombine )`: the returned flag and
the state after the call. -/
def CombineZones (K : KERNEL) (b : BOARD) (aRefZone aZoneToCombine : ZONE_PTR) :
    Bool × BOARD :=
  if aRefZone = aZoneToCombine then
    (false, b)
  else
    let merged := mergedOutlines K b aRefZone aZoneToCombine
    if merged.OutlineCount > 2 then
      (false, { b with
        log := b.log ++ ["BOARD::CombineZones error: more than 2 polys after merging"] })
    else if merged.OutlineCount > 1 then
      (false, b)
    else
      let b1 := b.SetOutline aRefZone merged
      let b2 := b1.RemoveZone aZoneToCombine
      let b3 := b2.SetLocalFlags aRefZone 1
      let b4 := b3.HatchBorder K aRefZone
      (true, b4)

/-! ## `BOARD::TestZoneIntersection` -/

/-- `BOARD::TestZoneIntersection( aZone1, aZone2 )`; it only reads the two objects. -/
def TestZoneIntersection (K : KERNEL) (aZone1 aZone2 : ZONE) : Bool :=
  if aZone1.layer ≠ aZone2.layer then
    false
  else
    let poly1 := aZone1.outline
    let poly2 := aZone2.outline
    let b1 := K.BBox poly1
    let b2 := K.BBox poly2
    if !K.Intersects b1 b2 then
      false
    else if (K.IterateSegmentsWithHoles poly1).any (fun firstSegment =>
        (K.IterateSegmentsWithHoles poly2).any (fun secondSegment =>
          K.Collide firstSegment secondSegment 0)) then
      true
    else if (K.IterateWithHoles poly2).any (fun v => K.Contains poly1 v) then
      true
    else if (K.IterateWithHoles poly1).any (fun v => K.Contains poly2 v) then
      true
    else
      false

/-! ## `BOARD::TestZoneIntersections` -/

/-- One iteration of the loop of `TestZoneIntersections`: `true` when the iteration reaches
`return true`, `false` when it ends in a `continue` or falls through. -/
def TestZoneIntersections.body (K : KERNEL) (b : BOARD) (aZone otherZone : ZONE_PTR) :
    Bool :=
  let a := b.zone aZone
  let o := b.zone otherZone
  if a.netCode ≠ o.netCode then false
  else if aZone = otherZone then false
  else if a.layerSet ≠ o.layerSet then false
  else if a.priority ≠ o.priority then false
  else if a.isRuleArea ≠ o.isRuleArea then false
  else if a.isRuleArea then
    if a.doNotAllowCopperPour ≠ o.doNotAllowCopperPour then false
    else if a.doNotAllowTracks ≠ o.doNotAllowTracks then false
    else if a.doNotAllowVias ≠ o.doNotAllowVias then false
    else if a.doNotAllowPads ≠ o.doNotAllowPads then false
    else if a.doNotAllowFootprints ≠ o.doNotAllowFootprints then false
    else TestZoneIntersection K a o
  else
    if a.localClearance ≠ o.localClearance then false
    else if a.thermalReliefGap ≠ o.thermalReliefGap then false
    else if a.thermalReliefSpokeWidth ≠ o.thermalReliefSpokeWidth then false
    else if a.localClearance ≠ o.localClearance then false
    else if a.padConnection ≠ o.padConnection then false
    else if a.minThickness ≠ o.minThickness then false
    else if a.cornerSmoothingType ≠ o.cornerSmoothingType then false
    else if a.cornerRadius ≠ o.cornerRadius then false
    else TestZoneIntersection K a o

/-- `BOARD::TestZoneIntersections( aZone )`: the range-for over `m_zones` returns `true` at
the first iteration that reaches `return true`. -/
def TestZoneIntersections (K : KERNEL) (b : BOARD) (aZone : ZONE_PTR) : Bool :=
  b.m_zones.any (fun otherZone => TestZoneIntersections.body K b aZone otherZone)

/-! ## `BOARD::CombineAllZonesInNet` -/

/-- Ways in which a run of the model can fail to return: a read of `m_zones` outside its
bounds (undefined behaviour of `operator[]`), or the iteration budget of the outer loop
used up. -/
inductive FAULT where
  | outOfRange
  | outOfFuel
deriving DecidableEq, Repr

/-- The path one iteration of the inner loop takes. -/
inductive BRANCH where
  /-- `otherZone->GetNetCode() != aNetCode` -/
  | skipNetCode
  /-- the priorities differ -/
  | skipPriority
  /-- the rule-area flags differ -/
  | skipRuleArea
  /-- the layer sets differ -/
  | skipLayerSet
  /-- `b1.Intersects( b2 )` is false -/
  | boxReject
  /-- no local flag is set and `aUseLocalFlags` is true -/
  | flagSkip
  /-- `TestZoneIntersection` was called and returned false -/
  | notIntersecting
  /-- `TestZoneIntersection` returned true and `CombineZones` was called, returning `ret` -/
  | combine (ret : Bool)
deriving DecidableEq, Repr

/-- Record of one iteration of the inner loop: the state when `otherZone` is read, the two
indices, the two zones, the box `b1` in use, and the path taken. -/
structure VISIT where
  before : BOARD
  ia1 : Nat
  ia2 : Nat
  refZone : ZONE_PTR
  otherZone : ZONE_PTR
  b1 : BOX2I
  branch : BRANCH

/-- Observation of a run: the start of an outer iteration that reaches the inner loop, or
one iteration of the inner loop. -/
inductive EVENT where
  | outer (ia1 : Nat) (refZone : ZONE_PTR) (before : BOARD)
  | inner (v : VISIT)

/-- Variables of `CombineAllZonesInNet` that change during the loops, with the record of
the run so far (the record is an observation, no code reads it). -/
structure LOOP where
  board : BOARD
  modified : Bool
  mod_ia1 : Bool
  trace : List EVENT

/-- `m_zones.size()` as a `size_t`. -/
def BOARD.size (b : BOARD) : Nat :=
  b.m_zones.length % 2 ^ 64

/-- `m_zones.size() - 1` in `size_t` arithmetic: the subtraction is modulo `2 ^ 64`, so it
gives `2 ^ 64 - 1` for the size 0 and the number below for every other size. -/
def BOARD.sizeMinusOne (b : BOARD) : Nat :=
  if b.size = 0 then 2 ^ 64 - 1 else b.size - 1

/-- Body of the inner loop for the index `ia2`. -/
def innerBody (K : KERNEL) (aNetCode : Int) (aUseLocalFlags : Bool) (ia1 : Nat)
    (refZone : ZONE_PTR) (b1 : BOX2I) (ia2 : Nat) (s : LOOP) : Except FAULT LOOP :=
  match s.board.m_zones[ia2]? with
  | none => Except.error FAULT.outOfRange
  | some otherZone =>
    let r := s.board.zone refZone
    let o := s.board.zone otherZone
    let visit := fun (br : BRANCH) =>
      EVENT.inner ⟨s.board, ia1, ia2, refZone, otherZone, b1, br⟩
    if o.netCode ≠ aNetCode then
      Except.ok { s with trace := s.trace ++ [visit BRANCH.skipNetCode] }
    else if r.priority ≠ o.priority then
      Except.ok { s with trace := s.trace ++ [visit BRANCH.skipPriority] }
    else if r.isRuleArea ≠ o.isRuleArea then
      Except.ok { s with trace := s.trace ++ [visit BRANCH.skipRuleArea] }
    else if r.layerSet ≠ o.layerSet then
      Except.ok { s with trace := s.trace ++ [visit BRANCH.skipLayerSet] }
    else
      let b2 := K.BBox o.outline
      if K.Intersects b1 b2 then
        if r.localFlags ≠ 0 ∨ o.localFlags ≠ 0 ∨ aUseLocalFlags = false then
          if TestZoneIntersection K r o then
            let c := CombineZones K s.board refZone otherZone
            if c.1 then
              Except.ok
                { board := c.2, modified := true, mod_ia1 := true,
                  trace := s.trace ++ [visit (BRANCH.combine true)] }
            else
              Except.ok
                { s with board := c.2, trace := s.trace ++ [visit (BRANCH.combine false)] }
          else
            Except.ok { s with trace := s.trace ++ [visit BRANCH.notIntersecting] }
        else
          Except.ok { s with trace := s.trace ++ [visit BRANCH.flagSkip] }
      else
        Except.ok { s with trace := s.trace ++ [visit BRANCH.boxReject] }

/-- The inner loop `for( ; ia2 > ia1; ia2-- )` entered with the counter at `ia2`.  The
counter is positive whenever it is decremented, so `ia2--` never wraps. -/
def innerLoop (K : KERNEL) (aNetCode : Int) (aUseLocalFlags : Bool) (ia1 : Nat)
    (refZone : ZONE_PTR) (b1 : BOX2I) : Nat → LOOP → Except FAULT LOOP
  | 0, s => Except.ok s
  | ia2 + 1, s =>
    if ia2 + 1 > ia1 then
      match innerBody K aNetCode aUseLocalFlags ia1 refZone b1 (ia2 + 1) s with
      | Except.error e => Except.error e
      | Except.ok s1 => innerLoop K aNetCode aUseLocalFlags ia1 refZone b1 ia2 s1
    else
      Except.ok s

/-- Body of the outer loop for the index `ia1`, followed by the `ia1++` of the loop header:
the value of `ia1` at the next loop test, and the state.  The counter is an `unsigned`:
`ia1--` gives `2 ^ 32 - 1` at 0 and the number below otherwise, `ia1++` is the successor
modulo `2 ^ 32`. -/
def outerBody (K : KERNEL) (aNetCode : Int) (aUseLocalFlags : Bool) (ia1 : Nat)
    (s : LOOP) : Except FAULT (Nat × LOOP) :=
  match s.board.m_zones[ia1]? with
  | none => Except.error FAULT.outOfRange
  | some refZone =>
    if (s.board.zone refZone).netCode ≠ aNetCode then
      Except.ok ((ia1 + 1) % 2 ^ 32, s)
    else
      let b1 := K.BBox (s.board.zone refZone).outline
      let s0 : LOOP :=
        { s with mod_ia1 := false, trace := s.trace ++ [EVENT.outer ia1 refZone s.board] }
      match innerLoop K aNetCode aUseLocalFlags ia1 refZone b1
          (s.board.sizeMinusOne % 2 ^ 32) s0 with
      | Except.error e => Except.error e
      | Except.ok s1 =>
        let ia1dec := if s1.mod_ia1 then (if ia1 = 0 then 2 ^ 32 - 1 else ia1 - 1) else ia1
        Except.ok ((ia1dec + 1) % 2 ^ 32, s1)

/-- The outer loop `for( ; ia1 < m_zones.size() - 1; ia1++ )` entered with the counter at
`ia1`; `fuel` bounds the number of iterations the model follows. -/
def outerLoop (K : KERNEL) (aNetCode : Int) (aUseLocalFlags : Bool) :
    Nat → Nat → LOOP → Except FAULT LOOP
  | 0, ia1, s =>
    if ia1 < s.board.sizeMinusOne then Except.error FAULT.outOfFuel else Except.ok s
  | fuel + 1, ia1, s =>
    if ia1 < s.board.sizeMinusOne then
      match outerBody K aNetCode aUseLocalFlags ia1 s with
      | Except.error e => Except.error e
      | Except.ok (ia1next, s1) => outerLoop K aNetCode aUseLocalFlags fuel ia1next s1
    else
      Except.ok s

/-- What a call of `CombineAllZonesInNet` leaves: the returned flag, the state, and the
record of the run. -/
structure RESULT where
  ret : Bool
  board : BOARD
  trace : List EVENT

/-- `BOARD::CombineAllZonesInNet( aDeletedList, aNetCode, aUseLocalFlags )`.  Every outer
iteration either moves `ia1` forward or follows the removal of a zone, so twice the number
of zones is an iteration budget the loop cannot use up (`outerLoop_returns`, for a
collection that holds every zone once and fewer than `2 ^ 32` zones). -/
def CombineAllZonesInNet (K : KERNEL) (b : BOARD) (aNetCode : Int)
    (aUseLocalFlags : Bool) : Except FAULT RESULT :=
  if b.size ≤ 1 then
    Except.ok ⟨false, b, []⟩
  else
    match outerLoop K aNetCode aUseLocalFlags (2 * b.m_zones.length) 0 ⟨b, false, false, []⟩ with
    | Except.error e => Except.error e
    | Except.ok s => Except.ok ⟨s.modified, s.board, s.trace⟩

/-! ## `BOARD::OnAreaPolygonModified` -/

/-- Modelled from the spec: `ZONE::GetNumCorners` (not in this translation unit), the number
of "corners" of the zone's outline, those of its holes included. -/
def ZONE.GetNumCorners (z : ZONE) : Nat :=
  (z.outline.m_polys.flatten.map List.length).sum

/-- The loop `for( ZONE* zone : m_zones )` at the end of `OnAreaPolygonModified`, with `n`
iterations left and the iterator at slot `i`.

The range-for takes `m_zones.begin()` and `m_zones.end()` once, and `RemoveZone` erases from
the vector while the loop walks it (the language leaves the use of the iterators after that
undefined).  The model follows the layout of a vector: `buf` is the storage between the two
iterators; an erase moves the elements behind the erased one a slot down, shortens the
vector and leaves the slots behind its new end as they were.  The loop therefore makes as
many iterations as the vector had elements on entry, and after an erase at slot `i` the
element that moved into slot `i` is not looked at. -/
def sweepLoop : Nat → Nat → List ZONE_PTR → BOARD → BOARD
  | 0, _, _, b => b
  | n + 1, i, buf, b =>
    match buf[i]? with
    | none => b
    | some zone =>
      if (b.zone zone).GetNumCorners < 3 then
        let b1 := b.RemoveZone zone
        sweepLoop n (i + 1) (b1.m_zones ++ buf.drop b1.m_zones.length) b1
      else
        sweepLoop n (i + 1) buf b

/-- The test for bad areas of `OnAreaPolygonModified` run on the board `b`. -/
def sweep (b : BOARD) : BOARD :=
  sweepLoop b.m_zones.length 0 b.m_zones b

/-- What a call of `OnAreaPolygonModified` leaves: the returned flag and the state, with the
value `NormalizeAreaPolygon` returned, the result of the call of `CombineAllZonesInNet` when
it was made, and the state on entry to the test for bad areas. -/
structure OUTCOME where
  ret : Bool
  board : BOARD
  normalized : Bool
  combined : Option RESULT
  beforeSweep : BOARD

/-- `BOARD::OnAreaPolygonModified( aModifiedZonesList, modified_area )`.  The function
`BOARD::NormalizeAreaPolygon` is not in this translation unit and is a parameter: it gives
the flag it returns and the state it leaves. -/
def OnAreaPolygonModified (K : KERNEL)
    (NormalizeAreaPolygon : BOARD → ZONE_PTR → Bool × BOARD) (b : BOARD)
    (modified_area : ZONE_PTR) : Except FAULT OUTCOME :=
  let n := NormalizeAreaPolygon b modified_area
  if TestZoneIntersections K n.2 modified_area then
    match CombineAllZonesInNet K n.2 (n.2.zone modified_area).netCode true with
    | Except.error e => Except.error e
    | Except.ok r => Except.ok ⟨true, sweep r.board, n.1, some r, r.board⟩
  else
    Except.ok ⟨n.1, sweep n.2, n.1, none, n.2⟩

/-! ## A reference polygon kernel -/

/-- Modelled from the spec: the vertices `IterateWithHoles` walks, polygon by polygon,
outer contour first, then the hole contours. -/
def specIterateWithHoles (s : SHAPE_POLY_SET) : List VECTOR2I :=
  s.m_polys.flatten.flatten

/-- Modelled from the spec: the sides of a closed contour, from each vertex to the next and
from the last back to the first. -/
def contourSegments (c : SHAPE_LINE_CHAIN) : List SEG :=
  match c with
  | [] => []
  | v :: t => (c.zip (t ++ [v])).map (fun p => ⟨p.1, p.2⟩)

/-- Modelled from the spec: the "boundary segments (including hole boundaries)" that
`IterateSegmentsWithHoles` walks. -/
def specIterateSegmentsWithHoles (s : SHAPE_POLY_SET) : List SEG :=
  s.m_polys.flatten.flatMap contourSegments

/-- Least element of a list of integers, `d` for the empty list. -/
def minOf (d : Int) (l : List Int) : Int :=
  match l with
  | [] => d
  | a :: t => t.foldl min a

/-- Greatest element of a list of integers, `d` for the empty list. -/
def maxOf (d : Int) (l : List Int) : Int :=
  match l with
  | [] => d
  | a :: t => t.foldl max a

/-- Modelled from the spec: the "bounding box" of an outline, the least box holding all its
vertices; the box of an outline without vertices is the zero box at the origin. -/
def specBBox (s : SHAPE_POLY_SET) : BOX2I :=
  let xs := (specIterateWithHoles s).map (fun v => v.x)
  let ys := (specIterateWithHoles s).map (fun v => v.y)
  ⟨⟨minOf 0 xs, minOf 0 ys⟩, ⟨maxOf 0 xs - minOf 0 xs, maxOf 0 ys - minOf 0 ys⟩⟩

/-- Modelled from the spec: "bounding-box overlap"; two boxes intersect when their common
area is not empty, a common side or corner included. -/
def specIntersects (a b : BOX2I) : Bool :=
  decide (max a.m_Pos.x b.m_Pos.x ≤ min (a.m_Pos.x + a.m_Size.x) (b.m_Pos.x + b.m_Size.x) ∧
          max a.m_Pos.y b.m_Pos.y ≤ min (a.m_Pos.y + a.m_Size.y) (b.m_Pos.y + b.m_Size.y))

/-- Twice the signed area of the triangle `a b c`: positive when `c` is left of `a → b`. -/
def cross (a b c : VECTOR2I) : Int :=
  (b.x - a.x) * (c.y - a.y) - (b.y - a.y) * (c.x - a.x)

/-- The point `p`, known to be on the line through the segment, is within its extent. -/
def inExtent (s : SEG) (p : VECTOR2I) : Bool :=
  decide (min s.A.x s.B.x ≤ p.x ∧ p.x ≤ max s.A.x s.B.x ∧
          min s.A.y s.B.y ≤ p.y ∧ p.y ≤ max s.A.y s.B.y)

/-- Modelled from the spec: "segment collision" at clearance `aClearance = 0`: the two
segments have a point in common (crossing, touching or overlapping).  A positive clearance
is not used by the zone code and is treated as 0. -/
def specCollide (s t : SEG) (_aClearance : Int) : Bool :=
  let d1 := cross s.A s.B t.A
  let d2 := cross s.A s.B t.B
  let d3 := cross t.A t.B s.A
  let d4 := cross t.A t.B s.B
  (decide ((d1 < 0 ∧ 0 < d2 ∨ 0 < d1 ∧ d2 < 0) ∧ (d3 < 0 ∧ 0 < d4 ∨ 0 < d3 ∧ d4 < 0)))
    || (decide (d1 = 0) && inExtent s t.A)
    || (decide (d2 = 0) && inExtent s t.B)
    || (decide (d3 = 0) && inExtent t s.A)
    || (decide (d4 = 0) && inExtent t s.B)

/-- The side `s` of a contour is crossed by the ray from `p` towards larger `x`
(half-open rule: a side counts when exactly one of its ends is above `p`). -/
def rayCrosses (p : VECTOR2I) (s : SEG) : Bool :=
  let dy := s.B.y - s.A.y
  let lhs := (p.x - s.A.x) * dy
  let rhs := (s.B.x - s.A.x) * (p.y - s.A.y)
  decide ((s.A.y > p.y) ≠ (s.B.y > p.y)) && (if 0 < dy then decide (lhs < rhs) else decide (rhs < lhs))

/-- Even-odd test of a point against a closed contour. -/
def pointInside (c : SHAPE_LINE_CHAIN) (p : VECTOR2I) : Bool :=
  ((contourSegments c).filter (rayCrosses p)).length % 2 = 1

/-- A point is in a polygon with holes when it is inside the outer contour and inside no
hole. -/
def polygonContains (poly : POLYGON) (p : VECTOR2I) : Bool :=
  match poly with
  | [] => false
  | outer :: holes => pointInside outer p && !(holes.any (fun h => pointInside h p))

/-- Modelled from the spec: "containment check", the point is in one of the polygons of the
set. -/
def specContains (s : SHAPE_POLY_SET) (p : VECTOR2I) : Bool :=
  s.m_polys.any (fun poly => polygonContains poly p)

/-! ### Union of rectilinear outlines -/

/-- Insertion into a strictly increasing list. -/
def insertSorted (a : Int) : List Int → List Int
  | [] => [a]
  | b :: t => if a < b then a :: b :: t else if a = b then b :: t else b :: insertSorted a t

/-- The values of a list, strictly increasing. -/
def sortDedup (l : List Int) : List Int :=
  l.foldr insertSorted []

/-- Cell of the grid drawn through all vertex coordinates. -/
structure CELL where
  x0 : Int
  x1 : Int
  y0 : Int
  y1 : Int
deriving DecidableEq, Repr

/-- The cells of the grid through the given vertices. -/
def gridCells (pts : List VECTOR2I) : List CELL :=
  let xs := sortDedup (pts.map (fun v => v.x))
  let ys := sortDedup (pts.map (fun v => v.y))
  (xs.zip xs.tail).flatMap (fun cx => (ys.zip ys.tail).map (fun cy => ⟨cx.1, cx.2, cy.1, cy.2⟩))

/-- A polygon at twice its size, so that cell centres have integer coordinates. -/
def doubled (poly : POLYGON) : POLYGON :=
  poly.map (fun c => c.map (fun v => ⟨2 * v.x, 2 * v.y⟩))

/-- The centre of the cell is in one of the polygons. -/
def cellFilled (polys : List POLYGON) (c : CELL) : Bool :=
  polys.any (fun poly => polygonContains (doubled poly) ⟨c.x0 + c.x1, c.y0 + c.y1⟩)

/-- Two cells of the grid have a side in common. -/
def adjacent (c d : CELL) : Bool :=
  (decide (c.y0 = d.y0) && (decide (c.x1 = d.x0) || decide (d.x1 = c.x0)))
    || (decide (c.x0 = d.x0) && (decide (c.y1 = d.y0) || decide (d.y1 = c.y0)))

/-- The cells of `all` reachable from `comp` through common sides, in at most `fuel`
rounds. -/
def grow (all : List CELL) : Nat → List CELL → List CELL
  | 0, comp => comp
  | fuel + 1, comp =>
    let next := all.filter (fun c => !(comp.contains c) && comp.any (fun d => adjacent c d))
    if next.isEmpty then comp else grow all fuel (comp ++ next)

/-- The side-connected groups of a list of cells. -/
def components : Nat → List CELL → List (List CELL)
  | 0, _ => []
  | _ + 1, [] => []
  | fuel + 1, c :: rest =>
    let comp := grow (c :: rest) rest.length [c]
    comp :: components fuel (rest.filter (fun d => !(comp.contains d)))

/-- The sides of the cells of a group that have no cell of the group on their other side,
directed so that the group is on their left. -/
def boundaryEdges (comp : List CELL) : List SEG :=
  comp.flatMap (fun c =>
    (if comp.any (fun d => decide (d.y1 = c.y0 ∧ d.x0 = c.x0)) then []
      else [(⟨⟨c.x0, c.y0⟩, ⟨c.x1, c.y0⟩⟩ : SEG)])
    ++ (if comp.any (fun d => decide (d.x0 = c.x1 ∧ d.y0 = c.y0)) then []
      else [(⟨⟨c.x1, c.y0⟩, ⟨c.x1, c.y1⟩⟩ : SEG)])
    ++ (if comp.any (fun d => decide (d.y0 = c.y1 ∧ d.x0 = c.x0)) then []
      else [(⟨⟨c.x1, c.y1⟩, ⟨c.x0, c.y1⟩⟩ : SEG)])
    ++ (if comp.any (fun d => decide (d.x1 = c.x0 ∧ d.y0 = c.y0)) then []
      else [(⟨⟨c.x0, c.y1⟩, ⟨c.x0, c.y0⟩⟩ : SEG)]))

/-- Follow directed sides from `cur` until `start` is reached again: the vertices passed
(in reverse order) and the sides not used. -/
def traceLoop (start : VECTOR2I) : Nat → VECTOR2I → List SEG → List VECTOR2I →
    List VECTOR2I × List SEG
  | 0, _, edges, acc => (acc, edges)
  | fuel + 1, cur, edges, acc =>
    if cur = start then (acc, edges)
    else
      match edges.find? (fun e => decide (e.A = cur)) with
      | none => (acc, edges)
      | some e => traceLoop start fuel e.B (edges.erase e) (cur :: acc)

/-- All closed walks through a list of directed sides. -/
def traceLoops : Nat → List SEG → List SHAPE_LINE_CHAIN
  | 0, _ => []
  | _ + 1, [] => []
  | fuel + 1, e :: rest =>
    let r := traceLoop e.A rest.length e.B rest [e.A]
    r.1.reverse :: traceLoops fuel r.2

/-- Twice the signed area of a closed contour, positive when it runs counter-clockwise. -/
def twiceSignedArea (c : SHAPE_LINE_CHAIN) : Int :=
  ((contourSegments c).map (fun s => s.A.x * s.B.y - s.B.x * s.A.y)).sum

/-- A closed contour without the vertices that lie on the line through their two
neighbours. -/
def dropCollinear (c : SHAPE_LINE_CHAIN) : SHAPE_LINE_CHAIN :=
  match c.getLast? with
  | none => []
  | some last =>
    (((last :: c).zip (c.zip (c.tail ++ c.take 1))).filter
      (fun t => decide (cross t.1 t.2.1 t.2.2 ≠ 0))).map (fun t => t.2.1)

/-- The polygon bounded by a group of cells: its counter-clockwise contour first, then the
clockwise contours of its holes. -/
def componentPolygon (comp : List CELL) : POLYGON :=
  let edges := boundaryEdges comp
  let loops := (traceLoops edges.length edges).map dropCollinear
  loops.filter (fun c => decide (0 < twiceSignedArea c))
    ++ loops.filter (fun c => decide (twiceSignedArea c ≤ 0))

/-- Modelled from the spec: the "polygon union" of a list of polygons with holes whose
sides are parallel to the axes: the grid cells covered by one of them, grouped into
side-connected regions (regions that meet only at a corner stay apart), each region
bounded by one polygon with holes. -/
def unionPolygons (polys : List POLYGON) : List POLYGON :=
  let cells := (gridCells polys.flatten.flatten).filter (cellFilled polys)
  (components cells.length cells).map componentPolygon

/-- Modelled from the spec: `a.BooleanAdd( b, mode )`, "polygon union" of the two sets. -/
def specBooleanAdd (a b : SHAPE_POLY_SET) (_mode : POLYGON_MODE) : SHAPE_POLY_SET :=
  ⟨unionPolygons (a.m_polys ++ b.m_polys)⟩

/-- Modelled from the spec: `a.Simplify( mode )`, the set as "disjoint outline components". -/
def specSimplify (a : SHAPE_POLY_SET) (_mode : POLYGON_MODE) : SHAPE_POLY_SET :=
  ⟨unionPolygons a.m_polys⟩

/-- Modelled from the spec: twice the "covered area" of a set: for every polygon the area
within its outer contour less the areas within its holes. -/
def SHAPE_POLY_SET.twiceArea (s : SHAPE_POLY_SET) : Int :=
  (s.m_polys.map (fun poly =>
    match poly with
    | [] => 0
    | outer :: holes =>
      |twiceSignedArea outer| - (holes.map (fun h => |twiceSignedArea h|)).sum)).sum

/-- Modelled from the spec: the cached "hatch/border decoration" of an outline, here the
sides of its contours. -/
def specHatchLines (s : SHAPE_POLY_SET) : List SEG :=
  specIterateSegmentsWithHoles s

/-- Modelled from the spec: the polygon library as the design document describes it, for
outlines whose sides are parallel to the axes. -/
def specKernel : KERNEL where
  BBox := specBBox
  Intersects := specIntersects
  IterateSegmentsWithHoles := specIterateSegmentsWithHoles
  IterateWithHoles := specIterateWithHoles
  Collide := specCollide
  Contains := specContains
  BooleanAdd := specBooleanAdd
  Simplify := specSimplify
  hatchLines := specHatchLines

/-! ## Boards used as instances -/

/-- Square outline with the corners `(x0, y0)` and `(x1, y1)`, counter-clockwise from
`(x0, y0)`. -/
def square (x0 y0 x1 y1 : Int) : SHAPE_POLY_SET :=
  ⟨[[[⟨x0, y0⟩, ⟨x1, y0⟩, ⟨x1, y1⟩, ⟨x0, y1⟩]]]⟩

/-- Outline with the two corners `(x0, y0)` and `(x1, y1)` only. -/
def twoCorners (x0 y0 x1 y1 : Int) : SHAPE_POLY_SET :=
  ⟨[[[⟨x0, y0⟩, ⟨x1, y1⟩]]]⟩

/-- Filled zone (not a rule area) on layer 0 with the given net code, local clearance,
local flag and outline; its other attributes are zero and its hatch lines empty. -/
def filledZone (netCode localClearance localFlags : Int) (outline : SHAPE_POLY_SET) : ZONE where
  netCode := netCode
  layer := 0
  layerSet := 1
  priority := 0
  isRuleArea := false
  doNotAllowCopperPour := false
  doNotAllowTracks := false
  doNotAllowVias := false
  doNotAllowPads := false
  doNotAllowFootprints := false
  localClearance := localClearance
  thermalReliefGap := 0
  thermalReliefSpokeWidth := 0
  padConnection := 0
  minThickness := 0
  cornerSmoothingType := 0
  cornerRadius := 0
  outline := outline
  localFlags := localFlags
  borderHatchLines := []

/-- The board whose collection holds the zones of `zs` in order, the `p`-th of them at
address `p`; nothing is on the deleted list and nothing is logged. -/
def boardOf (zs : List ZONE) : BOARD where
  zone := fun p => zs.getD p (filledZone 0 0 0 ⟨[]⟩)
  m_zones := List.range zs.length
  aDeletedList := []
  log := []

/-- Two zones on net 1 whose squares overlap: `(0,0)-(10,10)` and `(5,5)-(15,15)`. -/
def boardOverlap : BOARD :=
  boardOf [filledZone 1 0 0 (square 0 0 10 10), filledZone 1 0 0 (square 5 5 15 15)]

/-- Two zones on net 1 with empty outlines. -/
def boardEmptyOutlines : BOARD :=
  boardOf [filledZone 1 0 0 ⟨[]⟩, filledZone 1 0 0 ⟨[]⟩]

/-- Two zones on net 1 whose squares have the corner `(10,10)` in common and nothing
else. -/
def boardTouch : BOARD :=
  boardOf [filledZone 1 0 0 (square 0 0 10 10), filledZone 1 0 0 (square 10 10 20 20)]

/-- Two zones on net 1 whose squares are far apart. -/
def boardApart : BOARD :=
  boardOf [filledZone 1 0 0 (square 0 0 10 10), filledZone 1 0 0 (square 50 50 60 60)]

/-- Two zones on net 1 with the same square, local clearance 0 and 1. -/
def boardClearance : BOARD :=
  boardOf [filledZone 1 0 0 (square 0 0 10 10), filledZone 1 1 0 (square 0 0 10 10)]

/-- One zone on net 1. -/
def boardSingle : BOARD :=
  boardOf [filledZone 1 0 0 (square 0 0 10 10)]

/-! ## Predicates used in the statements -/

/-- The attributes compared by `TestZoneIntersections` besides net code, layer set, priority
and rule-area flag: the five disallow flags for rule areas, the seven fill attributes for
filled zones. -/
def sameModeAttributes (a o : ZONE) : Prop :=
  if a.isRuleArea then
    a.doNotAllowCopperPour = o.doNotAllowCopperPour ∧ a.doNotAllowTracks = o.doNotAllowTracks ∧
    a.doNotAllowVias = o.doNotAllowVias ∧ a.doNotAllowPads = o.doNotAllowPads ∧
    a.doNotAllowFootprints = o.doNotAllowFootprints
  else
    a.localClearance = o.localClearance ∧ a.thermalReliefGap = o.thermalReliefGap ∧
    a.thermalReliefSpokeWidth = o.thermalReliefSpokeWidth ∧
    a.padConnection = o.padConnection ∧ a.minThickness = o.minThickness ∧
    a.cornerSmoothingType = o.cornerSmoothingType ∧ a.cornerRadius = o.cornerRadius

/-- The tests of the inner loop of `CombineAllZonesInNet` that a pair has passed when
`TestZoneIntersection` is called on it (`b` is the state at that moment, `b1` the box of the
reference zone in use). -/
def pairGuard (K : KERNEL) (aNetCode : Int) (aUseLocalFlags : Bool) (b : BOARD) (b1 : BOX2I)
    (ref other : ZONE_PTR) : Prop :=
  (b.zone other).netCode = aNetCode ∧
  (b.zone ref).priority = (b.zone other).priority ∧
  (b.zone ref).isRuleArea = (b.zone other).isRuleArea ∧
  (b.zone ref).layerSet = (b.zone other).layerSet ∧
  K.Intersects b1 (K.BBox (b.zone other).outline) = true ∧
  ((b.zone ref).localFlags ≠ 0 ∨ (b.zone other).localFlags ≠ 0 ∨ aUseLocalFlags = false)

/-- The value a call returned, `none` for a run that ended in a fault. -/
def returned {α : Type} (x : Except FAULT α) : Option α :=
  match x with
  | Except.ok r => some r
  | Except.error _ => none

/-- The board holds every zone once and fewer than `2 ^ 32` zones (the range of the
`unsigned` loop counters). -/
def BOARD.wellFormed (b : BOARD) : Prop :=
  b.m_zones.Nodup ∧ b.m_zones.length < 2 ^ 32

/-- The event records a call of `CombineZones` that returned true. -/
def EVENT.isCombine (e : EVENT) : Bool :=
  match e with
  | EVENT.inner v => decide (v.branch = BRANCH.combine true)
  | EVENT.outer _ _ _ => false

/-- The members of a zone that the zone combination code does not write: the zone with its
outline, local flag and hatch lines blanked. -/
def ZONE.attributes (z : ZONE) : ZONE :=
  { z with outline := ⟨[]⟩, localFlags := 0, borderHatchLines := [] }

/-- `TestZoneIntersection` was called in the visit. -/
def VISIT.tested (v : VISIT) : Prop :=
  v.branch = BRANCH.notIntersecting ∨ ∃ ret, v.branch = BRANCH.combine ret

/-- What the record of a visit says about the run of `CombineAllZonesInNet` on the board `b`:
the reference zone is on the net `aNetCode`; the index of the other zone is above that of
the reference zone and within the collection; no zone has changed in a member other than
outline, local flag and hatch lines; the pair passed the tests of the inner loop when
`TestZoneIntersection` was called on it; and the branch names the values
`TestZoneIntersection`, `CombineZones` and `b1.Intersects( b2 )` gave. -/
def VISIT.sound (K : KERNEL) (b : BOARD) (aNetCode : Int) (aUseLocalFlags : Bool)
    (v : VISIT) : Prop :=
  (v.before.zone v.refZone).netCode = aNetCode ∧
  v.ia1 < v.ia2 ∧
  v.before.m_zones[v.ia2]? = some v.otherZone ∧
  (∀ p, (v.before.zone p).attributes = (b.zone p).attributes) ∧
  (v.tested → pairGuard K aNetCode aUseLocalFlags v.before v.b1 v.refZone v.otherZone) ∧
  (v.branch = BRANCH.notIntersecting →
    TestZoneIntersection K (v.before.zone v.refZone) (v.before.zone v.otherZone) = false) ∧
  (∀ ret, v.branch = BRANCH.combine ret →
    TestZoneIntersection K (v.before.zone v.refZone) (v.before.zone v.otherZone) = true ∧
    (CombineZones K v.before v.refZone v.otherZone).1 = ret) ∧
  (v.branch = BRANCH.boxReject →
    K.Intersects v.b1 (K.BBox (v.before.zone v.otherZone).outline) = false)

/-- Three zones on net 1, none flagged: the squares (0,0)-(10,10), (5,5)-(15,15) and
(50,50)-(60,60). -/
def boardUnflagged : BOARD :=
  boardOf [filledZone 1 0 0 (square 0 0 10 10), filledZone 1 0 0 (square 5 5 15 15),
    filledZone 1 0 0 (square 50 50 60 60)]

/-- Three zones: the overlapping squares (0,0)-(10,10) and (5,5)-(15,15) on net 1, and
between them in the collection a flagged zone on net 2 with the square (2,2)-(8,8). -/
def boardTwoNets : BOARD :=
  boardOf [filledZone 1 0 0 (square 0 0 10 10), filledZone 2 0 1 (square 2 2 8 8),
    filledZone 1 0 0 (square 5 5 15 15)]

/-- A zone with two corners on net 1 and, far from it, a square on the same net. -/
def boardDegenerate : BOARD :=
  boardOf [filledZone 1 0 0 (twoCorners 0 0 10 0), filledZone 1 0 0 (square 50 50 60 60)]

/-- Number of calls of `CombineZones` in a record that returned true. -/
def combines (t : List EVENT) : Nat :=
  t.countP EVENT.isCombine

/-- Invariant of the inner loop used below: `L` is the length of the collection when the
scan started, `n0` the length when the call started. -/
def scanInv (n0 : Nat) (i : Nat) (ref : ZONE_PTR) (L : Nat) (s : LOOP) : Prop :=
  s.board.m_zones.Nodup ∧ s.board.m_zones.length ≤ L ∧
  s.board.m_zones[i]? = some ref ∧
  combines s.trace + s.board.m_zones.length = n0 ∧
  (∀ v ret, EVENT.inner v ∈ s.trace → v.branch = BRANCH.combine ret →
    v.refZone ≠ v.otherZone ∧ v.before.m_zones[v.ia1]? = some v.refZone) ∧
  (∀ v, EVENT.inner v ∈ s.trace → v.branch = BRANCH.combine true →
    ∃ k, k ≤ i ∧ s.board.m_zones[k]? = some v.refZone) ∧
  (s.mod_ia1 = true ↔ s.board.m_zones.length < L)

/-- Invariant of the outer loop: `i` is the value of `ia1` at the loop test, `n0` the length
of the collection when the call started. -/
def runInv (n0 : Nat) (i : Nat) (s : LOOP) : Prop :=
  s.board.m_zones.Nodup ∧ s.board.m_zones.length < 4294967296 ∧
  1 ≤ s.board.m_zones.length ∧
  combines s.trace + s.board.m_zones.length = n0 ∧
  (∀ v ret, EVENT.inner v ∈ s.trace → v.branch = BRANCH.combine ret →
    v.refZone ≠ v.otherZone ∧ v.before.m_zones[v.ia1]? = some v.refZone) ∧
  (∀ v, EVENT.inner v ∈ s.trace → v.branch = BRANCH.combine true →
    ∃ k, k ≤ i ∧ s.board.m_zones[k]? = some v.refZone)

/-- Three zones on net 1 in a row, each overlapping the next: the squares (0,0)-(10,10),
(8,0)-(18,10) and (16,0)-(26,10). -/
def boardChain : BOARD :=
  boardOf [filledZone 1 0 0 (square 0 0 10 10), filledZone 1 0 0 (square 8 0 18 10),
    filledZone 1 0 0 (square 16 0 26 10)]

/-- Modelled from the spec: `BOARD::NormalizeAreaPolygon` (not in this translation unit) on
an outline that needs no repair: "returns whether any change occurred", here false, and
the state is left as it was. -/
def noRepair (b : BOARD) (_aCurrArea : ZONE_PTR) : Bool × BOARD :=
  (false, b)

/-- Two zones with 2 corners next to each other in the collection, followed by a square far
from them; all on net 1. -/
def boardTwoDegenerate : BOARD :=
  boardOf [filledZone 1 0 0 (twoCorners 0 0 10 0), filledZone 1 0 0 (twoCorners 20 0 30 0),
    filledZone 1 0 0 (square 50 50 60 60)]

/-- A square and, far from it, a zone with 2 corners; both on net 1. -/
def boardSquareDegenerate : BOARD :=
  boardOf [filledZone 1 0 0 (square 50 50 60 60), filledZone 1 0 0 (twoCorners 0 0 10 0)]

/-- The two overlapping squares on net 1, the first with its local flag set (the zone just
edited). -/
def boardEdited : BOARD :=
  boardOf [filledZone 1 0 1 (square 0 0 10 10), filledZone 1 0 0 (square 5 5 15 15)]

/-- The zone with its five disallow flags blanked. -/
def ZONE.withoutDisallow (z : ZONE) : ZONE :=
  { z with doNotAllowCopperPour := false, doNotAllowTracks := false, doNotAllowVias := false,
           doNotAllowPads := false, doNotAllowFootprints := false }

/-- The zone with its seven fill attributes blanked. -/
def ZONE.withoutFill (z : ZONE) : ZONE :=
  { z with localClearance := 0, thermalReliefGap := 0, thermalReliefSpokeWidth := 0,
           padConnection := 0, minThickness := 0, cornerSmoothingType := 0,
           cornerRadius := 0 }

/-- The board of the two overlapping squares with the disallow flags of its zones set in
different ways. -/
def boardOverlapDisallow : BOARD :=
  boardOf [{ filledZone 1 0 0 (square 0 0 10 10) with doNotAllowTracks := true },
    { filledZone 1 0 0 (square 5 5 15 15) with doNotAllowVias := true }]

/-- Rule area on net 0, layer 0, with the given local clearance and outline, no disallow
flag set. -/
def ruleArea (localClearance : Int) (outline : SHAPE_POLY_SET) : ZONE :=
  { filledZone 0 localClearance 0 outline with isRuleArea := true }

/-- Two overlapping rule areas with different local clearances. -/
def boardRuleAreas : BOARD :=
  boardOf [ruleArea 0 (square 0 0 10 10), ruleArea 5 (square 5 5 15 15)]

/-- The same two rule areas with equal local clearances. -/
def boardRuleAreasEqual : BOARD :=
  boardOf [ruleArea 0 (square 0 0 10 10), ruleArea 0 (square 5 5 15 15)]

/-- Three zones on net 1: the square (0,0)-(10,10), the square (20,0)-(30,10) far from it,
and last the rectangle (5,0)-(25,10) that overlaps both. -/
def boardBridge : BOARD :=
  boardOf [filledZone 1 0 0 (square 0 0 10 10), filledZone 1 0 0 (square 20 0 30 10),
    filledZone 1 0 0 (square 5 0 25 10)]

/-- The event is a visit that the box test rejected although `TestZoneIntersection` is true
on the two zones as they are at that moment, the box in use not being the box of the
outline the reference zone has then. -/
def EVENT.staleReject (K : KERNEL) (e : EVENT) : Bool :=
  match e with
  | EVENT.inner v =>
    decide (v.branch = BRANCH.boxReject) &&
      TestZoneIntersection K (v.before.zone v.refZone) (v.before.zone v.otherZone) &&
      decide (v.b1 ≠ K.BBox (v.before.zone v.refZone).outline)
  | EVENT.outer _ _ _ => false

/-- The addresses `0, 1, ..., 2 ^ 32 + 1`. -/
@[irreducible] def hugeZones : List ZONE_PTR :=
  List.range 4294967298

/-- A board with `2 ^ 32 + 2` zones, each once, all on net 0 with an empty outline. -/
def boardHuge : BOARD where
  zone := fun _ => filledZone 0 0 0 ⟨[]⟩
  m_zones := hugeZones
  aDeletedList := []
  log := []

/-- The zone an iteration of the inner loop reads as `otherZone`. -/
def EVENT.examined : EVENT → Option ZONE_PTR
  | EVENT.inner v => some v.otherZone
  | EVENT.outer _ _ _ => none

/-- The zones read as `otherZone` in a record, in the order of the reads. -/
def examined (t : List EVENT) : List ZONE_PTR :=
  t.filterMap EVENT.examined

/-- Three zones on net 1: the square (0,0)-(10,10), the square (5,5)-(15,15) that overlaps
it, both with the local flag 0, and the square (12,12)-(20,20) with the local flag 1, which
overlaps the second square and is apart from the first. -/
def boardFlagged : BOARD :=
  boardOf [filledZone 1 0 0 (square 0 0 10 10), filledZone 1 0 0 (square 5 5 15 15),
    filledZone 1 0 1 (square 12 12 20 20)]

/-- The two states differ in the log messages at most. -/
def BOARD.sameZones (a b : BOARD) : Prop :=
  a.zone = b.zone ∧ a.m_zones = b.m_zones ∧ a.aDeletedList = b.aDeletedList

/-- The variables of the loops agree, the record of the run and the log messages apart. -/
def LOOP.same (s t : LOOP) : Prop :=
  s.board.sameZones t.board ∧ s.modified = t.modified ∧ s.mod_ia1 = t.mod_ia1

/-- Two runs fail in the same way, or both return and the results are related. -/
def sameRun {α : Type} (R : α → α → Prop) : Except FAULT α → Except FAULT α → Prop
  | Except.ok a, Except.ok b => R a b
  | Except.error e, Except.error f => e = f
  | _, _ => False

/-! ## Hot key names (`common/hotkeys_basic.cpp`) -/

/-- A `wxChar`, given by its code. -/
abbrev wxChar := Nat

/-- A `wxString`: the sequence of its characters. -/
abbrev wxString := List wxChar

/-- The string literal `wxT( "..." )`. -/
def wxT (s : String) : wxString :=
  s.toList.map Char.toNat

/-- The class "to handle the printable name and the keycode". -/
structure hotkey_name_descr where
  m_Name : wxString
  m_KeyCode : Int

/-- `#define KEY_NON_FOUND -1` -/
def KEY_NON_FOUND : Int := -1

/-! The key codes of wxWidgets (`enum wxKeyCode` of `wx/defs.h`) and the modifier bits
(`enum TOOL_MODIFIERS` of `tool/tool_event.h`) are used by name in this file and defined
outside it; their values are those of the two headers. -/

def WXK_BACK : Int := 8
def WXK_TAB : Int := 9
def WXK_RETURN : Int := 13
def WXK_ESCAPE : Int := 27
def WXK_SPACE : Int := 32
def WXK_DELETE : Int := 127
def WXK_END : Int := 312
def WXK_HOME : Int := 313
def WXK_LEFT : Int := 314
def WXK_UP : Int := 315
def WXK_RIGHT : Int := 316
def WXK_DOWN : Int := 317
def WXK_INSERT : Int := 322
def WXK_F1 : Int := 340
def WXK_F2 : Int := 341
def WXK_F3 : Int := 342
def WXK_F4 : Int := 343
def WXK_F5 : Int := 344
def WXK_F6 : Int := 345
def WXK_F7 : Int := 346
def WXK_F8 : Int := 347
def WXK_F9 : Int := 348
def WXK_F10 : Int := 349
def WXK_F11 : Int := 350
def WXK_F12 : Int := 351
def WXK_PAGEUP : Int := 366
def WXK_PAGEDOWN : Int := 367

def MD_SHIFT : Int := 0x1000
def MD_CTRL : Int := 0x2000
def MD_ALT : Int := 0x4000

/-- The "table giving the hotkey name from the hotkey code, for special keys", with its
end-of-list entry. -/
def hotkeyNameList : List hotkey_name_descr :=
  [ ⟨wxT "F1", WXK_F1⟩,
    ⟨wxT "F2", WXK_F2⟩,
    ⟨wxT "F3", WXK_F3⟩,
    ⟨wxT "F4", WXK_F4⟩,
    ⟨wxT "F5", WXK_F5⟩,
    ⟨wxT "F6", WXK_F6⟩,
    ⟨wxT "F7", WXK_F7⟩,
    ⟨wxT "F8", WXK_F8⟩,
    ⟨wxT "F9", WXK_F9⟩,
    ⟨wxT "F10", WXK_F10⟩,
    ⟨wxT "F11", WXK_F11⟩,
    ⟨wxT "F12", WXK_F12⟩,
    ⟨wxT "Esc", WXK_ESCAPE⟩,
    ⟨wxT "Del", WXK_DELETE⟩,
    ⟨wxT "Tab", WXK_TAB⟩,
    ⟨wxT "Back", WXK_BACK⟩,
    ⟨wxT "Ins", WXK_INSERT⟩,
    ⟨wxT "Home", WXK_HOME⟩,
    ⟨wxT "End", WXK_END⟩,
    ⟨wxT "PgUp", WXK_PAGEUP⟩,
    ⟨wxT "PgDn", WXK_PAGEDOWN⟩,
    ⟨wxT "Up", WXK_UP⟩,
    ⟨wxT "Down", WXK_DOWN⟩,
    ⟨wxT "Left", WXK_LEFT⟩,
    ⟨wxT "Right", WXK_RIGHT⟩,
    ⟨wxT "Return", WXK_RETURN⟩,
    ⟨wxT "Space", WXK_SPACE⟩,
    ⟨wxT "<unassigned>", 0⟩,
    ⟨wxT "", KEY_NON_FOUND⟩ ]

/-- `MODIFIER_CTRL`: "Cmd+" when `USING_MAC_CMD` is defined (`usingMacCmd`), "Ctrl+"
otherwise. -/
def MODIFIER_CTRL (usingMacCmd : Bool) : wxString :=
  if usingMacCmd then wxT "Cmd+" else wxT "Ctrl+"

def MODIFIER_CMD_MAC : wxString := wxT "Cmd+"
def MODIFIER_CTRL_BASE : wxString := wxT "Ctrl+"
def MODIFIER_ALT : wxString := wxT "Alt+"
def MODIFIER_SHIFT : wxString := wxT "Shift+"

/-- `aKeycode & aBit` for a modifier bit `aBit`, a power of 2: the bit of the two's
complement representation of `aKeycode`, which is `aKeycode / aBit` (rounded down) modulo 2,
at its place. -/
def bitAnd (aKeycode aBit : Int) : Int :=
  aKeycode / aBit % 2 * aBit

/-- `modifier | aBit` for a modifier bit `aBit`. -/
def bitOr (modifier aBit : Int) : Int :=
  modifier - bitAnd modifier aBit + aBit

/-- `aKeycode & ~( MD_CTRL | MD_ALT | MD_SHIFT )`: the three bits are cleared. -/
def clearModifiers (aKeycode : Int) : Int :=
  aKeycode - bitAnd aKeycode MD_CTRL - bitAnd aKeycode MD_ALT - bitAnd aKeycode MD_SHIFT

/-- The search loop of `KeyNameFromKeyCode`, `for( ii = 0; ; ii++ )`, from the entry it is
at: the key name and `found`.  (The table ends with the end-of-list entry, so the search
does not run past the table.) -/
def searchName : List hotkey_name_descr → Int → wxString × Bool
  | [], _ => (wxT "<unknown>", false)
  | e :: rest, aKeycode =>
    if e.m_KeyCode = KEY_NON_FOUND then
      (wxT "<unknown>", false)
    else if e.m_KeyCode = aKeycode then
      (e.m_Name, true)
    else
      searchName rest aKeycode

/-- `KeyNameFromKeyCode( aKeycode, aIsFound )`: the name returned and the value stored to
`*aIsFound`. -/
def KeyNameFromKeyCode (usingMacCmd : Bool) (aKeycode : Int) : wxString × Bool :=
  let modifier : wxString := []
  let modifier :=
    if bitAnd aKeycode MD_CTRL ≠ 0 then modifier ++ MODIFIER_CTRL usingMacCmd else modifier
  let modifier := if bitAnd aKeycode MD_ALT ≠ 0 then modifier ++ MODIFIER_ALT else modifier
  let modifier := if bitAnd aKeycode MD_SHIFT ≠ 0 then modifier ++ MODIFIER_SHIFT else modifier
  let aKeycode := clearModifiers aKeycode
  let r : wxString × Bool :=
    if aKeycode > 32 ∧ aKeycode < 0x7F then
      ([aKeycode.toNat], true)
    else
      searchName hotkeyNameList aKeycode
  (modifier ++ r.1, r.2)

/-- `key.StartsWith( prefix )` -/
def StartsWith (key pre : wxString) : Bool :=
  pre.isPrefixOf key

/-- The loop `while( true )` of `KeyCodeFromKeyName` that takes the modifier names off the
front of `key`: the rest of `key` and `modifier` at the `break`.  `fuel` bounds the number
of iterations followed. -/
def stripModifiers : Nat → wxString → Int → Option (wxString × Int)
  | 0, _, _ => none
  | fuel + 1, key, modifier =>
    if StartsWith key MODIFIER_CTRL_BASE then
      stripModifiers fuel (key.drop MODIFIER_CTRL_BASE.length) (bitOr modifier MD_CTRL)
    else if StartsWith key MODIFIER_CMD_MAC then
      stripModifiers fuel (key.drop MODIFIER_CMD_MAC.length) (bitOr modifier MD_CTRL)
    else if StartsWith key MODIFIER_ALT then
      stripModifiers fuel (key.drop MODIFIER_ALT.length) (bitOr modifier MD_ALT)
    else if StartsWith key MODIFIER_SHIFT then
      stripModifiers fuel (key.drop MODIFIER_SHIFT.length) (bitOr modifier MD_SHIFT)
    else
      some (key, modifier)

/-- The character in lower case (letters A to Z; other characters are left as they are). -/
def lowerCase (c : wxChar) : wxChar :=
  if 65 ≤ c ∧ c ≤ 90 then c + 32 else c

/-- `key.CmpNoCase( name ) == 0` -/
def equalNoCase (key name : wxString) : Bool :=
  key.map lowerCase == name.map lowerCase

/-- The search loop of `KeyCodeFromKeyName`,
`for( ii = 0; hotkeyNameList[ii].m_KeyCode != KEY_NON_FOUND; ii++ )`, from the entry it is
at: the value of `keycode` after the loop. -/
def searchCode : List hotkey_name_descr → wxString → Int → Int
  | [], _, _ => KEY_NON_FOUND
  | e :: rest, key, modifier =>
    if e.m_KeyCode ≠ KEY_NON_FOUND then
      if equalNoCase key e.m_Name then
        e.m_KeyCode + modifier
      else
        searchCode rest key modifier
    else
      KEY_NON_FOUND

/-- `KeyCodeFromKeyName( keyname )`.  Every iteration of the first loop takes at least 4
characters off `key`, so the budget of `keyname.length + 1` iterations is not used up
(`KeyCodeFromKeyName_returns`). -/
def KeyCodeFromKeyName (keyname : wxString) : Option Int :=
  match stripModifiers (keyname.length + 1) keyname 0 with
  | none => none
  | some (key, modifier) =>
    if key.length = 1 ∧ key.headD 0 > 32 ∧ key.headD 0 < 0x7F then
      some ((key.headD 0 : Int) + modifier)
    else
      some (searchCode hotkeyNameList key modifier)

/-- The sum of the modifier bits chosen. -/
def modifierBits (ctrl alt shift : Bool) : Int :=
  (if ctrl then MD_CTRL else 0) + (if alt then MD_ALT else 0) + (if shift then MD_SHIFT else 0)

/-- The names of the modifiers chosen, in the order `KeyNameFromKeyCode` writes them. -/
def modifierNames (usingMacCmd ctrl alt shift : Bool) : wxString :=
  (if ctrl then MODIFIER_CTRL usingMacCmd else []) ++ (if alt then MODIFIER_ALT else []) ++
    (if shift then MODIFIER_SHIFT else [])

/-- The key codes of the entries of `hotkeyNameList` before the end-of-list entry. -/
def tableCodes : List Int :=
  (hotkeyNameList.filter (fun e => decide (e.m_KeyCode ≠ KEY_NON_FOUND))).map
    hotkey_name_descr.m_KeyCode

/-- The box in use at the visit is the box of the outline the reference zone has at that
moment. -/
def VISIT.fresh (K : KERNEL) (v : VISIT) : Prop :=
  v.b1 = K.BBox (v.before.zone v.refZone).outline

/-- The record has the visit `v` and, at `v` or after it, a visit of the same two zones that
the box test did not reject, or that used the box of the outline the reference zone had at
that moment. -/
def examinedAgain (K : KERNEL) (t : List EVENT) (v : VISIT) : Prop :=
  ∃ t1 t2 w, t = t1 ++ EVENT.inner v :: t2 ∧ EVENT.inner w ∈ EVENT.inner v :: t2 ∧
    w.refZone = v.refZone ∧ w.otherZone = v.otherZone ∧
    (w.branch ≠ BRANCH.boxReject ∨ w.fresh K)

/-- Invariant of the inner loop for the pairs the box test rejected: `n` is the value of
`ia2` at the loop test. -/
def rescanInv (K : KERNEL) (aNetCode : Int) (i : Nat) (ref : ZONE_PTR) (b1 : BOX2I)
    (n : Nat) (s : LOOP) : Prop :=
  s.board.m_zones.Nodup ∧ s.board.m_zones.length < 4294967296 ∧
  s.board.m_zones[i]? = some ref ∧
  (s.board.zone ref).netCode = aNetCode ∧
  (s.mod_ia1 = false → b1 = K.BBox (s.board.zone ref).outline) ∧
  ∀ v, EVENT.inner v ∈ s.trace → v.branch = BRANCH.boxReject →
    examinedAgain K s.trace v ∨
    (v.refZone = ref ∧ v.otherZone ∈ (s.board.m_zones.take (n + 1)).drop (i + 1)) ∨
    (s.mod_ia1 = true ∧ v.refZone = ref ∧ v.otherZone ∈ s.board.m_zones.drop (i + 1))

/-- Invariant of the outer loop for the pairs the box test rejected: `i` is the value of
`ia1` at the loop test. -/
def rescanOuterInv (K : KERNEL) (aNetCode : Int) (i : Nat) (s : LOOP) : Prop :=
  s.board.m_zones.Nodup ∧ s.board.m_zones.length < 4294967296 ∧
  ∀ v, EVENT.inner v ∈ s.trace → v.branch = BRANCH.boxReject →
    examinedAgain K s.trace v ∨
    (s.board.m_zones[i]? = some v.refZone ∧ (s.board.zone v.refZone).netCode = aNetCode ∧
      v.otherZone ∈ s.board.m_zones.drop (i + 1))

/-- What a visit of the record shows of the box test: the two zones, the path taken, and
whether the box in use was the box of the outline the reference zone had at that moment. -/
def EVENT.boxSummary (K : KERNEL) : EVENT → Option (ZONE_PTR × ZONE_PTR × BRANCH × Bool)
  | EVENT.inner v =>
    some (v.refZone, v.otherZone, v.branch,
      decide (v.b1 = K.BBox (v.before.zone v.refZone).outline))
  | EVENT.outer _ _ _ => none

/-- The record has, before the visit `v`, a call of `CombineZones` that returned true for
the reference zone of `v` at the outer index of `v`. -/
def absorbedBefore (t : List EVENT) (v : VISIT) : Prop :=
  ∃ t1 t2 w, t = t1 ++ EVENT.inner v :: t2 ∧ EVENT.inner w ∈ t1 ∧
    w.branch = BRANCH.combine true ∧ w.refZone = v.refZone ∧ w.ia1 = v.ia1

/-! ## Lists -/

theorem filter_ne_cons_self (t : List ZONE_PTR) (a : ZONE_PTR) :
    (a :: t).filter (fun z => decide (z ≠ a)) = t.filter (fun z => decide (z ≠ a)) :=
  List.filter_cons_of_neg (by simp)

theorem filter_ne_cons_of_ne (t : List ZONE_PTR) (x a : ZONE_PTR) (h : x ≠ a) :
    (x :: t).filter (fun z => decide (z ≠ a)) = x :: t.filter (fun z => decide (z ≠ a)) :=
  List.filter_cons_of_pos (by simpa using h)

theorem length_filter_ne_lt (l : List ZONE_PTR) (a : ZONE_PTR) (h : a ∈ l) :
    (l.filter (fun z => decide (z ≠ a))).length < l.length := by
  induction l with
  | nil => simp at h
  | cons x t ih =>
    by_cases hx : x = a
    · subst hx
      have := List.length_filter_le (fun z => decide (z ≠ x)) t
      rw [filter_ne_cons_self, List.length_cons]
      omega
    · have ht : a ∈ t := by
        rcases List.mem_cons.1 h with h | h
        · exact absurd h.symm hx
        · exact h
      have := ih ht
      rw [filter_ne_cons_of_ne t x a hx, List.length_cons, List.length_cons]
      omega

theorem filter_ne_of_not_mem (l : List ZONE_PTR) (a : ZONE_PTR) (h : a ∉ l) :
    l.filter (fun z => decide (z ≠ a)) = l := by
  rw [List.filter_eq_self]
  intro x hx
  have : x ≠ a := fun e => h (e ▸ hx)
  simpa using this

theorem getElem?_filter_ne (l : List ZONE_PTR) (hn : l.Nodup) (a : ZONE_PTR) (j : Nat)
    (hj : l[j]? = some a) (i : Nat) (hi : i < j) :
    (l.filter (fun z => decide (z ≠ a)))[i]? = l[i]? := by
  induction l generalizing i j with
  | nil => simp
  | cons x t ih =>
    have hnt : t.Nodup := (List.nodup_cons.1 hn).2
    have hxt : x ∉ t := (List.nodup_cons.1 hn).1
    cases j with
    | zero => omega
    | succ j =>
      have hj1 : t[j]? = some a := by simpa using hj
      have hat : a ∈ t := List.mem_iff_getElem?.2 ⟨j, hj1⟩
      have hxa : x ≠ a := fun e => hxt (e ▸ hat)
      rw [filter_ne_cons_of_ne t x a hxa]
      cases i with
      | zero => simp
      | succ i =>
        have := ih hnt j hj1 i (by omega)
        simpa using this

theorem length_filter_ne_nodup (l : List ZONE_PTR) (hn : l.Nodup) (a : ZONE_PTR) (h : a ∈ l) :
    (l.filter (fun z => decide (z ≠ a))).length + 1 = l.length := by
  induction l with
  | nil => simp at h
  | cons x t ih =>
    have hnt : t.Nodup := (List.nodup_cons.1 hn).2
    have hxt : x ∉ t := (List.nodup_cons.1 hn).1
    by_cases hx : x = a
    · subst hx
      rw [filter_ne_cons_self, filter_ne_of_not_mem t x hxt, List.length_cons]
    · have ht : a ∈ t := by
        rcases List.mem_cons.1 h with h | h
        · exact absurd h.symm hx
        · exact h
      have := ih hnt ht
      rw [filter_ne_cons_of_ne t x a hx, List.length_cons, List.length_cons]
      omega


/-! ## `CombineZones`: theorems -/

theorem CombineZones_eq_of_one (K : KERNEL) (b : BOARD) (ref other : ZONE_PTR)
    (hne : ref ≠ other) (hle : (mergedOutlines K b ref other).OutlineCount ≤ 1) :
    CombineZones K b ref other =
      (true, (((b.SetOutline ref (mergedOutlines K b ref other)).RemoveZone other).SetLocalFlags
        ref 1).HatchBorder K ref) := by
  unfold CombineZones
  rw [if_neg hne]
  have h2 : ¬ (mergedOutlines K b ref other).OutlineCount > 2 := by omega
  have h1 : ¬ (mergedOutlines K b ref other).OutlineCount > 1 := by omega
  simp only [h2, h1, if_false]

theorem CombineZones_true_cond (K : KERNEL) (b : BOARD) (ref other : ZONE_PTR)
    (h : (CombineZones K b ref other).1 = true) :
    ref ≠ other ∧ (mergedOutlines K b ref other).OutlineCount ≤ 1 := by
  unfold CombineZones at h
  by_cases he : ref = other
  · rw [if_pos he] at h
    exact absurd h (by simp)
  · refine ⟨he, ?_⟩
    by_contra hc
    by_cases h2 : (mergedOutlines K b ref other).OutlineCount > 2
    · simp [if_neg he, if_pos h2] at h
    · have h1 : (mergedOutlines K b ref other).OutlineCount > 1 := by omega
      simp [if_neg he, if_neg h2, if_pos h1] at h

theorem CombineZones_true_effect (K : KERNEL) (b : BOARD) (ref other : ZONE_PTR)
    (h : (CombineZones K b ref other).1 = true) :
    ref ≠ other ∧
    (CombineZones K b ref other).2.m_zones = b.m_zones.filter (fun z => decide (z ≠ other)) ∧
    (CombineZones K b ref other).2.aDeletedList = b.aDeletedList ++ [other] ∧
    (CombineZones K b ref other).2.log = b.log ∧
    (∀ p, p ≠ ref → (CombineZones K b ref other).2.zone p = b.zone p) ∧
    (CombineZones K b ref other).2.zone ref =
      { b.zone ref with
          outline := mergedOutlines K b ref other
          localFlags := 1
          borderHatchLines := K.hatchLines (mergedOutlines K b ref other) } := by
  obtain ⟨hne, hle⟩ := CombineZones_true_cond K b ref other h
  rw [CombineZones_eq_of_one K b ref other hne hle]
  refine ⟨hne, rfl, rfl, rfl, ?_, ?_⟩
  · intro p hp
    simp [BOARD.HatchBorder, BOARD.SetLocalFlags, BOARD.RemoveZone, BOARD.SetOutline,
      Function.update, hp]
  · simp [BOARD.HatchBorder, BOARD.SetLocalFlags, BOARD.RemoveZone, BOARD.SetOutline]

theorem CombineZones_false_frame (K : KERNEL) (b : BOARD) (ref other : ZONE_PTR)
    (h : (CombineZones K b ref other).1 = false) :
    (ref = other ∨ (mergedOutlines K b ref other).OutlineCount = 2 ∨
      2 < (mergedOutlines K b ref other).OutlineCount) ∧
    (CombineZones K b ref other).2.m_zones = b.m_zones ∧
    (CombineZones K b ref other).2.aDeletedList = b.aDeletedList ∧
    (CombineZones K b ref other).2.zone = b.zone := by
  unfold CombineZones at h ⊢
  by_cases he : ref = other
  · simp [he]
  · by_cases h2 : (mergedOutlines K b ref other).OutlineCount > 2
    · simp only [if_neg he, if_pos h2]
      refine ⟨Or.inr (Or.inr h2), ?_, ?_, ?_⟩ <;> trivial
    · by_cases h1 : (mergedOutlines K b ref other).OutlineCount > 1
      · simp only [if_neg he, if_neg h2, if_pos h1]
        refine ⟨Or.inr (Or.inl (by omega)), ?_, ?_, ?_⟩ <;> trivial
      · simp only [if_neg he, if_neg h2, if_neg h1] at h
        exact absurd h (by simp)

/-- C1: for distinct zones whose simplified union has exactly one outline component,
`CombineZones` returns true, the reference zone holds the simplified union as its outline,
the other zone has left the collection and is on the deleted list, and the local flag of the
reference zone is set (it is 1). -/
theorem CombineZones_one_component (K : KERNEL) (b : BOARD) (ref other : ZONE_PTR)
    (hne : ref ≠ other) (hone : (mergedOutlines K b ref other).OutlineCount = 1) :
    (CombineZones K b ref other).1 = true ∧
    ((CombineZones K b ref other).2.zone ref).outline = mergedOutlines K b ref other ∧
    other ∉ (CombineZones K b ref other).2.m_zones ∧
    other ∈ (CombineZones K b ref other).2.aDeletedList ∧
    ((CombineZones K b ref other).2.zone ref).localFlags = 1 ∧
    ((CombineZones K b ref other).2.zone ref).localFlags ≠ 0 := by
  rw [CombineZones_eq_of_one K b ref other hne (by omega)]
  simp [BOARD.HatchBorder, BOARD.SetLocalFlags, BOARD.RemoveZone, BOARD.SetOutline]

/-- Instance of C1 on the two overlapping squares. -/
theorem CombineZones_one_component_witness :
    ((0 : ZONE_PTR) ≠ 1 ∧ (mergedOutlines specKernel boardOverlap 0 1).OutlineCount = 1) ∧
    ((CombineZones specKernel boardOverlap 0 1).1 = true ∧
    ((CombineZones specKernel boardOverlap 0 1).2.zone 0).outline =
      mergedOutlines specKernel boardOverlap 0 1 ∧
    1 ∉ (CombineZones specKernel boardOverlap 0 1).2.m_zones ∧
    1 ∈ (CombineZones specKernel boardOverlap 0 1).2.aDeletedList ∧
    ((CombineZones specKernel boardOverlap 0 1).2.zone 0).localFlags = 1 ∧
    ((CombineZones specKernel boardOverlap 0 1).2.zone 0).localFlags ≠ 0) :=
  ⟨⟨by decide, by decide⟩,
    CombineZones_one_component specKernel boardOverlap 0 1 (by decide) (by decide)⟩

/-- C2: whenever `CombineZones` returns false, the zones are the same object or the
simplified union has exactly 2 or more than 2 outline components, and the collection, the
deleted list and every zone object (so both outlines and both local flags) are what they
were before the call. -/
theorem CombineZones_false_unchanged (K : KERNEL) (b : BOARD) (ref other : ZONE_PTR)
    (h : (CombineZones K b ref other).1 = false) :
    (ref = other ∨ (mergedOutlines K b ref other).OutlineCount = 2 ∨
      2 < (mergedOutlines K b ref other).OutlineCount) ∧
    (CombineZones K b ref other).2.m_zones = b.m_zones ∧
    (CombineZones K b ref other).2.aDeletedList = b.aDeletedList ∧
    (CombineZones K b ref other).2.zone = b.zone :=
  CombineZones_false_frame K b ref other h

/-- Instance of C2 on the two squares that touch at a corner. -/
theorem CombineZones_false_unchanged_witness :
    (CombineZones specKernel boardTouch 0 1).1 = false ∧
    ((0 = 1 ∨ (mergedOutlines specKernel boardTouch 0 1).OutlineCount = 2 ∨
      2 < (mergedOutlines specKernel boardTouch 0 1).OutlineCount) ∧
    (CombineZones specKernel boardTouch 0 1).2.m_zones = boardTouch.m_zones ∧
    (CombineZones specKernel boardTouch 0 1).2.aDeletedList = boardTouch.aDeletedList ∧
    (CombineZones specKernel boardTouch 0 1).2.zone = boardTouch.zone) :=
  ⟨by decide, CombineZones_false_unchanged specKernel boardTouch 0 1 (by decide)⟩

/-- C3, counterexample: on two distinct zones with empty outlines the simplified union has
no outline component, and `CombineZones` returns true. -/
theorem CombineZones_true_iff_one_counterexample :
    ¬ ((CombineZones specKernel boardEmptyOutlines 0 1).1 = true ↔
        ((0 : ZONE_PTR) ≠ 1 ∧
          (mergedOutlines specKernel boardEmptyOutlines 0 1).OutlineCount = 1)) := by
  decide

/-- C3, amended: `CombineZones` returns true if and only if the zones are distinct and the
simplified union of their outlines has at most one outline component (one, or none). -/
theorem CombineZones_true_iff_at_most_one (K : KERNEL) (b : BOARD) (ref other : ZONE_PTR) :
    (CombineZones K b ref other).1 = true ↔
      (ref ≠ other ∧ (mergedOutlines K b ref other).OutlineCount ≤ 1) := by
  constructor
  · exact CombineZones_true_cond K b ref other
  · rintro ⟨hne, hle⟩
    rw [CombineZones_eq_of_one K b ref other hne hle]

/-! ## `TestZoneIntersection` and `TestZoneIntersections`: theorems -/

theorem TestZoneIntersection_true_iff (K : KERNEL) (z1 z2 : ZONE) :
    TestZoneIntersection K z1 z2 = true ↔
      z1.layer = z2.layer ∧
      K.Intersects (K.BBox z1.outline) (K.BBox z2.outline) = true ∧
      ((∃ s1 ∈ K.IterateSegmentsWithHoles z1.outline,
          ∃ s2 ∈ K.IterateSegmentsWithHoles z2.outline, K.Collide s1 s2 0 = true) ∨
       (∃ v ∈ K.IterateWithHoles z2.outline, K.Contains z1.outline v = true) ∨
       (∃ v ∈ K.IterateWithHoles z1.outline, K.Contains z2.outline v = true)) := by
  unfold TestZoneIntersection
  dsimp only
  simp only [← List.any_eq_true]
  split_ifs <;> simp_all

/-- C4: `TestZoneIntersection` returns true if and only if the two zones are on the same
layer, the bounding boxes of their outlines intersect, and a boundary segment of the first
collides at clearance 0 with a boundary segment of the second, or a vertex of the second
outline is contained in the first outline, or a vertex of the first is contained in the
second. -/
theorem TestZoneIntersection_iff (K : KERNEL) (z1 z2 : ZONE) :
    TestZoneIntersection K z1 z2 = true ↔
      z1.layer = z2.layer ∧
      K.Intersects (K.BBox z1.outline) (K.BBox z2.outline) = true ∧
      ((∃ s1 ∈ K.IterateSegmentsWithHoles z1.outline,
          ∃ s2 ∈ K.IterateSegmentsWithHoles z2.outline, K.Collide s1 s2 0 = true) ∨
       (∃ v ∈ K.IterateWithHoles z2.outline, K.Contains z1.outline v = true) ∨
       (∃ v ∈ K.IterateWithHoles z1.outline, K.Contains z2.outline v = true)) :=
  TestZoneIntersection_true_iff K z1 z2

theorem ite_ne_false {α : Type} [DecidableEq α] (u v : α) (x : Bool) :
    (if u ≠ v then false else x) = true ↔ (u = v ∧ x = true) := by
  by_cases h : u = v <;> simp [h]

theorem ite_eq_false_left (p : Prop) [Decidable p] (x : Bool) :
    (if p then false else x) = true ↔ (¬ p ∧ x = true) := by
  by_cases h : p <;> simp [h]

theorem TestZoneIntersections_body_iff (K : KERNEL) (b : BOARD) (z o : ZONE_PTR) :
    TestZoneIntersections.body K b z o = true ↔
      (o ≠ z ∧ (b.zone o).netCode = (b.zone z).netCode ∧
        (b.zone o).layerSet = (b.zone z).layerSet ∧
        (b.zone o).priority = (b.zone z).priority ∧
        (b.zone o).isRuleArea = (b.zone z).isRuleArea ∧
        sameModeAttributes (b.zone z) (b.zone o) ∧
        TestZoneIntersection K (b.zone z) (b.zone o) = true) := by
  unfold TestZoneIntersections.body sameModeAttributes
  dsimp only
  generalize TestZoneIntersection K (b.zone z) (b.zone o) = t
  generalize b.zone z = a
  generalize b.zone o = c
  rw [ite_ne_false, ite_eq_false_left, ite_ne_false, ite_ne_false, ite_ne_false]
  by_cases hr : a.isRuleArea = true
  · rw [if_pos hr, if_pos hr, ite_ne_false, ite_ne_false, ite_ne_false, ite_ne_false,
      ite_ne_false]
    constructor
    · rintro ⟨h1, h2, h3, h4, h5, a1, a2, a3, a4, a5, h⟩
      exact ⟨fun e => h2 e.symm, h1.symm, h3.symm, h4.symm, h5.symm, ⟨a1, a2, a3, a4, a5⟩, h⟩
    · rintro ⟨h2, h1, h3, h4, h5, ⟨a1, a2, a3, a4, a5⟩, h⟩
      exact ⟨h1.symm, fun e => h2 e.symm, h3.symm, h4.symm, h5.symm, a1, a2, a3, a4, a5, h⟩
  · rw [if_neg hr, if_neg hr, ite_ne_false, ite_ne_false, ite_ne_false, ite_ne_false,
      ite_ne_false, ite_ne_false, ite_ne_false, ite_ne_false]
    constructor
    · rintro ⟨h1, h2, h3, h4, h5, a1, a2, a3, _, a4, a5, a6, a7, h⟩
      exact ⟨fun e => h2 e.symm, h1.symm, h3.symm, h4.symm, h5.symm,
        ⟨a1, a2, a3, a4, a5, a6, a7⟩, h⟩
    · rintro ⟨h2, h1, h3, h4, h5, ⟨a1, a2, a3, a4, a5, a6, a7⟩, h⟩
      exact ⟨h1.symm, fun e => h2 e.symm, h3.symm, h4.symm, h5.symm, a1, a2, a3, a1, a4, a5,
        a6, a7, h⟩

/-- C5: `TestZoneIntersections( z )` returns true if and only if the collection holds a zone
`o`, not `z` itself, with the net code, layer set, priority and rule-area flag of `z`, whose
mode-specific attributes equal those of `z`, and for which `TestZoneIntersection( z, o )`
is true. -/
theorem TestZoneIntersections_iff (K : KERNEL) (b : BOARD) (z : ZONE_PTR) :
    TestZoneIntersections K b z = true ↔
      ∃ o ∈ b.m_zones, o ≠ z ∧ (b.zone o).netCode = (b.zone z).netCode ∧
        (b.zone o).layerSet = (b.zone z).layerSet ∧
        (b.zone o).priority = (b.zone z).priority ∧
        (b.zone o).isRuleArea = (b.zone z).isRuleArea ∧
        sameModeAttributes (b.zone z) (b.zone o) ∧
        TestZoneIntersection K (b.zone z) (b.zone o) = true := by
  unfold TestZoneIntersections
  rw [List.any_eq_true]
  constructor
  · rintro ⟨o, ho, h⟩
    exact ⟨o, ho, (TestZoneIntersections_body_iff K b z o).1 h⟩
  · rintro ⟨o, ho, h⟩
    exact ⟨o, ho, (TestZoneIntersections_body_iff K b z o).2 h⟩

/-! ## `CombineAllZonesInNet`: theorems -/

/-- C13: on a board with fewer than 2 zones `CombineAllZonesInNet` returns false without
entering its loops: the state after the call is the state before it (collection, deleted
list and every zone object), and no pair was visited. -/
theorem CombineAllZonesInNet_fewer_than_two (K : KERNEL) (b : BOARD) (aNetCode : Int)
    (aUseLocalFlags : Bool) (h : b.m_zones.length < 2) :
    CombineAllZonesInNet K b aNetCode aUseLocalFlags = Except.ok ⟨false, b, []⟩ := by
  unfold CombineAllZonesInNet BOARD.size
  have : b.m_zones.length % 2 ^ 64 ≤ 1 := by omega
  rw [if_pos this]

/-- Instance of C13 on the board with one zone. -/
theorem CombineAllZonesInNet_fewer_than_two_witness :
    boardSingle.m_zones.length < 2 ∧
    CombineAllZonesInNet specKernel boardSingle 1 true = Except.ok ⟨false, boardSingle, []⟩ :=
  ⟨by decide, CombineAllZonesInNet_fewer_than_two specKernel boardSingle 1 true (by decide)⟩

/-! ### One iteration of the inner loop -/

theorem innerBody_ok (K : KERNEL) (aNetCode : Int) (aUseLocalFlags : Bool) (ia1 : Nat)
    (refZone : ZONE_PTR) (b1 : BOX2I) (ia2 : Nat) (s s1 : LOOP)
    (h : innerBody K aNetCode aUseLocalFlags ia1 refZone b1 ia2 s = Except.ok s1) :
    ∃ otherZone br, s.board.m_zones[ia2]? = some otherZone ∧
      s1.trace = s.trace ++ [EVENT.inner ⟨s.board, ia1, ia2, refZone, otherZone, b1, br⟩] ∧
      ((∃ ret, br = BRANCH.combine ret ∧
          pairGuard K aNetCode aUseLocalFlags s.board b1 refZone otherZone ∧
          TestZoneIntersection K (s.board.zone refZone) (s.board.zone otherZone) = true ∧
          (CombineZones K s.board refZone otherZone).1 = ret ∧
          s1.board = (CombineZones K s.board refZone otherZone).2 ∧
          s1.modified = (s.modified || ret) ∧ s1.mod_ia1 = (s.mod_ia1 || ret)) ∨
       ((∀ ret, br ≠ BRANCH.combine ret) ∧ s1.board = s.board ∧ s1.modified = s.modified ∧
          s1.mod_ia1 = s.mod_ia1 ∧
          (br = BRANCH.notIntersecting →
            pairGuard K aNetCode aUseLocalFlags s.board b1 refZone otherZone ∧
            TestZoneIntersection K (s.board.zone refZone) (s.board.zone otherZone) = false) ∧
          (br = BRANCH.boxReject →
            K.Intersects b1 (K.BBox (s.board.zone otherZone).outline) = false))) := by
  unfold innerBody at h
  cases hget : s.board.m_zones[ia2]? with
  | none =>
    rw [hget] at h
    exact absurd h (by simp)
  | some otherZone =>
    rw [hget] at h
    dsimp only at h
    refine ⟨otherZone, ?_⟩
    split_ifs at h with c1 c2 c3 c4 c5 c6 c7 c8
    all_goals (injection h with h; subst h)
    · exact ⟨_, rfl, rfl, Or.inr ⟨by simp, rfl, rfl, rfl, by simp, by simp⟩⟩
    · exact ⟨_, rfl, rfl, Or.inr ⟨by simp, rfl, rfl, rfl, by simp, by simp⟩⟩
    · exact ⟨_, rfl, rfl, Or.inr ⟨by simp, rfl, rfl, rfl, by simp, by simp⟩⟩
    · exact ⟨_, rfl, rfl, Or.inr ⟨by simp, rfl, rfl, rfl, by simp, by simp⟩⟩
    · refine ⟨_, rfl, rfl, Or.inl ⟨true, rfl, ?_, c7, c8, rfl, by simp, by simp⟩⟩
      exact ⟨not_not.1 c1, not_not.1 c2, not_not.1 c3, not_not.1 c4, c5, c6⟩
    · refine ⟨_, rfl, rfl, Or.inl ⟨false, rfl, ?_, c7, by simpa using c8, rfl, by simp, by simp⟩⟩
      exact ⟨not_not.1 c1, not_not.1 c2, not_not.1 c3, not_not.1 c4, c5, c6⟩
    · refine ⟨_, rfl, rfl, Or.inr ⟨by simp, rfl, rfl, rfl, fun _ => ⟨?_, by simpa using c7⟩,
        by simp⟩⟩
      exact ⟨not_not.1 c1, not_not.1 c2, not_not.1 c3, not_not.1 c4, c5, c6⟩
    · exact ⟨_, rfl, rfl, Or.inr ⟨by simp, rfl, rfl, rfl, by simp, by simp⟩⟩
    · exact ⟨_, rfl, rfl, Or.inr ⟨by simp, rfl, rfl, rfl, by simp, fun _ => by simpa using c5⟩⟩

theorem innerBody_returns (K : KERNEL) (aNetCode : Int) (aUseLocalFlags : Bool) (ia1 : Nat)
    (refZone : ZONE_PTR) (b1 : BOX2I) (ia2 : Nat) (s : LOOP) (otherZone : ZONE_PTR)
    (hget : s.board.m_zones[ia2]? = some otherZone) :
    ∃ s1, innerBody K aNetCode aUseLocalFlags ia1 refZone b1 ia2 s = Except.ok s1 := by
  unfold innerBody
  rw [hget]
  dsimp only
  split_ifs <;> exact ⟨_, rfl⟩


theorem innerBody_zones (K : KERNEL) (aNetCode : Int) (aUseLocalFlags : Bool) (ia1 : Nat)
    (refZone : ZONE_PTR) (b1 : BOX2I) (ia2 : Nat) (s s1 : LOOP)
    (h : innerBody K aNetCode aUseLocalFlags ia1 refZone b1 ia2 s = Except.ok s1) :
    (s1.board.m_zones = s.board.m_zones ∧ s1.mod_ia1 = s.mod_ia1 ∧
      s1.modified = s.modified) ∨
    (∃ otherZone, s.board.m_zones[ia2]? = some otherZone ∧ refZone ≠ otherZone ∧
      s1.board.m_zones = s.board.m_zones.filter (fun z => decide (z ≠ otherZone)) ∧
      s1.mod_ia1 = true ∧ s1.modified = true) := by
  obtain ⟨otherZone, br, hget, -, hc | hc⟩ := innerBody_ok K aNetCode aUseLocalFlags ia1 refZone b1 ia2 s s1 h
  · obtain ⟨ret, -, -, -, hret, hb, hm, hi⟩ := hc
    cases ret with
    | true =>
      obtain ⟨hne, hz, -⟩ := CombineZones_true_effect K s.board refZone otherZone hret
      exact Or.inr ⟨otherZone, hget, hne, by rw [hb, hz], by simp [hi], by simp [hm]⟩
    | false =>
      obtain ⟨-, hz, -⟩ := CombineZones_false_frame K s.board refZone otherZone hret
      exact Or.inl ⟨by rw [hb, hz], by simp [hi], by simp [hm]⟩
  · obtain ⟨-, hb, hm, hi, -, -⟩ := hc
    exact Or.inl ⟨by rw [hb], hi, hm⟩

/-! ### The loops return -/

theorem innerLoop_returns (K : KERNEL) (aNetCode : Int) (aUseLocalFlags : Bool) (ia1 : Nat)
    (refZone : ZONE_PTR) (b1 : BOX2I) :
    ∀ (n : Nat) (s : LOOP), s.board.m_zones.Nodup → (ia1 < n → n < s.board.m_zones.length) →
      s.board.m_zones[ia1]? = some refZone →
      ∃ s1, innerLoop K aNetCode aUseLocalFlags ia1 refZone b1 n s = Except.ok s1 ∧
        s1.board.m_zones.Nodup ∧ s1.board.m_zones[ia1]? = some refZone ∧
        s1.board.m_zones.length ≤ s.board.m_zones.length ∧
        (s1.mod_ia1 = true → s.mod_ia1 = true ∨
          s1.board.m_zones.length < s.board.m_zones.length) := by
  intro n
  induction n with
  | zero =>
    intro s hn _ hr
    exact ⟨s, rfl, hn, hr, le_refl _, fun h => Or.inl h⟩
  | succ n ih =>
    intro s hn hlt hr
    unfold innerLoop
    by_cases hgt : n + 1 > ia1
    · rw [if_pos hgt]
      have hlen := hlt hgt
      have hget : s.board.m_zones[n + 1]? = some (s.board.m_zones[n + 1]) :=
        List.getElem?_eq_getElem hlen
      obtain ⟨s', hs'⟩ := innerBody_returns K aNetCode aUseLocalFlags ia1 refZone b1 (n + 1) s _ hget
      rw [hs']
      dsimp only
      rcases innerBody_zones K aNetCode aUseLocalFlags ia1 refZone b1 (n + 1) s s' hs' with
        ⟨hz, hi, -⟩ | ⟨other, hget', hne, hz, hi, -⟩
      · obtain ⟨s1, h1, hn1, hr1, hl1, hm1⟩ := ih s' (by rw [hz]; exact hn)
          (by intro _; rw [hz]; omega) (by rw [hz]; exact hr)
        refine ⟨s1, h1, hn1, hr1, by rw [hz] at hl1; exact hl1, ?_⟩
        intro hm
        rcases hm1 hm with h | h
        · exact Or.inl (by rw [← hi]; exact h)
        · exact Or.inr (by rw [hz] at h; exact h)
      · have hmem : other ∈ s.board.m_zones := List.mem_iff_getElem?.2 ⟨_, hget'⟩
        have hl := length_filter_ne_nodup s.board.m_zones hn other hmem
        have hr' : s'.board.m_zones[ia1]? = some refZone := by
          rw [hz, getElem?_filter_ne s.board.m_zones hn other (n + 1) hget' ia1 hgt]
          exact hr
        obtain ⟨s1, h1, hn1, hr1, hl1, -⟩ := ih s' (by rw [hz]; exact hn.filter _)
          (by intro _; rw [hz]; omega) hr'
        rw [hz] at hl1
        exact ⟨s1, h1, hn1, hr1, by omega, fun _ => Or.inr (by omega)⟩
    · rw [if_neg hgt]
      exact ⟨s, rfl, hn, hr, le_refl _, fun h => Or.inl h⟩

theorem getElem?_of_lt (l : List ZONE_PTR) (i : Nat) (h : i < l.length) :
    ∃ a, l[i]? = some a :=
  ⟨l[i], List.getElem?_eq_getElem h⟩

theorem sizeMinusOne_eq (b : BOARD) (h1 : 1 ≤ b.m_zones.length)
    (h2 : b.m_zones.length < 2 ^ 32) : b.sizeMinusOne = b.m_zones.length - 1 := by
  have h32 : (2 : Nat) ^ 32 = 4294967296 := by norm_num
  have h64 : (2 : Nat) ^ 64 = 18446744073709551616 := by norm_num
  rw [h32] at h2
  unfold BOARD.sizeMinusOne BOARD.size
  rw [h64]
  have : b.m_zones.length % 18446744073709551616 = b.m_zones.length := by omega
  rw [this, if_neg (by omega)]

theorem outerBody_ok (K : KERNEL) (aNetCode : Int) (aUseLocalFlags : Bool) (ia1 : Nat)
    (s : LOOP) (i1 : Nat) (s1 : LOOP)
    (h : outerBody K aNetCode aUseLocalFlags ia1 s = Except.ok (i1, s1)) :
    ∃ refZone, s.board.m_zones[ia1]? = some refZone ∧
      (((s.board.zone refZone).netCode ≠ aNetCode ∧ s1 = s ∧ i1 = (ia1 + 1) % 2 ^ 32) ∨
       ((s.board.zone refZone).netCode = aNetCode ∧
        innerLoop K aNetCode aUseLocalFlags ia1 refZone
          (K.BBox (s.board.zone refZone).outline) (s.board.sizeMinusOne % 2 ^ 32)
          { s with mod_ia1 := false,
                   trace := s.trace ++ [EVENT.outer ia1 refZone s.board] } = Except.ok s1 ∧
        (s1.mod_ia1 = true →
          i1 = ((if ia1 = 0 then 2 ^ 32 - 1 else ia1 - 1) + 1) % 2 ^ 32) ∧
        (s1.mod_ia1 = false → i1 = (ia1 + 1) % 2 ^ 32))) := by
  unfold outerBody at h
  cases hget : s.board.m_zones[ia1]? with
  | none =>
    rw [hget] at h
    exact absurd h (by simp)
  | some refZone =>
    rw [hget] at h
    simp only [] at h
    refine ⟨refZone, rfl, ?_⟩
    by_cases hnet : (s.board.zone refZone).netCode ≠ aNetCode
    · rw [if_pos hnet] at h
      have h' := Prod.mk.inj (Except.ok.inj h)
      exact Or.inl ⟨hnet, h'.2.symm, h'.1.symm⟩
    · rw [if_neg hnet] at h
      cases hin : innerLoop K aNetCode aUseLocalFlags ia1 refZone
          (K.BBox (s.board.zone refZone).outline) (s.board.sizeMinusOne % 2 ^ 32)
          { s with mod_ia1 := false,
                   trace := s.trace ++ [EVENT.outer ia1 refZone s.board] } with
      | error e =>
        rw [hin] at h
        simp only [] at h
        exact Except.noConfusion h
      | ok s2 =>
        rw [hin] at h
        simp only [] at h
        have h' := Prod.mk.inj (Except.ok.inj h)
        have h2 : s2 = s1 := h'.2
        subst h2
        refine Or.inr ⟨not_not.1 hnet, rfl, ?_, ?_⟩
        · intro hm
          have h1 := h'.1
          rw [if_pos hm] at h1
          exact h1.symm
        · intro hm
          have h1 := h'.1
          rw [if_neg (by simp [hm])] at h1
          exact h1.symm

theorem outerBody_returns (K : KERNEL) (aNetCode : Int) (aUseLocalFlags : Bool) (ia1 : Nat)
    (s : LOOP) (hn : s.board.m_zones.Nodup) (hlen : s.board.m_zones.length < 2 ^ 32)
    (hi : ia1 + 1 < s.board.m_zones.length) :
    ∃ i1 s1, outerBody K aNetCode aUseLocalFlags ia1 s = Except.ok (i1, s1) ∧
      s1.board.m_zones.Nodup ∧ 1 ≤ s1.board.m_zones.length ∧
      s1.board.m_zones.length ≤ s.board.m_zones.length ∧
      (i1 = ia1 + 1 ∨ (i1 = ia1 ∧ s1.board.m_zones.length < s.board.m_zones.length)) := by
  have hsz : s.board.sizeMinusOne = s.board.m_zones.length - 1 :=
    sizeMinusOne_eq s.board (by omega) hlen
  have h32 : (2 : Nat) ^ 32 = 4294967296 := by norm_num
  rw [h32] at hlen
  unfold outerBody
  rw [hsz]
  obtain ⟨ref, hget⟩ := getElem?_of_lt s.board.m_zones ia1 (by omega)
  rw [hget]
  simp only []
  by_cases hnet : (s.board.zone ref).netCode ≠ aNetCode
  · rw [if_pos hnet]
    refine ⟨_, _, rfl, hn, by omega, le_refl _, Or.inl ?_⟩
    rw [h32]
    omega
  · rw [if_neg hnet]
    have hmod : (s.board.m_zones.length - 1) % 2 ^ 32 = s.board.m_zones.length - 1 := by
      rw [h32]
      omega
    rw [hmod]
    obtain ⟨s1, h1, hn1, hr1, hl1, hm1⟩ := innerLoop_returns K aNetCode aUseLocalFlags ia1
      ref (K.BBox (s.board.zone ref).outline) (s.board.m_zones.length - 1)
      { s with mod_ia1 := false,
               trace := s.trace ++ [EVENT.outer ia1 ref s.board] }
      hn (by intro _; show _ < s.board.m_zones.length; omega) hget
    rw [h1]
    simp only []
    have hpos : 1 ≤ s1.board.m_zones.length := by
      have := (List.getElem?_eq_some.1 hr1).1
      omega
    refine ⟨_, _, rfl, hn1, hpos, hl1, ?_⟩
    by_cases hm : s1.mod_ia1 = true
    · rw [if_pos hm]
      rcases hm1 hm with h | h
      · exact absurd h (by simp)
      · refine Or.inr ⟨?_, h⟩
        rw [h32]
        split_ifs <;> omega
    · rw [if_neg hm]
      refine Or.inl ?_
      rw [h32]
      omega

theorem outerLoop_returns (K : KERNEL) (aNetCode : Int) (aUseLocalFlags : Bool) :
    ∀ (fuel ia1 : Nat) (s : LOOP), s.board.m_zones.Nodup → 1 ≤ s.board.m_zones.length →
      s.board.m_zones.length < 2 ^ 32 → 2 * s.board.m_zones.length ≤ fuel + ia1 + 1 →
      ∃ s1, outerLoop K aNetCode aUseLocalFlags fuel ia1 s = Except.ok s1 := by
  intro fuel
  have h32 : (2 : Nat) ^ 32 = 4294967296 := by norm_num
  induction fuel with
  | zero =>
    intro ia1 s _ h1 h2 hf
    unfold outerLoop
    rw [sizeMinusOne_eq s.board h1 h2, if_neg (by omega)]
    exact ⟨s, rfl⟩
  | succ fuel ih =>
    intro ia1 s hn h1 h2 hf
    unfold outerLoop
    rw [sizeMinusOne_eq s.board h1 h2]
    by_cases hlt : ia1 < s.board.m_zones.length - 1
    · rw [if_pos hlt]
      obtain ⟨i1, s1, hb, hn1, hp1, hl1, hcase⟩ :=
        outerBody_returns K aNetCode aUseLocalFlags ia1 s hn h2 (by omega)
      rw [hb]
      simp only []
      have h2' := h2
      rw [h32] at h2'
      apply ih i1 s1 hn1 hp1 (by rw [h32]; omega)
      rcases hcase with h | ⟨h, hlt'⟩
      · omega
      · omega
    · rw [if_neg hlt]
      exact ⟨s, rfl⟩

theorem CombineAllZonesInNet_returns (K : KERNEL) (b : BOARD) (aNetCode : Int)
    (aUseLocalFlags : Bool) (hn : b.m_zones.Nodup) (hlen : b.m_zones.length < 2 ^ 32) :
    ∃ r, CombineAllZonesInNet K b aNetCode aUseLocalFlags = Except.ok r := by
  unfold CombineAllZonesInNet
  by_cases h : b.size ≤ 1
  · rw [if_pos h]
    exact ⟨_, rfl⟩
  · rw [if_neg h]
    have h32 : (2 : Nat) ^ 32 = 4294967296 := by norm_num
    have h64 : (2 : Nat) ^ 64 = 18446744073709551616 := by norm_num
    have hl : 2 ≤ b.m_zones.length := by
      unfold BOARD.size at h
      rw [h64] at h
      rw [h32] at hlen
      omega
    obtain ⟨s1, h1⟩ := outerLoop_returns K aNetCode aUseLocalFlags (2 * b.m_zones.length) 0
      ⟨b, false, false, []⟩ hn (by show 1 ≤ b.m_zones.length; omega) hlen
      (by show 2 * b.m_zones.length ≤ _; omega)
    rw [h1]
    exact ⟨_, rfl⟩

/-! ### Invariants of the loops -/

theorem innerLoop_invariant (K : KERNEL) (aNetCode : Int) (aUseLocalFlags : Bool) (ia1 : Nat)
    (refZone : ZONE_PTR) (b1 : BOX2I) (Q : LOOP → Prop)
    (hstep : ∀ ia2 s s1, ia1 < ia2 → Q s →
      innerBody K aNetCode aUseLocalFlags ia1 refZone b1 ia2 s = Except.ok s1 → Q s1) :
    ∀ (n : Nat) (s s1 : LOOP), Q s →
      innerLoop K aNetCode aUseLocalFlags ia1 refZone b1 n s = Except.ok s1 → Q s1 := by
  intro n
  induction n with
  | zero =>
    intro s s1 hq h
    unfold innerLoop at h
    cases Except.ok.inj h
    exact hq
  | succ n ih =>
    intro s s1 hq h
    unfold innerLoop at h
    by_cases hgt : n + 1 > ia1
    · rw [if_pos hgt] at h
      cases hb : innerBody K aNetCode aUseLocalFlags ia1 refZone b1 (n + 1) s with
      | error e =>
        rw [hb] at h
        simp only [] at h
        exact Except.noConfusion h
      | ok s2 =>
        rw [hb] at h
        simp only [] at h
        exact ih s2 s1 (hstep _ _ _ hgt hq hb) h
    · rw [if_neg hgt] at h
      cases Except.ok.inj h
      exact hq

theorem outerLoop_invariant (K : KERNEL) (aNetCode : Int) (aUseLocalFlags : Bool)
    (P : Nat → LOOP → Prop)
    (hbody : ∀ i s i1 s1, P i s → i < s.board.sizeMinusOne →
      outerBody K aNetCode aUseLocalFlags i s = Except.ok (i1, s1) → P i1 s1) :
    ∀ (fuel i : Nat) (s s1 : LOOP), P i s →
      outerLoop K aNetCode aUseLocalFlags fuel i s = Except.ok s1 →
      ∃ i1, P i1 s1 ∧ ¬ i1 < s1.board.sizeMinusOne := by
  intro fuel
  induction fuel with
  | zero =>
    intro i s s1 hp h
    unfold outerLoop at h
    by_cases hlt : i < s.board.sizeMinusOne
    · rw [if_pos hlt] at h
      exact Except.noConfusion h
    · rw [if_neg hlt] at h
      cases Except.ok.inj h
      exact ⟨i, hp, hlt⟩
  | succ fuel ih =>
    intro i s s1 hp h
    unfold outerLoop at h
    by_cases hlt : i < s.board.sizeMinusOne
    · rw [if_pos hlt] at h
      cases hb : outerBody K aNetCode aUseLocalFlags i s with
      | error e =>
        rw [hb] at h
        simp only [] at h
        exact Except.noConfusion h
      | ok r =>
        obtain ⟨i2, s2⟩ := r
        rw [hb] at h
        simp only [] at h
        exact ih i2 s2 s1 (hbody _ _ _ _ hp hlt hb) h
    · rw [if_neg hlt] at h
      cases Except.ok.inj h
      exact ⟨i, hp, hlt⟩

theorem outerBody_invariant (K : KERNEL) (aNetCode : Int) (aUseLocalFlags : Bool)
    (P : LOOP → Prop) (Q : Nat → ZONE_PTR → BOX2I → LOOP → Prop)
    (hstart : ∀ i refZone s, P s → s.board.m_zones[i]? = some refZone →
      (s.board.zone refZone).netCode = aNetCode →
      Q i refZone (K.BBox (s.board.zone refZone).outline)
        { s with mod_ia1 := false, trace := s.trace ++ [EVENT.outer i refZone s.board] })
    (hstep : ∀ i refZone b1 ia2 s s1, i < ia2 → Q i refZone b1 s →
      innerBody K aNetCode aUseLocalFlags i refZone b1 ia2 s = Except.ok s1 → Q i refZone b1 s1)
    (hend : ∀ i refZone b1 s, Q i refZone b1 s → P s)
    (i : Nat) (s : LOOP) (i1 : Nat) (s1 : LOOP) (hp : P s)
    (h : outerBody K aNetCode aUseLocalFlags i s = Except.ok (i1, s1)) : P s1 := by
  obtain ⟨refZone, hget, hc | hc⟩ := outerBody_ok K aNetCode aUseLocalFlags i s i1 s1 h
  · obtain ⟨-, hs, -⟩ := hc
    rw [hs]
    exact hp
  · obtain ⟨hnet, hin, -, -⟩ := hc
    exact hend i refZone _ s1
      (innerLoop_invariant K aNetCode aUseLocalFlags i refZone _ (Q i refZone _)
        (fun ia2 s s1 hlt hq hb => hstep i refZone _ ia2 s s1 hlt hq hb) _ _ s1
        (hstart i refZone s hp hget hnet) hin)

theorem CombineAllZonesInNet_invariant (K : KERNEL) (b : BOARD) (aNetCode : Int)
    (aUseLocalFlags : Bool) (P : LOOP → Prop) (Q : Nat → ZONE_PTR → BOX2I → LOOP → Prop)
    (h0 : P ⟨b, false, false, []⟩)
    (hstart : ∀ i refZone s, P s → s.board.m_zones[i]? = some refZone →
      (s.board.zone refZone).netCode = aNetCode →
      Q i refZone (K.BBox (s.board.zone refZone).outline)
        { s with mod_ia1 := false, trace := s.trace ++ [EVENT.outer i refZone s.board] })
    (hstep : ∀ i refZone b1 ia2 s s1, i < ia2 → Q i refZone b1 s →
      innerBody K aNetCode aUseLocalFlags i refZone b1 ia2 s = Except.ok s1 → Q i refZone b1 s1)
    (hend : ∀ i refZone b1 s, Q i refZone b1 s → P s)
    (r : RESULT) (h : CombineAllZonesInNet K b aNetCode aUseLocalFlags = Except.ok r) :
    ∃ s, P s ∧ r.ret = s.modified ∧ r.board = s.board ∧ r.trace = s.trace := by
  unfold CombineAllZonesInNet at h
  by_cases hsz : b.size ≤ 1
  · rw [if_pos hsz] at h
    cases Except.ok.inj h
    exact ⟨⟨b, false, false, []⟩, h0, rfl, rfl, rfl⟩
  · rw [if_neg hsz] at h
    cases ho : outerLoop K aNetCode aUseLocalFlags (2 * b.m_zones.length) 0
        ⟨b, false, false, []⟩ with
    | error e =>
      rw [ho] at h
      simp only [] at h
      exact Except.noConfusion h
    | ok s =>
      rw [ho] at h
      simp only [] at h
      cases Except.ok.inj h
      obtain ⟨_, hp, -⟩ := outerLoop_invariant K aNetCode aUseLocalFlags (fun _ s => P s)
        (fun i s i1 s1 hp _ hb =>
          outerBody_invariant K aNetCode aUseLocalFlags P Q hstart hstep hend i s i1 s1 hp hb)
        _ _ _ s h0 ho
      exact ⟨s, hp, rfl, rfl, rfl⟩

/-! ## Runs on the instance boards -/

theorem returned_map_eq_some {α β : Type} (x : Except FAULT α) (f : α → β) (v : β)
    (h : (returned x).map f = some v) : ∃ r, x = Except.ok r ∧ f r = v := by
  cases x with
  | error e => simp [returned] at h
  | ok r => exact ⟨r, rfl, by simpa [returned] using h⟩

theorem returned_map_of_ok {α β : Type} (x : Except FAULT α) (f : α → β) (v : β) (r : α)
    (hr : x = Except.ok r) (h : (returned x).map f = some v) : f r = v := by
  subst hr
  simpa [returned] using h

/-- C6, the failing input: two filled zones on net 1 with the same square as outline, the
same layer, layer set and priority, and local clearance 0 and 1.  `CombineAllZonesInNet`
compares net code, priority, rule-area flag and layer set only: it combines the two zones
and returns true, and the zone with clearance 1 leaves the collection. -/
theorem CombineAllZonesInNet_ignores_clearance :
    (boardClearance.zone 0).localClearance ≠ (boardClearance.zone 1).localClearance ∧
    ∃ r, CombineAllZonesInNet specKernel boardClearance 1 false = Except.ok r ∧
      r.ret = true ∧ r.board.m_zones = [0] ∧ r.board.aDeletedList = [1] := by
  refine ⟨by decide, ?_⟩
  obtain ⟨r, hr, hv⟩ := returned_map_eq_some
    (CombineAllZonesInNet specKernel boardClearance 1 false)
    (fun r => (r.ret, r.board.m_zones, r.board.aDeletedList)) (true, [0], [1]) (by decide)
  simp only [Prod.mk.injEq] at hv
  exact ⟨r, hr, hv.1, hv.2.1, hv.2.2⟩

/-- C7: on the board whose zones are the squares (0,0)-(10,10) at address 0 and
(5,5)-(15,15) at address 1, both filled, on net 1, with the same attributes,
`CombineAllZonesInNet( 1, false )` returns true; the collection is then the zone 0 alone
(so it is the one zone on net 1 and zone 1 is absent), zone 1 is on the deleted list, and
the outline of zone 0 covers the area 175 (twice the area is 350). -/
theorem CombineAllZonesInNet_overlapping_squares :
    ∃ r, CombineAllZonesInNet specKernel boardOverlap 1 false = Except.ok r ∧
      r.ret = true ∧ r.board.m_zones = [0] ∧
      r.board.m_zones.filter (fun p => decide ((r.board.zone p).netCode = 1)) = [0] ∧
      1 ∉ r.board.m_zones ∧ r.board.aDeletedList = [1] ∧
      (r.board.zone 0).outline.twiceArea = 2 * 175 ∧
      (r.board.zone 0).outline.OutlineCount = 1 := by
  obtain ⟨r, hr, hv⟩ := returned_map_eq_some
    (CombineAllZonesInNet specKernel boardOverlap 1 false)
    (fun r => (r.ret, r.board.m_zones,
      r.board.m_zones.filter (fun p => decide ((r.board.zone p).netCode = 1)),
      r.board.aDeletedList))
    (true, [0], [0], [1]) (by decide)
  have hw := returned_map_of_ok
    (CombineAllZonesInNet specKernel boardOverlap 1 false)
    (fun r => ((r.board.zone 0).outline.twiceArea, (r.board.zone 0).outline.OutlineCount))
    (350, 1) r hr (by decide)
  simp only [Prod.mk.injEq] at hv hw
  obtain ⟨h1, h2, h3, h4⟩ := hv
  exact ⟨r, hr, h1, h2, h3, by rw [h2]; decide, h4, by rw [hw.1]; decide, hw.2⟩

theorem mem_trace_outer (t : List EVENT) (i : Nat) (z : ZONE_PTR) (b : BOARD) (v : VISIT) :
    EVENT.inner v ∈ t ++ [EVENT.outer i z b] ↔ EVENT.inner v ∈ t := by
  simp

theorem mem_trace_inner (t : List EVENT) (w v : VISIT) :
    EVENT.inner v ∈ t ++ [EVENT.inner w] ↔ (EVENT.inner v ∈ t ∨ v = w) := by
  simp

theorem CombineAllZonesInNet_flag (K : KERNEL) (b : BOARD) (aNetCode : Int)
    (aUseLocalFlags : Bool) (r : RESULT)
    (h : CombineAllZonesInNet K b aNetCode aUseLocalFlags = Except.ok r) :
    (r.ret = true ↔ ∃ v, EVENT.inner v ∈ r.trace ∧ v.branch = BRANCH.combine true) ∧
    (r.ret = true ↔ r.board.m_zones.length < b.m_zones.length) ∧
    r.board.m_zones.length ≤ b.m_zones.length ∧
    (∀ v ret, EVENT.inner v ∈ r.trace → v.branch = BRANCH.combine ret →
      (CombineZones K v.before v.refZone v.otherZone).1 = ret) := by
  obtain ⟨s, hp, hret, hboard, htrace⟩ := CombineAllZonesInNet_invariant K b aNetCode
    aUseLocalFlags
    (fun s => (s.modified = true ↔
        ∃ v, EVENT.inner v ∈ s.trace ∧ v.branch = BRANCH.combine true) ∧
      (s.modified = true ↔ s.board.m_zones.length < b.m_zones.length) ∧
      s.board.m_zones.length ≤ b.m_zones.length ∧
      (∀ v ret, EVENT.inner v ∈ s.trace → v.branch = BRANCH.combine ret →
        (CombineZones K v.before v.refZone v.otherZone).1 = ret))
    (fun _ _ _ s => (s.modified = true ↔
        ∃ v, EVENT.inner v ∈ s.trace ∧ v.branch = BRANCH.combine true) ∧
      (s.modified = true ↔ s.board.m_zones.length < b.m_zones.length) ∧
      s.board.m_zones.length ≤ b.m_zones.length ∧
      (∀ v ret, EVENT.inner v ∈ s.trace → v.branch = BRANCH.combine ret →
        (CombineZones K v.before v.refZone v.otherZone).1 = ret))
    (by simp)
    (by
      intro i refZone s hp _ _
      simpa only [mem_trace_outer] using hp)
    (by
      intro i refZone b1 ia2 s s1 _ hq hb
      obtain ⟨h1, h2, h3, h4⟩ := hq
      obtain ⟨otherZone, br, hget, htr, hc | hc⟩ :=
        innerBody_ok K aNetCode aUseLocalFlags i refZone b1 ia2 s s1 hb
      · obtain ⟨ret, hbr, -, -, hret, hbd, hm, -⟩ := hc
        have hcall : ∀ v ret', EVENT.inner v ∈ s1.trace → v.branch = BRANCH.combine ret' →
            (CombineZones K v.before v.refZone v.otherZone).1 = ret' := by
          intro v ret' hv hvb
          rw [htr, mem_trace_inner] at hv
          rcases hv with hv | hv
          · exact h4 v ret' hv hvb
          · subst hv
            rw [hbr] at hvb
            cases hvb
            exact hret
        cases ret with
        | true =>
          obtain ⟨-, hz, -⟩ := CombineZones_true_effect K s.board refZone otherZone hret
          have hmem : otherZone ∈ s.board.m_zones := List.mem_iff_getElem?.2 ⟨_, hget⟩
          have hlt := length_filter_ne_lt s.board.m_zones otherZone hmem
          have hl1 : s1.board.m_zones.length < b.m_zones.length := by
            rw [hbd, hz]
            omega
          have hm1 : s1.modified = true := by simp [hm]
          refine ⟨⟨fun _ => ⟨_, by rw [htr, mem_trace_inner]; exact Or.inr rfl, hbr⟩,
            fun _ => hm1⟩, ⟨fun _ => hl1, fun _ => hm1⟩, by omega, hcall⟩
        | false =>
          obtain ⟨-, hz, -⟩ := CombineZones_false_frame K s.board refZone otherZone hret
          have hm1 : s1.modified = s.modified := by simp [hm]
          have hzz : s1.board.m_zones = s.board.m_zones := by rw [hbd, hz]
          refine ⟨?_, by rw [hm1, hzz]; exact h2, by rw [hzz]; exact h3, hcall⟩
          rw [hm1, h1]
          constructor
          · rintro ⟨v, hv, hvb⟩
            exact ⟨v, by rw [htr, mem_trace_inner]; exact Or.inl hv, hvb⟩
          · rintro ⟨v, hv, hvb⟩
            rw [htr, mem_trace_inner] at hv
            rcases hv with hv | hv
            · exact ⟨v, hv, hvb⟩
            · subst hv
              rw [hbr] at hvb
              cases hvb
      · obtain ⟨hnc, hbd, hm, -, -, -⟩ := hc
        refine ⟨?_, by rw [hm, hbd]; exact h2, by rw [hbd]; exact h3, ?_⟩
        · rw [hm, h1]
          constructor
          · rintro ⟨v, hv, hvb⟩
            exact ⟨v, by rw [htr, mem_trace_inner]; exact Or.inl hv, hvb⟩
          · rintro ⟨v, hv, hvb⟩
            rw [htr, mem_trace_inner] at hv
            rcases hv with hv | hv
            · exact ⟨v, hv, hvb⟩
            · subst hv
              exact absurd hvb (hnc true)
        · intro v ret' hv hvb
          rw [htr, mem_trace_inner] at hv
          rcases hv with hv | hv
          · exact h4 v ret' hv hvb
          · subst hv
            exact absurd hvb (hnc ret'))
    (fun _ _ _ _ hq => hq) r h
  rw [hret, hboard, htrace]
  exact hp

/-- C10: on a board that holds every zone once and fewer than `2 ^ 32` zones,
`CombineAllZonesInNet` returns, and it returns true if and only if a call of `CombineZones`
made during the pass returned true, which holds if and only if the collection has fewer
zones after the call than before (an event `combine ret` of the record stands for a call of
`CombineZones` on the state and pair it names, with the value `ret` that call returns). -/
theorem CombineAllZonesInNet_true_iff (K : KERNEL) (b : BOARD) (aNetCode : Int)
    (aUseLocalFlags : Bool) (hb : b.wellFormed) :
    ∃ r, CombineAllZonesInNet K b aNetCode aUseLocalFlags = Except.ok r ∧
      (r.ret = true ↔ ∃ v, EVENT.inner v ∈ r.trace ∧ v.branch = BRANCH.combine true) ∧
      (r.ret = true ↔ r.board.m_zones.length < b.m_zones.length) ∧
      (∀ v ret, EVENT.inner v ∈ r.trace → v.branch = BRANCH.combine ret →
        (CombineZones K v.before v.refZone v.otherZone).1 = ret) := by
  obtain ⟨r, hr⟩ := CombineAllZonesInNet_returns K b aNetCode aUseLocalFlags hb.1 hb.2
  obtain ⟨h1, h2, -, h4⟩ := CombineAllZonesInNet_flag K b aNetCode aUseLocalFlags r hr
  exact ⟨r, hr, h1, h2, h4⟩

theorem wellFormed_boardOf (zs : List ZONE) (h : zs.length < 2 ^ 32) :
    (boardOf zs).wellFormed :=
  ⟨List.nodup_range _, by simpa [boardOf] using h⟩

/-- Instance of C10 on the two overlapping squares. -/
theorem CombineAllZonesInNet_true_iff_witness :
    boardOverlap.wellFormed ∧
    ∃ r, CombineAllZonesInNet specKernel boardOverlap 1 false = Except.ok r ∧
      (r.ret = true ↔ ∃ v, EVENT.inner v ∈ r.trace ∧ v.branch = BRANCH.combine true) ∧
      (r.ret = true ↔ r.board.m_zones.length < boardOverlap.m_zones.length) ∧
      (∀ v ret, EVENT.inner v ∈ r.trace → v.branch = BRANCH.combine ret →
        (CombineZones specKernel v.before v.refZone v.otherZone).1 = ret) :=
  ⟨wellFormed_boardOf _ (by norm_num),
    CombineAllZonesInNet_true_iff specKernel boardOverlap 1 false
      (wellFormed_boardOf _ (by norm_num))⟩

/-! ## `CombineAllZonesInNet`: the pairs visited -/

theorem CombineZones_attributes (K : KERNEL) (b : BOARD) (ref other : ZONE_PTR)
    (p : ZONE_PTR) :
    ((CombineZones K b ref other).2.zone p).attributes = (b.zone p).attributes := by
  cases hc : (CombineZones K b ref other).1 with
  | false =>
    obtain ⟨-, -, -, hz⟩ := CombineZones_false_frame K b ref other hc
    rw [hz]
  | true =>
    obtain ⟨-, -, -, -, hp, hr⟩ := CombineZones_true_effect K b ref other hc
    by_cases h : p = ref
    · subst h
      rw [hr]
      rfl
    · rw [hp p h]

theorem CombineAllZonesInNet_visits (K : KERNEL) (b : BOARD) (aNetCode : Int)
    (aUseLocalFlags : Bool) (r : RESULT)
    (h : CombineAllZonesInNet K b aNetCode aUseLocalFlags = Except.ok r) :
    (∀ p, (r.board.zone p).attributes = (b.zone p).attributes) ∧
    ∀ v, EVENT.inner v ∈ r.trace → v.sound K b aNetCode aUseLocalFlags := by
  obtain ⟨s, hp, -, hboard, htrace⟩ := CombineAllZonesInNet_invariant K b aNetCode
    aUseLocalFlags
    (fun s => (∀ p, (s.board.zone p).attributes = (b.zone p).attributes) ∧
      ∀ v, EVENT.inner v ∈ s.trace → v.sound K b aNetCode aUseLocalFlags)
    (fun _ refZone _ s => ((∀ p, (s.board.zone p).attributes = (b.zone p).attributes) ∧
      ∀ v, EVENT.inner v ∈ s.trace → v.sound K b aNetCode aUseLocalFlags) ∧
      (s.board.zone refZone).netCode = aNetCode)
    (by simp)
    (by
      intro i refZone s hp _ hnet
      exact ⟨⟨hp.1, by simpa only [mem_trace_outer] using hp.2⟩, hnet⟩)
    (by
      intro i refZone b1 ia2 s s1 hlt hq hb
      obtain ⟨⟨ha, hv⟩, hnet⟩ := hq
      obtain ⟨otherZone, br, hget, htr, hc⟩ :=
        innerBody_ok K aNetCode aUseLocalFlags i refZone b1 ia2 s s1 hb
      have hnew : (⟨s.board, i, ia2, refZone, otherZone, b1, br⟩ : VISIT).sound K b aNetCode
          aUseLocalFlags := by
        refine ⟨hnet, hlt, hget, ha, ?_, ?_, ?_, ?_⟩
        · rintro (ht | ⟨ret, ht⟩)
          · rcases hc with ⟨ret, hbr, -⟩ | ⟨-, -, -, -, hni, -⟩
            · exact absurd (ht.symm.trans hbr) (by simp)
            · exact (hni ht).1
          · rcases hc with ⟨_, -, hg, -⟩ | ⟨hnc, -⟩
            · exact hg
            · exact absurd ht (hnc ret)
        · intro ht
          rcases hc with ⟨ret, hbr, -⟩ | ⟨-, -, -, -, hni, -⟩
          · exact absurd (ht.symm.trans hbr) (by simp)
          · exact (hni ht).2
        · intro ret ht
          rcases hc with ⟨ret', hbr, -, htest, hret, -⟩ | ⟨hnc, -⟩
          · have : ret = ret' := by
              have := ht.symm.trans hbr
              cases this
              rfl
            subst this
            exact ⟨htest, hret⟩
          · exact absurd ht (hnc ret)
        · intro ht
          rcases hc with ⟨ret, hbr, -⟩ | ⟨-, -, -, -, -, hbox⟩
          · exact absurd (ht.symm.trans hbr) (by simp)
          · exact hbox ht
      have hvis : ∀ v, EVENT.inner v ∈ s1.trace → v.sound K b aNetCode aUseLocalFlags := by
        intro v hv'
        rw [htr, mem_trace_inner] at hv'
        rcases hv' with hv' | hv'
        · exact hv v hv'
        · rw [hv']
          exact hnew
      have hattr : ∀ p, (s1.board.zone p).attributes = (b.zone p).attributes := by
        intro p
        rcases hc with ⟨_, -, -, -, -, hbd, -⟩ | ⟨-, hbd, -⟩
        · rw [hbd, CombineZones_attributes]
          exact ha p
        · rw [hbd]
          exact ha p
      refine ⟨⟨hattr, hvis⟩, ?_⟩
      have h1 := congrArg ZONE.netCode (hattr refZone)
      have h2 := congrArg ZONE.netCode (ha refZone)
      exact (h1.trans h2.symm).trans hnet)
    (fun _ _ _ _ hq => hq.1) r h
  rw [hboard, htrace]
  exact hp

theorem CombineAllZonesInNet_unflagged (K : KERNEL) (b : BOARD) (aNetCode : Int) (r : RESULT)
    (hflags : ∀ p ∈ b.m_zones, (b.zone p).netCode = aNetCode → (b.zone p).localFlags = 0)
    (h : CombineAllZonesInNet K b aNetCode true = Except.ok r) :
    r.ret = false ∧ r.board = b := by
  obtain ⟨s, hp, hret, hboard, -⟩ := CombineAllZonesInNet_invariant K b aNetCode true
    (fun s => s.modified = false ∧ s.board = b)
    (fun _ refZone _ s => (s.modified = false ∧ s.board = b) ∧
      (b.zone refZone).localFlags = 0)
    ⟨rfl, rfl⟩
    (by
      intro i refZone s hp hget hnet
      refine ⟨hp, ?_⟩
      rw [hp.2] at hget hnet
      exact hflags refZone (List.mem_iff_getElem?.2 ⟨_, hget⟩) hnet)
    (by
      intro i refZone b1 ia2 s s1 _ hq hb
      obtain ⟨⟨hm, hbd⟩, hfr⟩ := hq
      obtain ⟨otherZone, br, hget, -, hc | hc⟩ :=
        innerBody_ok K aNetCode true i refZone b1 ia2 s s1 hb
      · obtain ⟨_, -, hg, -⟩ := hc
        obtain ⟨hno, -, -, -, -, hfl⟩ := hg
        rw [hbd] at hget hno hfl
        have hfo := hflags otherZone (List.mem_iff_getElem?.2 ⟨_, hget⟩) hno
        rcases hfl with hfl | hfl | hfl
        · exact absurd hfr hfl
        · exact absurd hfo hfl
        · exact absurd hfl (by simp)
      · obtain ⟨-, hbd1, hm1, -⟩ := hc
        exact ⟨⟨hm1.trans hm, hbd1.trans hbd⟩, hfr⟩)
    (fun _ _ _ _ hq => hq.1) r h
  exact ⟨hret.trans hp.1, hboard.trans hp.2⟩

/-- C14: on a board that holds every zone once and fewer than `2 ^ 32` zones,
`CombineAllZonesInNet` with `aUseLocalFlags = true` returns, and `TestZoneIntersection` (and
so `CombineZones`) was called on a pair only when the local flag of one of its two zones
was not zero at that moment; if no zone of the collection on the net `aNetCode` has its
local flag set when the call starts, the call returns false and leaves the state as it
was. -/
theorem CombineAllZonesInNet_local_flags (K : KERNEL) (b : BOARD) (aNetCode : Int)
    (hb : b.wellFormed) :
    ∃ r, CombineAllZonesInNet K b aNetCode true = Except.ok r ∧
      (∀ v, EVENT.inner v ∈ r.trace → v.tested →
        (v.before.zone v.refZone).localFlags ≠ 0 ∨
        (v.before.zone v.otherZone).localFlags ≠ 0) ∧
      ((∀ p ∈ b.m_zones, (b.zone p).netCode = aNetCode → (b.zone p).localFlags = 0) →
        r.ret = false ∧ r.board = b) := by
  obtain ⟨r, hr⟩ := CombineAllZonesInNet_returns K b aNetCode true hb.1 hb.2
  refine ⟨r, hr, ?_, fun hflags => CombineAllZonesInNet_unflagged K b aNetCode r hflags hr⟩
  intro v hv ht
  obtain ⟨-, -, -, -, hg, -⟩ := (CombineAllZonesInNet_visits K b aNetCode true r hr).2 v hv
  rcases (hg ht).2.2.2.2.2 with h | h | h
  · exact Or.inl h
  · exact Or.inr h
  · exact absurd h (by simp)

/-- Instance of C14 on three unflagged zones, two of which overlap. -/
theorem CombineAllZonesInNet_local_flags_witness :
    boardUnflagged.wellFormed ∧
    ∃ r, CombineAllZonesInNet specKernel boardUnflagged 1 true = Except.ok r ∧
      (∀ v, EVENT.inner v ∈ r.trace → v.tested →
        (v.before.zone v.refZone).localFlags ≠ 0 ∨
        (v.before.zone v.otherZone).localFlags ≠ 0) ∧
      ((∀ p ∈ boardUnflagged.m_zones, (boardUnflagged.zone p).netCode = 1 →
          (boardUnflagged.zone p).localFlags = 0) →
        r.ret = false ∧ r.board = boardUnflagged) :=
  ⟨wellFormed_boardOf _ (by norm_num),
    CombineAllZonesInNet_local_flags specKernel boardUnflagged 1
      (wellFormed_boardOf _ (by norm_num))⟩

/-- C15: on a board that holds every zone once and fewer than `2 ^ 32` zones,
`CombineAllZonesInNet` returns, and every pair on which `TestZoneIntersection` or
`CombineZones` was called had, at that moment and on the board the call started with, both
zones on the net `aNetCode`, equal priorities, equal rule-area flags and equal layer sets;
so two zones that differ in one of these on the starting board are never the pair of a
call of `CombineZones`. -/
theorem CombineAllZonesInNet_pairs_comparable (K : KERNEL) (b : BOARD) (aNetCode : Int)
    (aUseLocalFlags : Bool) (hb : b.wellFormed) :
    ∃ r, CombineAllZonesInNet K b aNetCode aUseLocalFlags = Except.ok r ∧
      ∀ v, EVENT.inner v ∈ r.trace → v.tested →
        ((v.before.zone v.refZone).netCode = aNetCode ∧
         (v.before.zone v.otherZone).netCode = aNetCode ∧
         (v.before.zone v.refZone).priority = (v.before.zone v.otherZone).priority ∧
         (v.before.zone v.refZone).isRuleArea = (v.before.zone v.otherZone).isRuleArea ∧
         (v.before.zone v.refZone).layerSet = (v.before.zone v.otherZone).layerSet) ∧
        ((b.zone v.refZone).netCode = aNetCode ∧
         (b.zone v.otherZone).netCode = aNetCode ∧
         (b.zone v.refZone).priority = (b.zone v.otherZone).priority ∧
         (b.zone v.refZone).isRuleArea = (b.zone v.otherZone).isRuleArea ∧
         (b.zone v.refZone).layerSet = (b.zone v.otherZone).layerSet) := by
  obtain ⟨r, hr⟩ := CombineAllZonesInNet_returns K b aNetCode aUseLocalFlags hb.1 hb.2
  refine ⟨r, hr, ?_⟩
  intro v hv ht
  obtain ⟨hnet, -, -, ha, hg, -⟩ :=
    (CombineAllZonesInNet_visits K b aNetCode aUseLocalFlags r hr).2 v hv
  obtain ⟨g1, g2, g3, g4, -, -⟩ := hg ht
  have hr1 := ha v.refZone
  have ho1 := ha v.otherZone
  have e1 := congrArg ZONE.netCode hr1
  have e2 := congrArg ZONE.netCode ho1
  have e3 := congrArg ZONE.priority hr1
  have e4 := congrArg ZONE.priority ho1
  have e5 := congrArg ZONE.isRuleArea hr1
  have e6 := congrArg ZONE.isRuleArea ho1
  have e7 := congrArg ZONE.layerSet hr1
  have e8 := congrArg ZONE.layerSet ho1
  exact ⟨⟨hnet, g1, g2, g3, g4⟩, e1.symm.trans hnet, e2.symm.trans g1,
    (e3.symm.trans g2).trans e4, (e5.symm.trans g3).trans e6, (e7.symm.trans g4).trans e8⟩

/-- Instance of C15 on the two overlapping squares. -/
theorem CombineAllZonesInNet_pairs_comparable_witness :
    boardOverlap.wellFormed ∧
    ∃ r, CombineAllZonesInNet specKernel boardOverlap 1 false = Except.ok r ∧
      ∀ v, EVENT.inner v ∈ r.trace → v.tested →
        ((v.before.zone v.refZone).netCode = 1 ∧
         (v.before.zone v.otherZone).netCode = 1 ∧
         (v.before.zone v.refZone).priority = (v.before.zone v.otherZone).priority ∧
         (v.before.zone v.refZone).isRuleArea = (v.before.zone v.otherZone).isRuleArea ∧
         (v.before.zone v.refZone).layerSet = (v.before.zone v.otherZone).layerSet) ∧
        ((boardOverlap.zone v.refZone).netCode = 1 ∧
         (boardOverlap.zone v.otherZone).netCode = 1 ∧
         (boardOverlap.zone v.refZone).priority = (boardOverlap.zone v.otherZone).priority ∧
         (boardOverlap.zone v.refZone).isRuleArea =
           (boardOverlap.zone v.otherZone).isRuleArea ∧
         (boardOverlap.zone v.refZone).layerSet = (boardOverlap.zone v.otherZone).layerSet) :=
  ⟨wellFormed_boardOf _ (by norm_num),
    CombineAllZonesInNet_pairs_comparable specKernel boardOverlap 1 false
      (wellFormed_boardOf _ (by norm_num))⟩

/-! ## `CombineAllZonesInNet`: what the call leaves as it was -/

theorem filter_filter_ne (l : List ZONE_PTR) (q : ZONE_PTR → Bool) (a : ZONE_PTR)
    (h : q a = false) :
    (l.filter (fun z => decide (z ≠ a))).filter q = l.filter q := by
  induction l with
  | nil => rfl
  | cons x t ih =>
    by_cases hx : x = a
    · subst hx
      rw [filter_ne_cons_self, ih, List.filter_cons_of_neg (by simp [h])]
    · rw [filter_ne_cons_of_ne t x a hx]
      by_cases hq : q x = true
      · rw [List.filter_cons_of_pos hq, List.filter_cons_of_pos hq, ih]
      · rw [List.filter_cons_of_neg hq, List.filter_cons_of_neg hq, ih]

theorem CombineAllZonesInNet_frame (K : KERNEL) (b : BOARD) (aNetCode : Int)
    (aUseLocalFlags : Bool) (r : RESULT)
    (h : CombineAllZonesInNet K b aNetCode aUseLocalFlags = Except.ok r) :
    r.board.m_zones.filter (fun p => decide ((b.zone p).netCode ≠ aNetCode)) =
      b.m_zones.filter (fun p => decide ((b.zone p).netCode ≠ aNetCode)) ∧
    (∀ p, (b.zone p).netCode ≠ aNetCode → r.board.zone p = b.zone p) := by
  obtain ⟨s, hp, -, hboard, -⟩ := CombineAllZonesInNet_invariant K b aNetCode aUseLocalFlags
    (fun s =>
      s.board.m_zones.filter (fun p => decide ((b.zone p).netCode ≠ aNetCode)) =
        b.m_zones.filter (fun p => decide ((b.zone p).netCode ≠ aNetCode)) ∧
      (∀ p, (b.zone p).netCode ≠ aNetCode → s.board.zone p = b.zone p) ∧
      (∀ p, (s.board.zone p).netCode = (b.zone p).netCode))
    (fun _ refZone _ s =>
      (s.board.m_zones.filter (fun p => decide ((b.zone p).netCode ≠ aNetCode)) =
        b.m_zones.filter (fun p => decide ((b.zone p).netCode ≠ aNetCode)) ∧
      (∀ p, (b.zone p).netCode ≠ aNetCode → s.board.zone p = b.zone p) ∧
      (∀ p, (s.board.zone p).netCode = (b.zone p).netCode)) ∧
      (b.zone refZone).netCode = aNetCode)
    ⟨rfl, fun _ _ => rfl, fun _ => rfl⟩
    (by
      intro i refZone s hp _ hnet
      exact ⟨hp, (hp.2.2 refZone).symm.trans hnet⟩)
    (by
      intro i refZone b1 ia2 s s1 _ hq hb
      obtain ⟨⟨hf, hz, hn⟩, hnet⟩ := hq
      obtain ⟨otherZone, br, hget, -, hc | hc⟩ :=
        innerBody_ok K aNetCode aUseLocalFlags i refZone b1 ia2 s s1 hb
      · obtain ⟨ret, -, hg, -, hret, hbd, -, -⟩ := hc
        have hno : (b.zone otherZone).netCode = aNetCode := (hn otherZone).symm.trans hg.1
        have hnn : ∀ p, (s1.board.zone p).netCode = (b.zone p).netCode := by
          intro p
          rw [hbd]
          have := congrArg ZONE.netCode (CombineZones_attributes K s.board refZone otherZone p)
          exact this.trans (hn p)
        cases ret with
        | true =>
          obtain ⟨-, hmz, -, -, hzp, -⟩ :=
            CombineZones_true_effect K s.board refZone otherZone hret
          refine ⟨⟨?_, ?_, hnn⟩, hnet⟩
          · rw [hbd, hmz, filter_filter_ne _ _ _ (by simp [hno])]
            exact hf
          · intro p hpn
            have hpr : p ≠ refZone := fun e => hpn (e ▸ hnet)
            rw [hbd, hzp p hpr]
            exact hz p hpn
        | false =>
          obtain ⟨-, hmz, -, hzz⟩ := CombineZones_false_frame K s.board refZone otherZone hret
          refine ⟨⟨?_, ?_, hnn⟩, hnet⟩
          · rw [hbd, hmz]
            exact hf
          · intro p hpn
            rw [hbd, hzz]
            exact hz p hpn
      · obtain ⟨-, hbd, -⟩ := hc
        rw [hbd]
        exact ⟨⟨hf, hz, hn⟩, hnet⟩)
    (fun _ _ _ _ hq => hq.1) r h
  rw [hboard]
  exact ⟨hp.1, hp.2.1⟩

/-- C16: on a board that holds every zone once and fewer than `2 ^ 32` zones,
`CombineAllZonesInNet( N, flag )` returns, and the zones whose net code is not `N` are the
same before and after, in the same order (the collection filtered to them is unchanged, so
each of them is still in the collection), every such zone object is unchanged (so are its
outline and its local flag). -/
theorem CombineAllZonesInNet_other_nets (K : KERNEL) (b : BOARD) (aNetCode : Int)
    (aUseLocalFlags : Bool) (hb : b.wellFormed) :
    ∃ r, CombineAllZonesInNet K b aNetCode aUseLocalFlags = Except.ok r ∧
      r.board.m_zones.filter (fun p => decide ((b.zone p).netCode ≠ aNetCode)) =
        b.m_zones.filter (fun p => decide ((b.zone p).netCode ≠ aNetCode)) ∧
      (∀ p ∈ b.m_zones, (b.zone p).netCode ≠ aNetCode →
        p ∈ r.board.m_zones ∧ r.board.zone p = b.zone p ∧
        (r.board.zone p).outline = (b.zone p).outline ∧
        (r.board.zone p).localFlags = (b.zone p).localFlags) := by
  obtain ⟨r, hr⟩ := CombineAllZonesInNet_returns K b aNetCode aUseLocalFlags hb.1 hb.2
  obtain ⟨hf, hz⟩ := CombineAllZonesInNet_frame K b aNetCode aUseLocalFlags r hr
  refine ⟨r, hr, hf, ?_⟩
  intro p hp hn
  have hmem : p ∈ b.m_zones.filter (fun p => decide ((b.zone p).netCode ≠ aNetCode)) :=
    List.mem_filter.2 ⟨hp, by simpa using hn⟩
  rw [← hf] at hmem
  exact ⟨(List.mem_filter.1 hmem).1, hz p hn, by rw [hz p hn], by rw [hz p hn]⟩

/-- Instance of C16: two zones of net 1 are combined around a zone of net 2. -/
theorem CombineAllZonesInNet_other_nets_witness :
    boardTwoNets.wellFormed ∧
    ∃ r, CombineAllZonesInNet specKernel boardTwoNets 1 false = Except.ok r ∧
      r.board.m_zones.filter (fun p => decide ((boardTwoNets.zone p).netCode ≠ 1)) =
        boardTwoNets.m_zones.filter (fun p => decide ((boardTwoNets.zone p).netCode ≠ 1)) ∧
      (∀ p ∈ boardTwoNets.m_zones, (boardTwoNets.zone p).netCode ≠ 1 →
        p ∈ r.board.m_zones ∧ r.board.zone p = boardTwoNets.zone p ∧
        (r.board.zone p).outline = (boardTwoNets.zone p).outline ∧
        (r.board.zone p).localFlags = (boardTwoNets.zone p).localFlags) :=
  ⟨wellFormed_boardOf _ (by norm_num),
    CombineAllZonesInNet_other_nets specKernel boardTwoNets 1 false
      (wellFormed_boardOf _ (by norm_num))⟩

/-! ## `CombineAllZonesInNet`: the zones removed -/

theorem nodup_index_unique (l : List ZONE_PTR) (hn : l.Nodup) (a : ZONE_PTR) :
    ∀ i j : Nat, l[i]? = some a → l[j]? = some a → i = j := by
  induction l with
  | nil => intro i j hi; simp at hi
  | cons x t ih =>
    have hnt : t.Nodup := (List.nodup_cons.1 hn).2
    have hxt : x ∉ t := (List.nodup_cons.1 hn).1
    intro i j hi hj
    cases i with
    | zero =>
      cases j with
      | zero => rfl
      | succ j =>
        have hx : x = a := by simpa using hi
        have hj1 : t[j]? = some a := by simpa using hj
        exact absurd (List.mem_iff_getElem?.2 ⟨j, hj1⟩) (hx ▸ hxt)
    | succ i =>
      cases j with
      | zero =>
        have hx : x = a := by simpa using hj
        have hi1 : t[i]? = some a := by simpa using hi
        exact absurd (List.mem_iff_getElem?.2 ⟨i, hi1⟩) (hx ▸ hxt)
      | succ j =>
        have hi1 : t[i]? = some a := by simpa using hi
        have hj1 : t[j]? = some a := by simpa using hj
        rw [ih hnt i j hi1 hj1]

theorem CombineAllZonesInNet_removed (K : KERNEL) (b : BOARD) (aNetCode : Int)
    (aUseLocalFlags : Bool) (r : RESULT)
    (h : CombineAllZonesInNet K b aNetCode aUseLocalFlags = Except.ok r) :
    r.board.m_zones.Sublist b.m_zones ∧
    (∀ z ∈ b.m_zones, z ∉ r.board.m_zones →
      z ∈ r.board.aDeletedList ∧
      ∃ v, EVENT.inner v ∈ r.trace ∧ v.branch = BRANCH.combine true ∧ v.otherZone = z) ∧
    (r.ret = false → r.board.m_zones = b.m_zones ∧ r.board.aDeletedList = b.aDeletedList ∧
      r.board.zone = b.zone) := by
  obtain ⟨s, hp, hret, hboard, htrace⟩ := CombineAllZonesInNet_invariant K b aNetCode
    aUseLocalFlags
    (fun s => s.board.m_zones.Sublist b.m_zones ∧
      (∀ z ∈ b.m_zones, z ∉ s.board.m_zones →
        z ∈ s.board.aDeletedList ∧
        ∃ v, EVENT.inner v ∈ s.trace ∧ v.branch = BRANCH.combine true ∧ v.otherZone = z) ∧
      (s.modified = false → s.board.m_zones = b.m_zones ∧
        s.board.aDeletedList = b.aDeletedList ∧ s.board.zone = b.zone))
    (fun _ _ _ s => s.board.m_zones.Sublist b.m_zones ∧
      (∀ z ∈ b.m_zones, z ∉ s.board.m_zones →
        z ∈ s.board.aDeletedList ∧
        ∃ v, EVENT.inner v ∈ s.trace ∧ v.branch = BRANCH.combine true ∧ v.otherZone = z) ∧
      (s.modified = false → s.board.m_zones = b.m_zones ∧
        s.board.aDeletedList = b.aDeletedList ∧ s.board.zone = b.zone))
    ⟨List.Sublist.refl _, fun z hz hnz => absurd hz hnz, fun _ => ⟨rfl, rfl, rfl⟩⟩
    (by
      intro i refZone s hp _ _
      simpa only [mem_trace_outer] using hp)
    (by
      intro i refZone b1 ia2 s s1 _ hq hb
      obtain ⟨hsub, hrem, hun⟩ := hq
      obtain ⟨otherZone, br, hget, htr, hc | hc⟩ :=
        innerBody_ok K aNetCode aUseLocalFlags i refZone b1 ia2 s s1 hb
      · obtain ⟨ret, hbr, -, -, hret, hbd, hm, -⟩ := hc
        cases ret with
        | true =>
          obtain ⟨-, hmz, hdel, -, -, -⟩ :=
            CombineZones_true_effect K s.board refZone otherZone hret
          refine ⟨?_, ?_, ?_⟩
          · rw [hbd, hmz]
            exact (List.filter_sublist _).trans hsub
          · intro z hz hnz
            rw [hbd, hmz] at hnz
            rw [hbd, hdel]
            by_cases hzs : z ∈ s.board.m_zones
            · have hzo : z = otherZone := by
                by_contra hne
                exact hnz (List.mem_filter.2 ⟨hzs, by simpa using hne⟩)
              refine ⟨by simp [hzo],
                ⟨s.board, i, ia2, refZone, otherZone, b1, br⟩, ?_, hbr, hzo.symm⟩
              rw [htr, mem_trace_inner]
              exact Or.inr rfl
            · obtain ⟨hd, v, hv, hvb, hvo⟩ := hrem z hz hzs
              refine ⟨by simp [hd], v, ?_, hvb, hvo⟩
              rw [htr, mem_trace_inner]
              exact Or.inl hv
          · intro hmf
            rw [hm] at hmf
            simp at hmf
        | false =>
          obtain ⟨-, hmz, hdel, hzz⟩ :=
            CombineZones_false_frame K s.board refZone otherZone hret
          refine ⟨by rw [hbd, hmz]; exact hsub, ?_, ?_⟩
          · intro z hz hnz
            rw [hbd, hmz] at hnz
            obtain ⟨hd, v, hv, hvb, hvo⟩ := hrem z hz hnz
            refine ⟨by rw [hbd, hdel]; exact hd, v, ?_, hvb, hvo⟩
            rw [htr, mem_trace_inner]
            exact Or.inl hv
          · intro hmf
            have hms : s.modified = false := by simpa [hm] using hmf
            obtain ⟨u1, u2, u3⟩ := hun hms
            exact ⟨by rw [hbd, hmz]; exact u1, by rw [hbd, hdel]; exact u2,
              by rw [hbd, hzz]; exact u3⟩
      · obtain ⟨-, hbd, hm, -⟩ := hc
        refine ⟨by rw [hbd]; exact hsub, ?_, by rw [hbd, hm]; exact hun⟩
        intro z hz hnz
        rw [hbd] at hnz
        obtain ⟨hd, v, hv, hvb, hvo⟩ := hrem z hz hnz
        refine ⟨by rw [hbd]; exact hd, v, ?_, hvb, hvo⟩
        rw [htr, mem_trace_inner]
        exact Or.inl hv)
    (fun _ _ _ _ hq => hq) r h
  rw [hret, hboard, htrace]
  exact hp

/-- C21: on a board that holds every zone once and fewer than `2 ^ 32` zones,
`CombineAllZonesInNet` returns, the collection after the call is a subsequence of the
collection before it (the same zones in the same order, none added), and every zone that
has left it is on the deleted list and was the zone to combine of a call of `CombineZones`
that returned true. -/
theorem CombineAllZonesInNet_subsequence (K : KERNEL) (b : BOARD) (aNetCode : Int)
    (aUseLocalFlags : Bool) (hb : b.wellFormed) :
    ∃ r, CombineAllZonesInNet K b aNetCode aUseLocalFlags = Except.ok r ∧
      r.board.m_zones.Sublist b.m_zones ∧
      ∀ z ∈ b.m_zones, z ∉ r.board.m_zones →
        z ∈ r.board.aDeletedList ∧
        ∃ v, EVENT.inner v ∈ r.trace ∧ v.branch = BRANCH.combine true ∧ v.otherZone = z ∧
          (CombineZones K v.before v.refZone v.otherZone).1 = true := by
  obtain ⟨r, hr⟩ := CombineAllZonesInNet_returns K b aNetCode aUseLocalFlags hb.1 hb.2
  obtain ⟨hsub, hrem, -⟩ := CombineAllZonesInNet_removed K b aNetCode aUseLocalFlags r hr
  refine ⟨r, hr, hsub, ?_⟩
  intro z hz hnz
  obtain ⟨hd, v, hv, hvb, hvo⟩ := hrem z hz hnz
  have hs := (CombineAllZonesInNet_visits K b aNetCode aUseLocalFlags r hr).2 v hv
  exact ⟨hd, v, hv, hvb, hvo, (hs.2.2.2.2.2.2.1 true hvb).2⟩

/-- Instance of C21 on the two overlapping squares. -/
theorem CombineAllZonesInNet_subsequence_witness :
    boardOverlap.wellFormed ∧
    ∃ r, CombineAllZonesInNet specKernel boardOverlap 1 false = Except.ok r ∧
      r.board.m_zones.Sublist boardOverlap.m_zones ∧
      ∀ z ∈ boardOverlap.m_zones, z ∉ r.board.m_zones →
        z ∈ r.board.aDeletedList ∧
        ∃ v, EVENT.inner v ∈ r.trace ∧ v.branch = BRANCH.combine true ∧ v.otherZone = z ∧
          (CombineZones specKernel v.before v.refZone v.otherZone).1 = true :=
  ⟨wellFormed_boardOf _ (by norm_num),
    CombineAllZonesInNet_subsequence specKernel boardOverlap 1 false
      (wellFormed_boardOf _ (by norm_num))⟩

/-- C18, counterexample: a zone with 2 corners, on net 1 with a square far from it, is
still in the collection after `CombineAllZonesInNet( 1, false )`, which returns false. -/
theorem CombineAllZonesInNet_prunes_counterexample :
    (boardDegenerate.zone 0).GetNumCorners = 2 ∧
    ∃ r, CombineAllZonesInNet specKernel boardDegenerate 1 false = Except.ok r ∧
      r.ret = false ∧ 0 ∈ r.board.m_zones := by
  refine ⟨by decide, ?_⟩
  obtain ⟨r, hr, hv⟩ := returned_map_eq_some
    (CombineAllZonesInNet specKernel boardDegenerate 1 false)
    (fun r => (r.ret, r.board.m_zones)) (false, [0, 1]) (by decide)
  simp only [Prod.mk.injEq] at hv
  exact ⟨r, hr, hv.1, by rw [hv.2]; decide⟩

/-- C18, amended: `CombineAllZonesInNet` has no test on the number of corners.  On a board
that holds every zone once and fewer than `2 ^ 32` zones it returns, and a zone of the
collection, whatever its number of corners, is still in the collection after the call
unless it was the zone to combine of a call of `CombineZones` that returned true; when
the call returns false the collection, the deleted list and all zone objects are as
before. -/
theorem CombineAllZonesInNet_keeps_uncombined (K : KERNEL) (b : BOARD) (aNetCode : Int)
    (aUseLocalFlags : Bool) (hb : b.wellFormed) :
    ∃ r, CombineAllZonesInNet K b aNetCode aUseLocalFlags = Except.ok r ∧
      (∀ z ∈ b.m_zones,
        (∀ v, EVENT.inner v ∈ r.trace → v.branch = BRANCH.combine true → v.otherZone ≠ z) →
        z ∈ r.board.m_zones) ∧
      (r.ret = false → r.board.m_zones = b.m_zones ∧
        r.board.aDeletedList = b.aDeletedList ∧ r.board.zone = b.zone) := by
  obtain ⟨r, hr⟩ := CombineAllZonesInNet_returns K b aNetCode aUseLocalFlags hb.1 hb.2
  obtain ⟨-, hrem, hun⟩ := CombineAllZonesInNet_removed K b aNetCode aUseLocalFlags r hr
  refine ⟨r, hr, ?_, hun⟩
  intro z hz hno
  by_contra hnz
  obtain ⟨-, v, hv, hvb, hvo⟩ := hrem z hz hnz
  exact hno v hv hvb hvo

/-- Instance of C18 (amended) on the board with the zone of 2 corners. -/
theorem CombineAllZonesInNet_keeps_uncombined_witness :
    boardDegenerate.wellFormed ∧
    ∃ r, CombineAllZonesInNet specKernel boardDegenerate 1 false = Except.ok r ∧
      (∀ z ∈ boardDegenerate.m_zones,
        (∀ v, EVENT.inner v ∈ r.trace → v.branch = BRANCH.combine true → v.otherZone ≠ z) →
        z ∈ r.board.m_zones) ∧
      (r.ret = false → r.board.m_zones = boardDegenerate.m_zones ∧
        r.board.aDeletedList = boardDegenerate.aDeletedList ∧
        r.board.zone = boardDegenerate.zone) :=
  ⟨wellFormed_boardOf _ (by norm_num),
    CombineAllZonesInNet_keeps_uncombined specKernel boardDegenerate 1 false
      (wellFormed_boardOf _ (by norm_num))⟩

/-! ## `CombineAllZonesInNet`: indices, counts and survivors -/

theorem combines_outer (t : List EVENT) (i : Nat) (z : ZONE_PTR) (b : BOARD) :
    combines (t ++ [EVENT.outer i z b]) = combines t := by
  simp [combines, List.countP_append, EVENT.isCombine]

theorem combines_inner (t : List EVENT) (v : VISIT) :
    combines (t ++ [EVENT.inner v]) =
      combines t + (if v.branch = BRANCH.combine true then 1 else 0) := by
  by_cases h : v.branch = BRANCH.combine true <;>
    simp [combines, List.countP_append, EVENT.isCombine, h]

theorem scanInv_step (K : KERNEL) (aNetCode : Int) (aUseLocalFlags : Bool) (n0 i : Nat)
    (ref : ZONE_PTR) (L : Nat) (b1 : BOX2I) (ia2 : Nat) (s s1 : LOOP) (hlt : i < ia2)
    (hq : scanInv n0 i ref L s)
    (hb : innerBody K aNetCode aUseLocalFlags i ref b1 ia2 s = Except.ok s1) :
    scanInv n0 i ref L s1 := by
  obtain ⟨hn, hl, hr, hcnt, hA, hS, hmod⟩ := hq
  obtain ⟨otherZone, br, hget, htr, hc | hc⟩ :=
    innerBody_ok K aNetCode aUseLocalFlags i ref b1 ia2 s s1 hb
  · obtain ⟨ret, hbr, -, -, hret, hbd, -, hmi⟩ := hc
    have hne : ref ≠ otherZone := by
      intro e
      have := nodup_index_unique s.board.m_zones hn ref i ia2 hr (e ▸ hget)
      omega
    have hA1 : ∀ v ret', EVENT.inner v ∈ s1.trace → v.branch = BRANCH.combine ret' →
        v.refZone ≠ v.otherZone ∧ v.before.m_zones[v.ia1]? = some v.refZone := by
      intro v ret' hv hvb
      rw [htr, mem_trace_inner] at hv
      rcases hv with hv | hv
      · exact hA v ret' hv hvb
      · subst hv
        exact ⟨hne, hr⟩
    cases ret with
    | true =>
      obtain ⟨-, hmz, -⟩ := CombineZones_true_effect K s.board ref otherZone hret
      have hmem : otherZone ∈ s.board.m_zones := List.mem_iff_getElem?.2 ⟨_, hget⟩
      have hlen := length_filter_ne_nodup s.board.m_zones hn otherZone hmem
      have hkeep : ∀ k, k ≤ i → s1.board.m_zones[k]? = s.board.m_zones[k]? := by
        intro k hk
        rw [hbd, hmz]
        exact getElem?_filter_ne s.board.m_zones hn otherZone ia2 hget k (by omega)
      refine ⟨by rw [hbd, hmz]; exact hn.filter _, by rw [hbd, hmz]; omega,
        by rw [hkeep i (le_refl _)]; exact hr, ?_, hA1, ?_, ?_⟩
      · rw [htr, combines_inner, if_pos hbr, hbd, hmz]
        omega
      · intro v hv hvb
        rw [htr, mem_trace_inner] at hv
        rcases hv with hv | hv
        · obtain ⟨k, hk, hkz⟩ := hS v hv hvb
          exact ⟨k, hk, by rw [hkeep k hk]; exact hkz⟩
        · subst hv
          exact ⟨i, le_refl _, by rw [hkeep i (le_refl _)]; exact hr⟩
      · constructor
        · intro _
          rw [hbd, hmz]
          omega
        · intro _
          simp [hmi]
    | false =>
      obtain ⟨-, hmz, -⟩ := CombineZones_false_frame K s.board ref otherZone hret
      have hzz : s1.board.m_zones = s.board.m_zones := by rw [hbd, hmz]
      have hmi' : s1.mod_ia1 = s.mod_ia1 := by simp [hmi]
      refine ⟨by rw [hzz]; exact hn, by rw [hzz]; exact hl, by rw [hzz]; exact hr, ?_, hA1,
        ?_, by rw [hzz, hmi']; exact hmod⟩
      · rw [htr, combines_inner, if_neg (by rw [hbr]; simp), hzz]
        exact hcnt
      · intro v hv hvb
        rw [htr, mem_trace_inner] at hv
        rcases hv with hv | hv
        · rw [hzz]
          exact hS v hv hvb
        · subst hv
          rw [hbr] at hvb
          cases hvb
  · obtain ⟨hnc, hbd, -, hmi, -, -⟩ := hc
    refine ⟨by rw [hbd]; exact hn, by rw [hbd]; exact hl, by rw [hbd]; exact hr, ?_, ?_, ?_,
      by rw [hbd, hmi]; exact hmod⟩
    · rw [htr, combines_inner, if_neg (hnc true), hbd]
      exact hcnt
    · intro v ret' hv hvb
      rw [htr, mem_trace_inner] at hv
      rcases hv with hv | hv
      · exact hA v ret' hv hvb
      · subst hv
        exact absurd hvb (hnc ret')
    · intro v hv hvb
      rw [htr, mem_trace_inner] at hv
      rcases hv with hv | hv
      · rw [hbd]
        exact hS v hv hvb
      · subst hv
        exact absurd hvb (hnc true)

theorem runInv_step (K : KERNEL) (aNetCode : Int) (aUseLocalFlags : Bool) (n0 i : Nat)
    (s : LOOP) (i1 : Nat) (s1 : LOOP) (hI : runInv n0 i s) (hlt : i < s.board.sizeMinusOne)
    (hb : outerBody K aNetCode aUseLocalFlags i s = Except.ok (i1, s1)) :
    runInv n0 i1 s1 ∧
    ((s1.mod_ia1 = true ∧ i1 = i ∧ s1.board.m_zones.length < s.board.m_zones.length) ∨
     (i1 = i + 1 ∧ s1.board.m_zones.length = s.board.m_zones.length)) := by
  obtain ⟨hn, hl, h1, hcnt, hA, hS⟩ := hI
  have h32 : (2 : Nat) ^ 32 = 4294967296 := by norm_num
  have hsz : s.board.sizeMinusOne = s.board.m_zones.length - 1 :=
    sizeMinusOne_eq s.board h1 (by rw [h32]; exact hl)
  rw [hsz] at hlt
  have hinc : (i + 1) % 2 ^ 32 = i + 1 := by
    rw [h32]
    omega
  obtain ⟨ref, hget, hc | hc⟩ := outerBody_ok K aNetCode aUseLocalFlags i s i1 s1 hb
  · obtain ⟨-, hs, hi⟩ := hc
    rw [hs, hi, hinc]
    refine ⟨⟨hn, hl, h1, hcnt, hA, ?_⟩, Or.inr ⟨rfl, rfl⟩⟩
    intro v hv hvb
    obtain ⟨k, hk, hkz⟩ := hS v hv hvb
    exact ⟨k, by omega, hkz⟩
  · obtain ⟨-, hin, hi_t, hi_f⟩ := hc
    have hq0 : scanInv n0 i ref s.board.m_zones.length
        { s with mod_ia1 := false, trace := s.trace ++ [EVENT.outer i ref s.board] } := by
      refine ⟨hn, le_refl _, hget, ?_, ?_, ?_, ?_⟩
      · show combines (s.trace ++ [EVENT.outer i ref s.board]) + _ = _
        rw [combines_outer]
        exact hcnt
      · intro v ret hv hvb
        exact hA v ret ((mem_trace_outer _ _ _ _ _).1 hv) hvb
      · intro v hv hvb
        exact hS v ((mem_trace_outer _ _ _ _ _).1 hv) hvb
      · show (false = true) ↔ _
        simp
    have hq := innerLoop_invariant K aNetCode aUseLocalFlags i ref _
      (scanInv n0 i ref s.board.m_zones.length)
      (fun ia2 s s1 hlt hq hb =>
        scanInv_step K aNetCode aUseLocalFlags n0 i ref _ _ ia2 s s1 hlt hq hb)
      _ _ s1 hq0 hin
    obtain ⟨hn1, hl1, hr1, hcnt1, hA1, hS1, hmod1⟩ := hq
    have hpos : 1 ≤ s1.board.m_zones.length := by
      have := (List.getElem?_eq_some.1 hr1).1
      omega
    by_cases hm : s1.mod_ia1 = true
    · have hi1 : i1 = i := by
        rw [hi_t hm, h32]
        split_ifs <;> omega
      rw [hi1]
      exact ⟨⟨hn1, by omega, hpos, hcnt1, hA1, hS1⟩, Or.inl ⟨hm, rfl, hmod1.1 hm⟩⟩
    · have hmf : s1.mod_ia1 = false := by simpa using hm
      have hi1 : i1 = i + 1 := by rw [hi_f hmf, hinc]
      have hle : ¬ s1.board.m_zones.length < s.board.m_zones.length :=
        fun h => hm (hmod1.2 h)
      rw [hi1]
      refine ⟨⟨hn1, by omega, hpos, hcnt1, hA1, ?_⟩, Or.inr ⟨rfl, by omega⟩⟩
      intro v hv hvb
      obtain ⟨k, hk, hkz⟩ := hS1 v hv hvb
      exact ⟨k, by omega, hkz⟩

theorem CombineAllZonesInNet_indexed (K : KERNEL) (b : BOARD) (aNetCode : Int)
    (aUseLocalFlags : Bool) (hb : b.wellFormed) (r : RESULT)
    (h : CombineAllZonesInNet K b aNetCode aUseLocalFlags = Except.ok r) :
    r.board.m_zones.Nodup ∧
    combines r.trace + r.board.m_zones.length = b.m_zones.length ∧
    (2 ≤ b.m_zones.length → 1 ≤ r.board.m_zones.length) ∧
    (∀ v ret, EVENT.inner v ∈ r.trace → v.branch = BRANCH.combine ret →
      v.refZone ≠ v.otherZone ∧ v.before.m_zones[v.ia1]? = some v.refZone) ∧
    (∀ v, EVENT.inner v ∈ r.trace → v.branch = BRANCH.combine true →
      v.refZone ∈ r.board.m_zones) := by
  have h32 : (2 : Nat) ^ 32 = 4294967296 := by norm_num
  have h64 : (2 : Nat) ^ 64 = 18446744073709551616 := by norm_num
  obtain ⟨hn, hl⟩ := hb
  rw [h32] at hl
  unfold CombineAllZonesInNet at h
  by_cases hsz : b.size ≤ 1
  · rw [if_pos hsz] at h
    cases Except.ok.inj h
    have hlen : b.m_zones.length ≤ 1 := by
      unfold BOARD.size at hsz
      rw [h64] at hsz
      omega
    refine ⟨hn, by simp [combines], fun h2 => by omega, ?_, ?_⟩
    · intro v ret hv
      simp at hv
    · intro v hv
      simp at hv
  · rw [if_neg hsz] at h
    have hlen : 2 ≤ b.m_zones.length := by
      unfold BOARD.size at hsz
      rw [h64] at hsz
      omega
    cases ho : outerLoop K aNetCode aUseLocalFlags (2 * b.m_zones.length) 0
        ⟨b, false, false, []⟩ with
    | error e =>
      rw [ho] at h
      simp only [] at h
      exact Except.noConfusion h
    | ok s =>
      rw [ho] at h
      simp only [] at h
      cases Except.ok.inj h
      obtain ⟨i1, hI, -⟩ := outerLoop_invariant K aNetCode aUseLocalFlags
        (runInv b.m_zones.length)
        (fun i s i1 s1 hp hlt hb =>
          (runInv_step K aNetCode aUseLocalFlags _ i s i1 s1 hp hlt hb).1)
        _ 0 _ s
        ⟨hn, hl, by show 1 ≤ b.m_zones.length; omega, by simp [combines],
          by intro v ret hv; simp at hv, by intro v hv; simp at hv⟩
        ho
      obtain ⟨hn1, -, hp1, hcnt1, hA1, hS1⟩ := hI
      refine ⟨hn1, hcnt1, fun _ => hp1, hA1, ?_⟩
      intro v hv hvb
      obtain ⟨k, -, hkz⟩ := hS1 v hv hvb
      exact List.mem_iff_getElem?.2 ⟨k, hkz⟩

theorem CombineAllZonesInNet_distinct (K : KERNEL) (b : BOARD) (aNetCode : Int)
    (aUseLocalFlags : Bool) (hn : b.m_zones.Nodup) (r : RESULT)
    (h : CombineAllZonesInNet K b aNetCode aUseLocalFlags = Except.ok r) :
    ∀ v ret, EVENT.inner v ∈ r.trace → v.branch = BRANCH.combine ret →
      v.refZone ≠ v.otherZone := by
  obtain ⟨s, hp, -, -, htrace⟩ := CombineAllZonesInNet_invariant K b aNetCode aUseLocalFlags
    (fun s => s.board.m_zones.Nodup ∧
      ∀ v ret, EVENT.inner v ∈ s.trace → v.branch = BRANCH.combine ret →
        v.refZone ≠ v.otherZone)
    (fun i refZone _ s => (s.board.m_zones.Nodup ∧
      ∀ v ret, EVENT.inner v ∈ s.trace → v.branch = BRANCH.combine ret →
        v.refZone ≠ v.otherZone) ∧ s.board.m_zones[i]? = some refZone)
    ⟨hn, by intro v ret hv; simp at hv⟩
    (by
      intro i refZone s hp hget _
      exact ⟨⟨hp.1, by simpa only [mem_trace_outer] using hp.2⟩, hget⟩)
    (by
      intro i refZone b1 ia2 s s1 hlt hq hb
      obtain ⟨⟨hnd, hA⟩, hr⟩ := hq
      obtain ⟨otherZone, br, hget, htr, hc | hc⟩ :=
        innerBody_ok K aNetCode aUseLocalFlags i refZone b1 ia2 s s1 hb
      · obtain ⟨ret, hbr, -, -, hret, hbd, -, -⟩ := hc
        have hne : refZone ≠ otherZone := by
          intro e
          have := nodup_index_unique s.board.m_zones hnd refZone i ia2 hr (e ▸ hget)
          omega
        have hA1 : ∀ v ret', EVENT.inner v ∈ s1.trace → v.branch = BRANCH.combine ret' →
            v.refZone ≠ v.otherZone := by
          intro v ret' hv hvb
          rw [htr, mem_trace_inner] at hv
          rcases hv with hv | hv
          · exact hA v ret' hv hvb
          · subst hv
            exact hne
        cases ret with
        | true =>
          obtain ⟨-, hmz, -⟩ := CombineZones_true_effect K s.board refZone otherZone hret
          refine ⟨⟨by rw [hbd, hmz]; exact hnd.filter _, hA1⟩, ?_⟩
          rw [hbd, hmz, getElem?_filter_ne s.board.m_zones hnd otherZone ia2 hget i hlt]
          exact hr
        | false =>
          obtain ⟨-, hmz, -⟩ := CombineZones_false_frame K s.board refZone otherZone hret
          exact ⟨⟨by rw [hbd, hmz]; exact hnd, hA1⟩, by rw [hbd, hmz]; exact hr⟩
      · obtain ⟨hnc, hbd, -⟩ := hc
        refine ⟨⟨by rw [hbd]; exact hnd, ?_⟩, by rw [hbd]; exact hr⟩
        intro v ret' hv hvb
        rw [htr, mem_trace_inner] at hv
        rcases hv with hv | hv
        · exact hA v ret' hv hvb
        · subst hv
          exact absurd hvb (hnc ret'))
    (fun _ _ _ _ hq => hq.1) r h
  rw [htrace]
  exact hp.2

/-- C26: on a board whose collection holds no zone twice, every call of `CombineZones` made
by `CombineAllZonesInNet` has `refZone != otherZone` (so the branch of `CombineZones` that
asserts is not taken); with fewer than `2 ^ 32` zones the call returns. -/
theorem CombineAllZonesInNet_no_self_merge (K : KERNEL) (b : BOARD) (aNetCode : Int)
    (aUseLocalFlags : Bool) (hn : b.m_zones.Nodup) :
    (∀ r, CombineAllZonesInNet K b aNetCode aUseLocalFlags = Except.ok r →
      ∀ v ret, EVENT.inner v ∈ r.trace → v.branch = BRANCH.combine ret →
        v.refZone ≠ v.otherZone) ∧
    (b.m_zones.length < 2 ^ 32 →
      ∃ r, CombineAllZonesInNet K b aNetCode aUseLocalFlags = Except.ok r) :=
  ⟨fun r hr => CombineAllZonesInNet_distinct K b aNetCode aUseLocalFlags hn r hr,
    fun hl => CombineAllZonesInNet_returns K b aNetCode aUseLocalFlags hn hl⟩

/-- Instance of C26 on the chain of three overlapping squares. -/
theorem CombineAllZonesInNet_no_self_merge_witness :
    boardChain.m_zones.Nodup ∧
    (∀ r, CombineAllZonesInNet specKernel boardChain 1 false = Except.ok r →
      ∀ v ret, EVENT.inner v ∈ r.trace → v.branch = BRANCH.combine ret →
        v.refZone ≠ v.otherZone) ∧
    (boardChain.m_zones.length < 2 ^ 32 →
      ∃ r, CombineAllZonesInNet specKernel boardChain 1 false = Except.ok r) :=
  ⟨List.nodup_range _,
    CombineAllZonesInNet_no_self_merge specKernel boardChain 1 false (List.nodup_range _)⟩

/-- C29: on a board that holds every zone once and fewer than `2 ^ 32` zones,
`CombineAllZonesInNet` returns, and the reference zone of every call of `CombineZones`
that returned true is in the collection when the call returns (zones never come back, so
it was not removed after it absorbed a zone); every zone that has left the collection was
combined into a reference zone that is still in it, the outline of that reference zone
being set to the simplified union with the outline of the zone removed. -/
theorem CombineAllZonesInNet_survivors (K : KERNEL) (b : BOARD) (aNetCode : Int)
    (aUseLocalFlags : Bool) (hb : b.wellFormed) :
    ∃ r, CombineAllZonesInNet K b aNetCode aUseLocalFlags = Except.ok r ∧
      (∀ v, EVENT.inner v ∈ r.trace → v.branch = BRANCH.combine true →
        v.refZone ∈ r.board.m_zones) ∧
      (∀ z ∈ b.m_zones, z ∉ r.board.m_zones →
        ∃ v, EVENT.inner v ∈ r.trace ∧ v.branch = BRANCH.combine true ∧ v.otherZone = z ∧
          v.refZone ∈ r.board.m_zones ∧
          ((CombineZones K v.before v.refZone z).2.zone v.refZone).outline =
            mergedOutlines K v.before v.refZone z) := by
  obtain ⟨r, hr⟩ := CombineAllZonesInNet_returns K b aNetCode aUseLocalFlags hb.1 hb.2
  obtain ⟨-, -, -, -, hS⟩ := CombineAllZonesInNet_indexed K b aNetCode aUseLocalFlags hb r hr
  obtain ⟨-, hrem, -⟩ := CombineAllZonesInNet_removed K b aNetCode aUseLocalFlags r hr
  refine ⟨r, hr, hS, ?_⟩
  intro z hz hnz
  obtain ⟨-, v, hv, hvb, hvo⟩ := hrem z hz hnz
  have hs := (CombineAllZonesInNet_visits K b aNetCode aUseLocalFlags r hr).2 v hv
  have hret := (hs.2.2.2.2.2.2.1 true hvb).2
  rw [hvo] at hret
  obtain ⟨-, -, -, -, -, hzr⟩ := CombineZones_true_effect K v.before v.refZone z hret
  exact ⟨v, hv, hvb, hvo, hS v hv hvb, by rw [hzr]⟩

/-- Instance of C29 on the chain of three overlapping squares. -/
theorem CombineAllZonesInNet_survivors_witness :
    boardChain.wellFormed ∧
    ∃ r, CombineAllZonesInNet specKernel boardChain 1 false = Except.ok r ∧
      (∀ v, EVENT.inner v ∈ r.trace → v.branch = BRANCH.combine true →
        v.refZone ∈ r.board.m_zones) ∧
      (∀ z ∈ boardChain.m_zones, z ∉ r.board.m_zones →
        ∃ v, EVENT.inner v ∈ r.trace ∧ v.branch = BRANCH.combine true ∧ v.otherZone = z ∧
          v.refZone ∈ r.board.m_zones ∧
          ((CombineZones specKernel v.before v.refZone z).2.zone v.refZone).outline =
            mergedOutlines specKernel v.before v.refZone z) :=
  ⟨wellFormed_boardOf _ (by norm_num),
    CombineAllZonesInNet_survivors specKernel boardChain 1 false
      (wellFormed_boardOf _ (by norm_num))⟩

/-! ## `OnAreaPolygonModified`: theorems -/

theorem sweepLoop_zone : ∀ (n i : Nat) (buf : List ZONE_PTR) (b : BOARD),
    (sweepLoop n i buf b).zone = b.zone := by
  intro n
  induction n with
  | zero => intro i buf b; rfl
  | succ n ih =>
    intro i buf b
    unfold sweepLoop
    cases buf[i]? with
    | none => rfl
    | some zone =>
      simp only []
      split_ifs
      · rw [ih]
        rfl
      · rw [ih]

theorem sweep_zone (b : BOARD) : (sweep b).zone = b.zone :=
  sweepLoop_zone _ _ _ _

/-- C17, the failing input: the collection holds two zones with 2 corners next to each
other (addresses 0 and 1) and then a square (address 2), the modified zone.  The loop over
`m_zones` removes zone 0; zone 1 moves into the slot just visited and is not looked at: it
is still in the collection, with 2 corners, when `OnAreaPolygonModified` returns. -/
theorem OnAreaPolygonModified_skips_adjacent :
    (boardTwoDegenerate.zone 0).GetNumCorners = 2 ∧
    (boardTwoDegenerate.zone 1).GetNumCorners = 2 ∧
    ∃ o, OnAreaPolygonModified specKernel noRepair boardTwoDegenerate 2 = Except.ok o ∧
      o.board.m_zones = [1, 2] ∧ o.board.aDeletedList = [0] ∧
      (o.board.zone 1).GetNumCorners = 2 := by
  refine ⟨by decide, by decide, ?_⟩
  obtain ⟨o, ho, hv⟩ := returned_map_eq_some
    (OnAreaPolygonModified specKernel noRepair boardTwoDegenerate 2)
    (fun o => (o.board.m_zones, o.board.aDeletedList, (o.board.zone 1).GetNumCorners))
    ([1, 2], [0], 2) (by decide)
  simp only [Prod.mk.injEq] at hv
  exact ⟨o, ho, hv.1, hv.2.1, hv.2.2⟩

/-- C19, counterexample: on the board with a square (the modified zone) and, far from it, a
zone with 2 corners, `NormalizeAreaPolygon` reports no change, no pair is combined and the
loop over `m_zones` removes the zone with 2 corners; `OnAreaPolygonModified` returns
false. -/
theorem OnAreaPolygonModified_ret_counterexample :
    ∃ o, OnAreaPolygonModified specKernel noRepair boardSquareDegenerate 0 = Except.ok o ∧
      o.ret = false ∧ o.normalized = false ∧ o.combined.isNone = true ∧
      o.beforeSweep.m_zones = [0, 1] ∧ o.board.m_zones = [0] ∧
      o.board.aDeletedList = [1] := by
  obtain ⟨o, ho, hv⟩ := returned_map_eq_some
    (OnAreaPolygonModified specKernel noRepair boardSquareDegenerate 0)
    (fun o => (o.ret, o.normalized, o.combined.isNone, o.beforeSweep.m_zones,
      o.board.m_zones))
    (false, false, true, [0, 1], [0]) (by decide)
  have hd := returned_map_of_ok
    (OnAreaPolygonModified specKernel noRepair boardSquareDegenerate 0)
    (fun o => o.board.aDeletedList) [1] o ho (by decide)
  simp only [Prod.mk.injEq] at hv
  exact ⟨o, ho, hv.1, hv.2.1, hv.2.2.1, hv.2.2.2.1, hv.2.2.2.2, hd⟩

/-- C19, amended: when the board left by `NormalizeAreaPolygon` holds every zone once and
fewer than `2 ^ 32` zones, `OnAreaPolygonModified` returns, and it returns true if and only
if `NormalizeAreaPolygon` returned true or `TestZoneIntersections( modified_area )` is true
on the board `NormalizeAreaPolygon` left (in which case `CombineAllZonesInNet` is called,
whether or not it combines a pair); what the final loop removes has no part in the value. -/
theorem OnAreaPolygonModified_ret_iff (K : KERNEL)
    (NormalizeAreaPolygon : BOARD → ZONE_PTR → Bool × BOARD) (b : BOARD)
    (modified_area : ZONE_PTR) (hb : (NormalizeAreaPolygon b modified_area).2.wellFormed) :
    ∃ o, OnAreaPolygonModified K NormalizeAreaPolygon b modified_area = Except.ok o ∧
      (o.ret = true ↔
        ((NormalizeAreaPolygon b modified_area).1 = true ∨
         TestZoneIntersections K (NormalizeAreaPolygon b modified_area).2 modified_area
           = true)) ∧
      (o.combined.isSome = true ↔
        TestZoneIntersections K (NormalizeAreaPolygon b modified_area).2 modified_area
          = true) := by
  unfold OnAreaPolygonModified
  simp only []
  by_cases ht : TestZoneIntersections K (NormalizeAreaPolygon b modified_area).2
      modified_area = true
  · rw [if_pos ht]
    obtain ⟨r, hr⟩ := CombineAllZonesInNet_returns K (NormalizeAreaPolygon b modified_area).2
      ((NormalizeAreaPolygon b modified_area).2.zone modified_area).netCode true hb.1 hb.2
    rw [hr]
    exact ⟨_, rfl, by simp [ht], by simp [ht]⟩
  · rw [if_neg ht]
    exact ⟨_, rfl, by simp [ht], by simp [ht]⟩

/-- Instance of C19 (amended) on the board with a square and a zone with 2 corners. -/
theorem OnAreaPolygonModified_ret_iff_witness :
    (noRepair boardSquareDegenerate 0).2.wellFormed ∧
    ∃ o, OnAreaPolygonModified specKernel noRepair boardSquareDegenerate 0 = Except.ok o ∧
      (o.ret = true ↔
        ((noRepair boardSquareDegenerate 0).1 = true ∨
         TestZoneIntersections specKernel (noRepair boardSquareDegenerate 0).2 0 = true)) ∧
      (o.combined.isSome = true ↔
        TestZoneIntersections specKernel (noRepair boardSquareDegenerate 0).2 0 = true) :=
  ⟨wellFormed_boardOf _ (by norm_num),
    OnAreaPolygonModified_ret_iff specKernel noRepair boardSquareDegenerate 0
      (wellFormed_boardOf _ (by norm_num))⟩

theorem CombineAllZonesInNet_flags (K : KERNEL) (b : BOARD) (aNetCode : Int)
    (aUseLocalFlags : Bool) (r : RESULT)
    (h : CombineAllZonesInNet K b aNetCode aUseLocalFlags = Except.ok r) :
    (∀ p, (b.zone p).localFlags ≠ 0 → (r.board.zone p).localFlags ≠ 0) ∧
    (∀ v, EVENT.inner v ∈ r.trace → v.branch = BRANCH.combine true →
      (r.board.zone v.refZone).localFlags = 1) := by
  obtain ⟨s, hp, -, hboard, htrace⟩ := CombineAllZonesInNet_invariant K b aNetCode
    aUseLocalFlags
    (fun s => (∀ p, (b.zone p).localFlags ≠ 0 → (s.board.zone p).localFlags ≠ 0) ∧
      (∀ v, EVENT.inner v ∈ s.trace → v.branch = BRANCH.combine true →
        (s.board.zone v.refZone).localFlags = 1))
    (fun _ _ _ s => (∀ p, (b.zone p).localFlags ≠ 0 → (s.board.zone p).localFlags ≠ 0) ∧
      (∀ v, EVENT.inner v ∈ s.trace → v.branch = BRANCH.combine true →
        (s.board.zone v.refZone).localFlags = 1))
    ⟨fun _ hp => hp, by intro v hv; simp at hv⟩
    (by
      intro i refZone s hp _ _
      simpa only [mem_trace_outer] using hp)
    (by
      intro i refZone b1 ia2 s s1 _ hq hb
      obtain ⟨hF, hS⟩ := hq
      obtain ⟨otherZone, br, hget, htr, hc | hc⟩ :=
        innerBody_ok K aNetCode aUseLocalFlags i refZone b1 ia2 s s1 hb
      · obtain ⟨ret, hbr, -, -, hret, hbd, -, -⟩ := hc
        cases ret with
        | true =>
          obtain ⟨-, -, -, -, hzp, hzr⟩ :=
            CombineZones_true_effect K s.board refZone otherZone hret
          have hone : (s1.board.zone refZone).localFlags = 1 := by rw [hbd, hzr]
          refine ⟨?_, ?_⟩
          · intro p hpf
            by_cases hpr : p = refZone
            · rw [hpr, hone]
              decide
            · rw [hbd, hzp p hpr]
              exact hF p hpf
          · intro v hv hvb
            rw [htr, mem_trace_inner] at hv
            by_cases hvr : v.refZone = refZone
            · rw [hvr]
              exact hone
            · rcases hv with hv | hv
              · rw [hbd, hzp _ hvr]
                exact hS v hv hvb
              · subst hv
                exact absurd rfl hvr
        | false =>
          obtain ⟨-, -, -, hzz⟩ := CombineZones_false_frame K s.board refZone otherZone hret
          refine ⟨by rw [hbd, hzz]; exact hF, ?_⟩
          intro v hv hvb
          rw [htr, mem_trace_inner] at hv
          rcases hv with hv | hv
          · rw [hbd, hzz]
            exact hS v hv hvb
          · subst hv
            rw [hbr] at hvb
            cases hvb
      · obtain ⟨hnc, hbd, -⟩ := hc
        refine ⟨by rw [hbd]; exact hF, ?_⟩
        intro v hv hvb
        rw [htr, mem_trace_inner] at hv
        rcases hv with hv | hv
        · rw [hbd]
          exact hS v hv hvb
        · subst hv
          exact absurd hvb (hnc true))
    (fun _ _ _ _ hq => hq) r h
  rw [hboard, htrace]
  exact hp

/-- C20, counterexample: the zone just edited (local flag 1) overlaps another zone of its
net; `OnAreaPolygonModified` combines them, and the zone that absorbed the other is in the
collection with local flag 1 when the call returns. -/
theorem OnAreaPolygonModified_flag_counterexample :
    ∃ o, OnAreaPolygonModified specKernel noRepair boardEdited 0 = Except.ok o ∧
      o.ret = true ∧ o.board.m_zones = [0] ∧ o.board.aDeletedList = [1] ∧
      (o.board.zone 0).localFlags = 1 := by
  obtain ⟨o, ho, hv⟩ := returned_map_eq_some
    (OnAreaPolygonModified specKernel noRepair boardEdited 0)
    (fun o => (o.ret, o.board.m_zones, o.board.aDeletedList, (o.board.zone 0).localFlags))
    (true, [0], [1], 1) (by decide)
  simp only [Prod.mk.injEq] at hv
  exact ⟨o, ho, hv.1, hv.2.1, hv.2.2.1, hv.2.2.2⟩

/-- C20, amended: nothing in `OnAreaPolygonModified` clears a local flag.  When the board
left by `NormalizeAreaPolygon` holds every zone once and fewer than `2 ^ 32` zones, the
call returns; a zone whose local flag is not zero after `NormalizeAreaPolygon` has a local
flag that is not zero when the call returns, and the reference zone of every call of
`CombineZones` that returned true has the local flag 1 when the call returns. -/
theorem OnAreaPolygonModified_flags_kept (K : KERNEL)
    (NormalizeAreaPolygon : BOARD → ZONE_PTR → Bool × BOARD) (b : BOARD)
    (modified_area : ZONE_PTR) (hb : (NormalizeAreaPolygon b modified_area).2.wellFormed) :
    ∃ o, OnAreaPolygonModified K NormalizeAreaPolygon b modified_area = Except.ok o ∧
      (∀ p, ((NormalizeAreaPolygon b modified_area).2.zone p).localFlags ≠ 0 →
        (o.board.zone p).localFlags ≠ 0) ∧
      (∀ r, o.combined = some r → ∀ v, EVENT.inner v ∈ r.trace →
        v.branch = BRANCH.combine true → (o.board.zone v.refZone).localFlags = 1) := by
  unfold OnAreaPolygonModified
  simp only []
  by_cases ht : TestZoneIntersections K (NormalizeAreaPolygon b modified_area).2
      modified_area = true
  · rw [if_pos ht]
    obtain ⟨r, hr⟩ := CombineAllZonesInNet_returns K (NormalizeAreaPolygon b modified_area).2
      ((NormalizeAreaPolygon b modified_area).2.zone modified_area).netCode true hb.1 hb.2
    obtain ⟨hF, hS⟩ := CombineAllZonesInNet_flags K _ _ _ r hr
    rw [hr]
    refine ⟨_, rfl, ?_, ?_⟩
    · intro p hp
      show ((sweep r.board).zone p).localFlags ≠ 0
      rw [sweep_zone]
      exact hF p hp
    · intro r' hr' v hv hvb
      have hrr : r = r' := Option.some.inj hr'
      subst hrr
      show ((sweep r.board).zone v.refZone).localFlags = 1
      rw [sweep_zone]
      exact hS v hv hvb
  · rw [if_neg ht]
    refine ⟨_, rfl, ?_, ?_⟩
    · intro p hp
      show ((sweep (NormalizeAreaPolygon b modified_area).2).zone p).localFlags ≠ 0
      rw [sweep_zone]
      exact hp
    · intro r' hr'
      exact absurd hr' (by simp)

/-- Instance of C20 (amended) on the board with the edited zone. -/
theorem OnAreaPolygonModified_flags_kept_witness :
    (noRepair boardEdited 0).2.wellFormed ∧
    ∃ o, OnAreaPolygonModified specKernel noRepair boardEdited 0 = Except.ok o ∧
      (∀ p, ((noRepair boardEdited 0).2.zone p).localFlags ≠ 0 →
        (o.board.zone p).localFlags ≠ 0) ∧
      (∀ r, o.combined = some r → ∀ v, EVENT.inner v ∈ r.trace →
        v.branch = BRANCH.combine true → (o.board.zone v.refZone).localFlags = 1) :=
  ⟨wellFormed_boardOf _ (by norm_num),
    OnAreaPolygonModified_flags_kept specKernel noRepair boardEdited 0
      (wellFormed_boardOf _ (by norm_num))⟩

/-! ## Zones whose boxes do not intersect -/

theorem TestZoneIntersection_of_boxes (K : KERNEL) (z1 z2 : ZONE)
    (h : K.Intersects (K.BBox z1.outline) (K.BBox z2.outline) = false) :
    TestZoneIntersection K z1 z2 = false := by
  unfold TestZoneIntersection
  simp only []
  by_cases hl : z1.layer ≠ z2.layer
  · rw [if_pos hl]
  · rw [if_neg hl, if_pos (by simp [h])]

/-- C8: for two zones whose outline bounding boxes do not intersect, `TestZoneIntersection`
returns false; and on a board whose collection is just these two zones (two different
objects), `CombineAllZonesInNet` returns false and leaves the state as it was: both zones in
the collection, every zone object (so both outlines) unchanged. -/
theorem CombineAllZonesInNet_disjoint_boxes (K : KERNEL) (b : BOARD) (p1 p2 : ZONE_PTR)
    (aNetCode : Int) (aUseLocalFlags : Bool) (hz : b.m_zones = [p1, p2]) (hne : p1 ≠ p2)
    (hbox : K.Intersects (K.BBox (b.zone p1).outline) (K.BBox (b.zone p2).outline) = false) :
    TestZoneIntersection K (b.zone p1) (b.zone p2) = false ∧
    ∃ r, CombineAllZonesInNet K b aNetCode aUseLocalFlags = Except.ok r ∧
      r.ret = false ∧ r.board = b ∧ r.board.m_zones = [p1, p2] := by
  refine ⟨TestZoneIntersection_of_boxes K _ _ hbox, ?_⟩
  have hnd : b.m_zones.Nodup := by
    rw [hz]
    simp [hne]
  obtain ⟨r, hr⟩ := CombineAllZonesInNet_returns K b aNetCode aUseLocalFlags hnd
    (by rw [hz]; norm_num)
  obtain ⟨s, hp, hret, hboard, -⟩ := CombineAllZonesInNet_invariant K b aNetCode
    aUseLocalFlags
    (fun s => s.modified = false ∧ s.board = b)
    (fun i refZone b1 s => (s.modified = false ∧ s.board = b) ∧
      b.m_zones[i]? = some refZone ∧ b1 = K.BBox (b.zone refZone).outline)
    ⟨rfl, rfl⟩
    (by
      intro i refZone s hp hget _
      rw [hp.2] at hget ⊢
      exact ⟨⟨hp.1, rfl⟩, hget, rfl⟩)
    (by
      intro i refZone b1 ia2 s s1 hlt hq hb
      obtain ⟨⟨hm, hbd⟩, hr, hb1⟩ := hq
      obtain ⟨otherZone, br, hget, -, hc | hc⟩ :=
        innerBody_ok K aNetCode aUseLocalFlags i refZone b1 ia2 s s1 hb
      · obtain ⟨_, -, hg, -⟩ := hc
        have hint := hg.2.2.2.2.1
        rw [hbd, hz] at hget
        rw [hz] at hr
        have h2 : ia2 < 2 := by
          have := (List.getElem?_eq_some.1 hget).1
          simpa using this
        have hi0 : i = 0 := by omega
        have hi1 : ia2 = 1 := by omega
        subst hi0 hi1
        have e1 : refZone = p1 := by simpa using hr.symm
        have e2 : otherZone = p2 := by simpa using hget.symm
        rw [hb1, hbd, e1, e2, hbox] at hint
        exact absurd hint (by simp)
      · obtain ⟨-, hbd1, hm1, -⟩ := hc
        exact ⟨⟨hm1.trans hm, hbd1.trans hbd⟩, hr, hb1⟩)
    (fun _ _ _ _ hq => hq.1) r hr
  exact ⟨r, hr, hret.trans hp.1, hboard.trans hp.2, by rw [hboard, hp.2, hz]⟩

/-- Instance of C8 on the two squares far apart. -/
theorem CombineAllZonesInNet_disjoint_boxes_witness :
    (boardApart.m_zones = [0, 1] ∧ (0 : ZONE_PTR) ≠ 1 ∧
      specKernel.Intersects (specKernel.BBox (boardApart.zone 0).outline)
        (specKernel.BBox (boardApart.zone 1).outline) = false) ∧
    (TestZoneIntersection specKernel (boardApart.zone 0) (boardApart.zone 1) = false ∧
    ∃ r, CombineAllZonesInNet specKernel boardApart 1 false = Except.ok r ∧
      r.ret = false ∧ r.board = boardApart ∧ r.board.m_zones = [0, 1]) :=
  ⟨⟨by decide, by decide, by decide⟩,
    CombineAllZonesInNet_disjoint_boxes specKernel boardApart 0 1 1 false (by decide)
      (by decide) (by decide)⟩

/-! ## `TestZoneIntersection`: symmetry; `TestZoneIntersections`: attributes not read -/

/-- C28: when the box test and the segment collision test at clearance 0 of the polygon
library are symmetric, `TestZoneIntersection( z1, z2 ) = TestZoneIntersection( z2, z1 )`. -/
theorem TestZoneIntersection_symm (K : KERNEL)
    (hI : ∀ a b, K.Intersects a b = K.Intersects b a)
    (hC : ∀ s t, K.Collide s t 0 = K.Collide t s 0) (z1 z2 : ZONE) :
    TestZoneIntersection K z1 z2 = TestZoneIntersection K z2 z1 := by
  rw [Bool.eq_iff_iff, TestZoneIntersection_true_iff, TestZoneIntersection_true_iff,
    hI (K.BBox z2.outline) (K.BBox z1.outline)]
  constructor
  · rintro ⟨hl, hb, h⟩
    refine ⟨hl.symm, hb, ?_⟩
    rcases h with ⟨s1, h1, s2, h2, hc⟩ | h | h
    · exact Or.inl ⟨s2, h2, s1, h1, by rw [hC]; exact hc⟩
    · exact Or.inr (Or.inr h)
    · exact Or.inr (Or.inl h)
  · rintro ⟨hl, hb, h⟩
    refine ⟨hl.symm, hb, ?_⟩
    rcases h with ⟨s1, h1, s2, h2, hc⟩ | h | h
    · exact Or.inl ⟨s2, h2, s1, h1, by rw [hC]; exact hc⟩
    · exact Or.inr (Or.inr h)
    · exact Or.inr (Or.inl h)

theorem specIntersects_symm (a b : BOX2I) : specIntersects a b = specIntersects b a := by
  unfold specIntersects
  rw [max_comm a.m_Pos.x, min_comm (a.m_Pos.x + a.m_Size.x), max_comm a.m_Pos.y,
    min_comm (a.m_Pos.y + a.m_Size.y)]

theorem specCollide_symm (s t : SEG) : specCollide s t 0 = specCollide t s 0 := by
  unfold specCollide
  simp only []
  generalize inExtent s t.A = e1
  generalize inExtent s t.B = e2
  generalize inExtent t s.A = e3
  generalize inExtent t s.B = e4
  generalize cross s.A s.B t.A = d1
  generalize cross s.A s.B t.B = d2
  generalize cross t.A t.B s.A = d3
  generalize cross t.A t.B s.B = d4
  simp only [Bool.decide_and]
  generalize decide (d1 < 0 ∧ 0 < d2 ∨ 0 < d1 ∧ d2 < 0) = x1
  generalize decide (d3 < 0 ∧ 0 < d4 ∨ 0 < d3 ∧ d4 < 0) = x2
  generalize decide (d1 = 0) = y1
  generalize decide (d2 = 0) = y2
  generalize decide (d3 = 0) = y3
  generalize decide (d4 = 0) = y4
  cases x1 <;> cases x2 <;> cases y1 <;> cases y2 <;> cases y3 <;> cases y4 <;> cases e1 <;>
    cases e2 <;> cases e3 <;> cases e4 <;> rfl

/-- Instance of C28: the reference kernel is symmetric; the two overlapping squares. -/
theorem TestZoneIntersection_symm_witness :
    ((∀ a b, specKernel.Intersects a b = specKernel.Intersects b a) ∧
      (∀ s t, specKernel.Collide s t 0 = specKernel.Collide t s 0)) ∧
    TestZoneIntersection specKernel (boardOverlap.zone 0) (boardOverlap.zone 1) =
      TestZoneIntersection specKernel (boardOverlap.zone 1) (boardOverlap.zone 0) :=
  ⟨⟨specIntersects_symm, specCollide_symm⟩,
    TestZoneIntersection_symm specKernel specIntersects_symm specCollide_symm _ _⟩

theorem TestZoneIntersection_congr (K : KERNEL) (a a1 o o1 : ZONE) (h1 : a1.layer = a.layer)
    (h2 : a1.outline = a.outline) (h3 : o1.layer = o.layer) (h4 : o1.outline = o.outline) :
    TestZoneIntersection K a1 o1 = TestZoneIntersection K a o := by
  unfold TestZoneIntersection
  rw [h1, h2, h3, h4]

theorem TestZoneIntersections_congr (K : KERNEL) (b b1 : BOARD) (z : ZONE_PTR)
    (hm : b1.m_zones = b.m_zones)
    (hbody : ∀ o ∈ b.m_zones,
      TestZoneIntersections.body K b1 z o = TestZoneIntersections.body K b z o) :
    TestZoneIntersections K b1 z = TestZoneIntersections K b z := by
  unfold TestZoneIntersections
  rw [hm, Bool.eq_iff_iff, List.any_eq_true, List.any_eq_true]
  constructor
  · rintro ⟨o, ho, h⟩
    exact ⟨o, ho, by rw [← hbody o ho]; exact h⟩
  · rintro ⟨o, ho, h⟩
    exact ⟨o, ho, by rw [hbody o ho]; exact h⟩

theorem withoutDisallow_fields (z w : ZONE) (h : z.withoutDisallow = w.withoutDisallow) :
    z.netCode = w.netCode ∧ z.layer = w.layer ∧ z.layerSet = w.layerSet ∧
    z.priority = w.priority ∧ z.isRuleArea = w.isRuleArea ∧ z.outline = w.outline ∧
    z.localClearance = w.localClearance ∧ z.thermalReliefGap = w.thermalReliefGap ∧
    z.thermalReliefSpokeWidth = w.thermalReliefSpokeWidth ∧
    z.padConnection = w.padConnection ∧ z.minThickness = w.minThickness ∧
    z.cornerSmoothingType = w.cornerSmoothingType ∧ z.cornerRadius = w.cornerRadius := by
  have h1 := congrArg ZONE.netCode h
  have h2 := congrArg ZONE.layer h
  have h3 := congrArg ZONE.layerSet h
  have h4 := congrArg ZONE.priority h
  have h5 := congrArg ZONE.isRuleArea h
  have h6 := congrArg ZONE.outline h
  have h7 := congrArg ZONE.localClearance h
  have h8 := congrArg ZONE.thermalReliefGap h
  have h9 := congrArg ZONE.thermalReliefSpokeWidth h
  have h10 := congrArg ZONE.padConnection h
  have h11 := congrArg ZONE.minThickness h
  have h12 := congrArg ZONE.cornerSmoothingType h
  have h13 := congrArg ZONE.cornerRadius h
  exact ⟨h1, h2, h3, h4, h5, h6, h7, h8, h9, h10, h11, h12, h13⟩

theorem withoutFill_fields (z w : ZONE) (h : z.withoutFill = w.withoutFill) :
    z.netCode = w.netCode ∧ z.layer = w.layer ∧ z.layerSet = w.layerSet ∧
    z.priority = w.priority ∧ z.isRuleArea = w.isRuleArea ∧ z.outline = w.outline ∧
    z.doNotAllowCopperPour = w.doNotAllowCopperPour ∧
    z.doNotAllowTracks = w.doNotAllowTracks ∧ z.doNotAllowVias = w.doNotAllowVias ∧
    z.doNotAllowPads = w.doNotAllowPads ∧
    z.doNotAllowFootprints = w.doNotAllowFootprints := by
  have h1 := congrArg ZONE.netCode h
  have h2 := congrArg ZONE.layer h
  have h3 := congrArg ZONE.layerSet h
  have h4 := congrArg ZONE.priority h
  have h5 := congrArg ZONE.isRuleArea h
  have h6 := congrArg ZONE.outline h
  have h7 := congrArg ZONE.doNotAllowCopperPour h
  have h8 := congrArg ZONE.doNotAllowTracks h
  have h9 := congrArg ZONE.doNotAllowVias h
  have h10 := congrArg ZONE.doNotAllowPads h
  have h11 := congrArg ZONE.doNotAllowFootprints h
  exact ⟨h1, h2, h3, h4, h5, h6, h7, h8, h9, h10, h11⟩

/-- C27: `TestZoneIntersections( z )` for a filled zone `z` does not depend on the disallow
flags: on two boards with the same collection whose zones differ in nothing but their
disallow flags it gives the same result; and for a rule area `z` it does not depend on the
seven fill attributes (local clearance, thermal relief gap and spoke width, pad connection,
minimum thickness, corner smoothing type and radius). -/
theorem TestZoneIntersections_mode_attributes (K : KERNEL) (b b1 : BOARD) (z : ZONE_PTR)
    (hm : b1.m_zones = b.m_zones) :
    ((b.zone z).isRuleArea = false →
      (b1.zone z).withoutDisallow = (b.zone z).withoutDisallow →
      (∀ o ∈ b.m_zones, (b1.zone o).withoutDisallow = (b.zone o).withoutDisallow) →
      TestZoneIntersections K b1 z = TestZoneIntersections K b z) ∧
    ((b.zone z).isRuleArea = true →
      (b1.zone z).withoutFill = (b.zone z).withoutFill →
      (∀ o ∈ b.m_zones, (b1.zone o).withoutFill = (b.zone o).withoutFill) →
      TestZoneIntersections K b1 z = TestZoneIntersections K b z) := by
  constructor
  · intro hf hz ho
    apply TestZoneIntersections_congr K b b1 z hm
    intro o hmem
    obtain ⟨z1, z2, z3, z4, z5, z6, z7, z8, z9, z10, z11, z12, z13⟩ :=
      withoutDisallow_fields _ _ hz
    obtain ⟨o1, o2, o3, o4, o5, o6, o7, o8, o9, o10, o11, o12, o13⟩ :=
      withoutDisallow_fields _ _ (ho o hmem)
    have ht := TestZoneIntersection_congr K (b.zone z) (b1.zone z) (b.zone o) (b1.zone o)
      z2 z6 o2 o6
    rw [Bool.eq_iff_iff, TestZoneIntersections_body_iff, TestZoneIntersections_body_iff, ht]
    unfold sameModeAttributes
    rw [z5, hf]
    simp only [Bool.false_eq_true, if_false]
    rw [z1, z3, z4, z7, z8, z9, z10, z11, z12, z13, o1, o3, o4, o5, o7, o8, o9, o10, o11,
      o12, o13]
  · intro hf hz ho
    apply TestZoneIntersections_congr K b b1 z hm
    intro o hmem
    obtain ⟨z1, z2, z3, z4, z5, z6, z7, z8, z9, z10, z11⟩ := withoutFill_fields _ _ hz
    obtain ⟨o1, o2, o3, o4, o5, o6, o7, o8, o9, o10, o11⟩ :=
      withoutFill_fields _ _ (ho o hmem)
    have ht := TestZoneIntersection_congr K (b.zone z) (b1.zone z) (b.zone o) (b1.zone o)
      z2 z6 o2 o6
    rw [Bool.eq_iff_iff, TestZoneIntersections_body_iff, TestZoneIntersections_body_iff, ht]
    unfold sameModeAttributes
    rw [z5, hf]
    simp only [if_true]
    rw [z1, z3, z4, z7, z8, z9, z10, z11, o1, o3, o4, o5, o7, o8, o9, o10, o11]

/-- Instance of C27: filled zones with different disallow flags, rule areas with different
local clearances. -/
theorem TestZoneIntersections_mode_attributes_witness :
    (boardOverlapDisallow.m_zones = boardOverlap.m_zones ∧
      (boardOverlap.zone 0).isRuleArea = false ∧
      (boardOverlapDisallow.zone 0).withoutDisallow = (boardOverlap.zone 0).withoutDisallow ∧
      (∀ o ∈ boardOverlap.m_zones,
        (boardOverlapDisallow.zone o).withoutDisallow = (boardOverlap.zone o).withoutDisallow) ∧
      TestZoneIntersections specKernel boardOverlapDisallow 0 =
        TestZoneIntersections specKernel boardOverlap 0) ∧
    (boardRuleAreas.m_zones = boardRuleAreasEqual.m_zones ∧
      (boardRuleAreasEqual.zone 0).isRuleArea = true ∧
      (boardRuleAreas.zone 0).withoutFill = (boardRuleAreasEqual.zone 0).withoutFill ∧
      (∀ o ∈ boardRuleAreasEqual.m_zones,
        (boardRuleAreas.zone o).withoutFill = (boardRuleAreasEqual.zone o).withoutFill) ∧
      TestZoneIntersections specKernel boardRuleAreas 0 =
        TestZoneIntersections specKernel boardRuleAreasEqual 0) :=
  ⟨⟨by decide, by decide, by decide, by decide,
    (TestZoneIntersections_mode_attributes specKernel boardOverlap boardOverlapDisallow 0
      (by decide)).1 (by decide) (by decide) (by decide)⟩,
   ⟨by decide, by decide, by decide, by decide,
    (TestZoneIntersections_mode_attributes specKernel boardRuleAreasEqual boardRuleAreas 0
      (by decide)).2 (by decide) (by decide) (by decide)⟩⟩

/-! ## `CombineAllZonesInNet`: the box of the reference zone -/

/-- C25, counterexample: zone 0 first absorbs zone 2, which reaches over to zone 1; zone 1
is then rejected by the box test against the box zone 0 had when the scan started, although
`TestZoneIntersection` is true on the two zones as they are at that moment. -/
theorem CombineAllZonesInNet_stale_box_counterexample :
    ∃ r, CombineAllZonesInNet specKernel boardBridge 1 false = Except.ok r ∧
      ∃ v, EVENT.inner v ∈ r.trace ∧ v.branch = BRANCH.boxReject ∧
        TestZoneIntersection specKernel (v.before.zone v.refZone)
          (v.before.zone v.otherZone) = true ∧
        v.b1 ≠ specKernel.BBox (v.before.zone v.refZone).outline := by
  obtain ⟨r, hr, hv⟩ := returned_map_eq_some
    (CombineAllZonesInNet specKernel boardBridge 1 false)
    (fun r => r.trace.any (EVENT.staleReject specKernel)) true (by decide)
  refine ⟨r, hr, ?_⟩
  obtain ⟨e, he, hs⟩ := List.any_eq_true.1 hv
  cases e with
  | outer i z b => simp [EVENT.staleReject] at hs
  | inner v =>
    simp only [EVENT.staleReject, Bool.and_eq_true, decide_eq_true_eq] at hs
    exact ⟨v, he, hs.1.1, hs.1.2, hs.2⟩

/-! ## `CombineAllZonesInNet`: termination -/

theorem hugeZones_length : hugeZones.length = 4294967298 := by
  unfold hugeZones
  exact List.length_range _

theorem hugeZones_getElem? (i : Nat) (h : i < 4294967298) : hugeZones[i]? = some i := by
  unfold hugeZones
  exact List.getElem?_range h

theorem hugeZones_nodup : hugeZones.Nodup := by
  unfold hugeZones
  exact List.nodup_range _

theorem size_eq (b : BOARD) (h : b.m_zones.length < 18446744073709551616) :
    b.size = b.m_zones.length := by
  have h64 : (2 : Nat) ^ 64 = 18446744073709551616 := by norm_num
  unfold BOARD.size
  rw [h64]
  omega

theorem sizeMinusOne_eq_pred (b : BOARD) (h1 : 1 ≤ b.m_zones.length)
    (h : b.m_zones.length < 18446744073709551616) :
    b.sizeMinusOne = b.m_zones.length - 1 := by
  unfold BOARD.sizeMinusOne
  rw [size_eq b h, if_neg (by omega)]

theorem boardHuge_length : boardHuge.m_zones.length = 4294967298 :=
  hugeZones_length

theorem boardHuge_sizeMinusOne : boardHuge.sizeMinusOne = boardHuge.m_zones.length - 1 :=
  sizeMinusOne_eq_pred boardHuge (by rw [boardHuge_length]; omega)
    (by rw [boardHuge_length]; omega)

theorem boardHuge_outerBody (K : KERNEL) (aUseLocalFlags : Bool) (i : Nat) (s : LOOP)
    (hs : s.board = boardHuge) (hi : i < 4294967296) :
    outerBody K 1 aUseLocalFlags i s = Except.ok ((i + 1) % 2 ^ 32, s) := by
  have hget : s.board.m_zones[i]? = some i := by
    rw [hs]
    exact hugeZones_getElem? i (by omega)
  unfold outerBody
  rw [hget]
  simp only []
  have hnet : (s.board.zone i).netCode ≠ 1 := by
    rw [hs]
    show (0 : Int) ≠ 1
    decide
  rw [if_pos hnet]

theorem boardHuge_outerLoop (K : KERNEL) (aUseLocalFlags : Bool) :
    ∀ (fuel i : Nat) (s : LOOP), s.board = boardHuge → i < 4294967296 →
      outerLoop K 1 aUseLocalFlags fuel i s = Except.error FAULT.outOfFuel := by
  intro fuel
  have h32 : (2 : Nat) ^ 32 = 4294967296 := by norm_num
  induction fuel with
  | zero =>
    intro i s hs hi
    unfold outerLoop
    rw [hs, boardHuge_sizeMinusOne, if_pos (by rw [boardHuge_length]; omega)]
  | succ fuel ih =>
    intro i s hs hi
    unfold outerLoop
    rw [hs, boardHuge_sizeMinusOne, if_pos (by rw [boardHuge_length]; omega),
      boardHuge_outerBody K aUseLocalFlags i s hs hi]
    simp only []
    exact ih _ s hs (by rw [h32]; omega)

/-- C22, counterexample: on a board with `2 ^ 32 + 2` zones, none of them on the net of the
call, the loop test `ia1 < m_zones.size() - 1` compares the `unsigned` counter, which wraps
at `2 ^ 32`, with `2 ^ 32 + 1`: it holds at every iteration, so no number of iterations
ends the outer loop, and the budget of twice the number of zones is used up. -/
theorem CombineAllZonesInNet_terminates_counterexample :
    boardHuge.m_zones.Nodup ∧
    (∀ fuel, outerLoop specKernel 1 false fuel 0 ⟨boardHuge, false, false, []⟩ =
      Except.error FAULT.outOfFuel) ∧
    CombineAllZonesInNet specKernel boardHuge 1 false = Except.error FAULT.outOfFuel := by
  refine ⟨hugeZones_nodup, fun fuel => boardHuge_outerLoop specKernel false fuel 0 _ rfl
    (by omega), ?_⟩
  unfold CombineAllZonesInNet
  have hsz : ¬ boardHuge.size ≤ 1 := by
    rw [size_eq boardHuge (by rw [boardHuge_length]; omega), boardHuge_length]
    omega
  rw [if_neg hsz, boardHuge_outerLoop specKernel false _ 0 _ rfl (by omega)]

/-- C22, amended: on a board that holds every zone once and fewer than `2 ^ 32` zones,
`CombineAllZonesInNet` terminates: the outer loop ends within `2 * n` iterations, `n` the
number of zones at the start (with 2 zones or more; with fewer the loops are not entered);
every call of `CombineZones` that returns true removes one zone, so their number and the
number of zones left add up to `n`, and with `n ≥ 1` there are at most `n - 1` of them. -/
theorem CombineAllZonesInNet_terminates (K : KERNEL) (b : BOARD) (aNetCode : Int)
    (aUseLocalFlags : Bool) (hb : b.wellFormed) :
    (∃ r, CombineAllZonesInNet K b aNetCode aUseLocalFlags = Except.ok r ∧
      combines r.trace + r.board.m_zones.length = b.m_zones.length ∧
      (1 ≤ b.m_zones.length → combines r.trace ≤ b.m_zones.length - 1)) ∧
    (2 ≤ b.m_zones.length →
      ∃ s, outerLoop K aNetCode aUseLocalFlags (2 * b.m_zones.length) 0
        ⟨b, false, false, []⟩ = Except.ok s) := by
  have h32 : (2 : Nat) ^ 32 = 4294967296 := by norm_num
  obtain ⟨r, hr⟩ := CombineAllZonesInNet_returns K b aNetCode aUseLocalFlags hb.1 hb.2
  obtain ⟨-, hcnt, hpos, -, -⟩ :=
    CombineAllZonesInNet_indexed K b aNetCode aUseLocalFlags hb r hr
  refine ⟨⟨r, hr, hcnt, ?_⟩, ?_⟩
  · intro h1
    by_cases h2 : 2 ≤ b.m_zones.length
    · have := hpos h2
      omega
    · have hlt : b.m_zones.length < 2 := by omega
      have hr' := hr
      unfold CombineAllZonesInNet BOARD.size at hr'
      have h64 : (2 : Nat) ^ 64 = 18446744073709551616 := by norm_num
      rw [h64, if_pos (by omega)] at hr'
      cases Except.ok.inj hr'
      simp [combines]
  · intro h2
    exact outerLoop_returns K aNetCode aUseLocalFlags (2 * b.m_zones.length) 0
      ⟨b, false, false, []⟩ hb.1 (by show 1 ≤ b.m_zones.length; omega) hb.2
      (by show 2 * b.m_zones.length ≤ _; omega)

/-- Instance of C22 (amended) on the chain of three overlapping squares. -/
theorem CombineAllZonesInNet_terminates_witness :
    boardChain.wellFormed ∧
    ((∃ r, CombineAllZonesInNet specKernel boardChain 1 false = Except.ok r ∧
      combines r.trace + r.board.m_zones.length = boardChain.m_zones.length ∧
      (1 ≤ boardChain.m_zones.length → combines r.trace ≤ boardChain.m_zones.length - 1)) ∧
    (2 ≤ boardChain.m_zones.length →
      ∃ s, outerLoop specKernel 1 false (2 * boardChain.m_zones.length) 0
        ⟨boardChain, false, false, []⟩ = Except.ok s)) :=
  ⟨wellFormed_boardOf _ (by norm_num),
    CombineAllZonesInNet_terminates specKernel boardChain 1 false
      (wellFormed_boardOf _ (by norm_num))⟩

/-! ## `CombineAllZonesInNet`: the outer index after a scan -/

theorem innerLoop_mod_iff (K : KERNEL) (aNetCode : Int) (aUseLocalFlags : Bool) (ia1 : Nat)
    (refZone : ZONE_PTR) (b1 : BOX2I) (c0 : Nat) (n : Nat) (s s1 : LOOP)
    (hq : c0 ≤ combines s.trace ∧ (s.mod_ia1 = true ↔ c0 < combines s.trace))
    (h : innerLoop K aNetCode aUseLocalFlags ia1 refZone b1 n s = Except.ok s1) :
    c0 ≤ combines s1.trace ∧ (s1.mod_ia1 = true ↔ c0 < combines s1.trace) := by
  refine innerLoop_invariant K aNetCode aUseLocalFlags ia1 refZone b1
    (fun s => c0 ≤ combines s.trace ∧ (s.mod_ia1 = true ↔ c0 < combines s.trace))
    ?_ n s s1 hq h
  intro ia2 s s1 _ hq hb
  obtain ⟨otherZone, br, -, htr, hc | hc⟩ :=
    innerBody_ok K aNetCode aUseLocalFlags ia1 refZone b1 ia2 s s1 hb
  · obtain ⟨ret, hbr, -, -, -, -, -, hmod⟩ := hc
    rw [htr, combines_inner, hmod]
    subst hbr
    cases ret
    · rw [if_neg (by simp), Bool.or_false]
      exact hq
    · rw [if_pos rfl, Bool.or_true]
      exact ⟨by omega, by simp; omega⟩
  · obtain ⟨hbr, -, -, hmod, -, -⟩ := hc
    rw [htr, combines_inner, hmod, if_neg (hbr true)]
    exact hq

/-- C24: an iteration of the outer loop at an index `i` below `m_zones.size() - 1` (on a
board that holds every zone once and fewer than `2 ^ 32` zones) ends; if its inner scan made
a successful combine, the counter at the next loop test is
`((i == 0 ? 2 ^ 32 - 1 : i - 1) + 1) mod 2 ^ 32`, which is `i` again, also for `i = 0`, so
the next outer iteration is run for the same index; if the scan made no successful combine,
or was not entered, the counter is `i + 1`. -/
theorem outerBody_revisit (K : KERNEL) (aNetCode : Int) (aUseLocalFlags : Bool) (i : Nat)
    (s : LOOP) (hn : s.board.m_zones.Nodup) (hlen : s.board.m_zones.length < 2 ^ 32)
    (hi : i + 1 < s.board.m_zones.length) :
    ∃ i1 s1, outerBody K aNetCode aUseLocalFlags i s = Except.ok (i1, s1) ∧
      (combines s.trace < combines s1.trace →
        i1 = ((if i = 0 then 2 ^ 32 - 1 else i - 1) + 1) % 2 ^ 32 ∧ i1 = i ∧
        ∀ fuel, outerLoop K aNetCode aUseLocalFlags (fuel + 1) i s =
          outerLoop K aNetCode aUseLocalFlags fuel i s1) ∧
      (¬ combines s.trace < combines s1.trace → i1 = i + 1) := by
  have h32 : (2 : Nat) ^ 32 = 4294967296 := by norm_num
  have hsz : s.board.sizeMinusOne = s.board.m_zones.length - 1 :=
    sizeMinusOne_eq s.board (by omega) hlen
  obtain ⟨i1, s1, hb, -, -, -, -⟩ :=
    outerBody_returns K aNetCode aUseLocalFlags i s hn hlen hi
  refine ⟨i1, s1, hb, ?_⟩
  obtain ⟨refZone, -, hc | hc⟩ := outerBody_ok K aNetCode aUseLocalFlags i s i1 s1 hb
  · obtain ⟨-, hs, hi1⟩ := hc
    rw [hs]
    refine ⟨fun h => absurd h (lt_irrefl _), fun _ => ?_⟩
    rw [hi1, h32]
    rw [h32] at hlen
    omega
  · obtain ⟨-, hin, hyes, hno⟩ := hc
    obtain ⟨-, hiff⟩ := innerLoop_mod_iff K aNetCode aUseLocalFlags i refZone _
      (combines s.trace) _ _ s1
      (by
        show combines s.trace ≤ combines (s.trace ++ [EVENT.outer i refZone s.board]) ∧
          (false = true ↔
            combines s.trace < combines (s.trace ++ [EVENT.outer i refZone s.board]))
        rw [combines_outer]
        simp) hin
    constructor
    · intro hlt
      have hm : s1.mod_ia1 = true := hiff.2 hlt
      have hi1 := hyes hm
      have hii : i1 = i := by
        rw [hi1, h32]
        rw [h32] at hlen
        by_cases h0 : i = 0
        · rw [if_pos h0, h0]
        · rw [if_neg h0]
          omega
      refine ⟨hi1, hii, fun fuel => ?_⟩
      conv_lhs => unfold outerLoop
      rw [hsz, if_pos (by omega), hb]
      simp only []
      rw [hii]
    · intro hlt
      have hm : s1.mod_ia1 = false := by
        cases hmm : s1.mod_ia1
        · rfl
        · exact absurd (hiff.1 hmm) hlt
      rw [hno hm, h32]
      rw [h32] at hlen
      omega

/-- Instance of C24 at index 0 of the board of two overlapping squares: the scan combines
them, and the counter at the next loop test is 0. -/
theorem outerBody_revisit_witness :
    (boardOverlap.m_zones.Nodup ∧ boardOverlap.m_zones.length < 2 ^ 32 ∧
      0 + 1 < boardOverlap.m_zones.length) ∧
    (returned (outerBody specKernel 1 false 0 ⟨boardOverlap, false, false, []⟩)).map
      (fun r => (r.1, combines r.2.trace, r.2.board.m_zones)) = some (0, 1, [0]) ∧
    ∃ i1 s1, outerBody specKernel 1 false 0 ⟨boardOverlap, false, false, []⟩ =
        Except.ok (i1, s1) ∧
      (combines ([] : List EVENT) < combines s1.trace →
        i1 = ((if 0 = 0 then 2 ^ 32 - 1 else 0 - 1) + 1) % 2 ^ 32 ∧ i1 = 0 ∧
        ∀ fuel, outerLoop specKernel 1 false (fuel + 1) 0 ⟨boardOverlap, false, false, []⟩ =
          outerLoop specKernel 1 false fuel 0 s1) ∧
      (¬ combines ([] : List EVENT) < combines s1.trace → i1 = 0 + 1) :=
  ⟨⟨(wellFormed_boardOf _ (by norm_num)).1, (wellFormed_boardOf _ (by norm_num)).2,
      by decide⟩,
    by decide,
    outerBody_revisit specKernel 1 false 0 ⟨boardOverlap, false, false, []⟩
      (wellFormed_boardOf _ (by norm_num)).1 (wellFormed_boardOf _ (by norm_num)).2
      (by decide)⟩

/-! ## `CombineAllZonesInNet`: the order of the inner scan -/

theorem examined_inner (t : List EVENT) (v : VISIT) :
    examined (t ++ [EVENT.inner v]) = examined t ++ [v.otherZone] := by
  simp [examined, List.filterMap_append, EVENT.examined]

theorem examined_outer (t : List EVENT) (i : Nat) (z : ZONE_PTR) (b : BOARD) :
    examined (t ++ [EVENT.outer i z b]) = examined t := by
  simp [examined, List.filterMap_append, EVENT.examined]

theorem take_filter_ne (l : List ZONE_PTR) (hn : l.Nodup) (a : ZONE_PTR) (j : Nat)
    (hj : l[j]? = some a) : (l.filter (fun z => decide (z ≠ a))).take j = l.take j := by
  apply List.ext_getElem?
  intro k
  by_cases hk : k < j
  · rw [List.getElem?_take_of_lt hk, List.getElem?_take_of_lt hk]
    exact getElem?_filter_ne l hn a j hj k hk
  · rw [List.getElem?_eq_none (by rw [List.length_take]; omega),
      List.getElem?_eq_none (by rw [List.length_take]; omega)]

theorem take_succ_drop (l : List ZONE_PTR) (i n : Nat) (a : ZONE_PTR) (hi : i ≤ n)
    (hget : l[n + 1]? = some a) :
    ((l.take (n + 2)).drop (i + 1)).reverse = a :: ((l.take (n + 1)).drop (i + 1)).reverse := by
  have hlen : n + 1 < l.length := (List.getElem?_eq_some.1 hget).1
  rw [List.take_succ, hget, Option.toList_some,
    List.drop_append_of_le_length (by rw [List.length_take]; omega), List.reverse_append]
  rfl

theorem innerLoop_scan (K : KERNEL) (aNetCode : Int) (aUseLocalFlags : Bool) (ia1 : Nat)
    (refZone : ZONE_PTR) (b1 : BOX2I) :
    ∀ (n : Nat) (s : LOOP), s.board.m_zones.Nodup → (ia1 < n → n < s.board.m_zones.length) →
      ∃ s1, innerLoop K aNetCode aUseLocalFlags ia1 refZone b1 n s = Except.ok s1 ∧
        examined s1.trace =
          examined s.trace ++ ((s.board.m_zones.take (n + 1)).drop (ia1 + 1)).reverse ∧
        s1.board.m_zones.take (ia1 + 1) = s.board.m_zones.take (ia1 + 1) := by
  intro n
  induction n with
  | zero =>
    intro s hn _
    refine ⟨s, rfl, ?_, rfl⟩
    rw [List.drop_eq_nil_of_le (by rw [List.length_take]; omega)]
    simp
  | succ n ih =>
    intro s hn hlt
    unfold innerLoop
    by_cases hgt : n + 1 > ia1
    · rw [if_pos hgt]
      have hlen := hlt hgt
      have hget : s.board.m_zones[n + 1]? = some (s.board.m_zones[n + 1]) :=
        List.getElem?_eq_getElem hlen
      obtain ⟨s', hs'⟩ :=
        innerBody_returns K aNetCode aUseLocalFlags ia1 refZone b1 (n + 1) s _ hget
      rw [hs']
      simp only []
      obtain ⟨other, br, hget1, htr, -⟩ :=
        innerBody_ok K aNetCode aUseLocalFlags ia1 refZone b1 (n + 1) s s' hs'
      have hex : examined s'.trace = examined s.trace ++ [other] := by
        rw [htr, examined_inner]
      have hstep := take_succ_drop s.board.m_zones ia1 n other (by omega) hget1
      have hkey : s'.board.m_zones.Nodup ∧
          s'.board.m_zones.take (n + 1) = s.board.m_zones.take (n + 1) ∧
          s.board.m_zones.length ≤ s'.board.m_zones.length + 1 := by
        rcases innerBody_zones K aNetCode aUseLocalFlags ia1 refZone b1 (n + 1) s s' hs' with
          ⟨hz, -, -⟩ | ⟨other2, hget2, -, hz, -, -⟩
        · rw [hz]
          exact ⟨hn, rfl, by omega⟩
        · have hmem : other2 ∈ s.board.m_zones := List.mem_iff_getElem?.2 ⟨_, hget2⟩
          have hl := length_filter_ne_nodup s.board.m_zones hn other2 hmem
          rw [hz]
          exact ⟨hn.filter _, take_filter_ne s.board.m_zones hn other2 (n + 1) hget2,
            by omega⟩
      obtain ⟨hn', htake, hlen'⟩ := hkey
      obtain ⟨s1, h1, hex1, ht1⟩ := ih s' hn' (by intro _; omega)
      refine ⟨s1, h1, ?_, ?_⟩
      · rw [hex1, hex, htake, hstep]
        simp
      · rw [ht1]
        have h1 := congrArg (List.take (ia1 + 1)) htake
        rw [List.take_take, List.take_take, min_eq_left (by omega)] at h1
        exact h1
    · rw [if_neg hgt]
      refine ⟨s, rfl, ?_, rfl⟩
      rw [List.drop_eq_nil_of_le (by rw [List.length_take]; omega)]
      simp

/-- C23: the inner scan for the outer index `i`, entered as in `CombineAllZonesInNet` with
`ia2 = m_zones.size() - 1` on a board that holds every zone once and fewer than `2 ^ 32`
zones, returns without a read of `m_zones` outside its bounds; the zones it reads as
`otherZone` are the zones that were at the indices above `i` when the scan started, from the
last one down, each of them once; and the zones at the indices up to `i` are where they
were, so the zone at index `i` is still `refZone`. -/
theorem innerLoop_descending_scan (K : KERNEL) (aNetCode : Int) (aUseLocalFlags : Bool)
    (i : Nat) (refZone : ZONE_PTR) (b1 : BOX2I) (s : LOOP) (hn : s.board.m_zones.Nodup)
    (hlen : s.board.m_zones.length < 2 ^ 32) (href : s.board.m_zones[i]? = some refZone) :
    ∃ s1, innerLoop K aNetCode aUseLocalFlags i refZone b1
        (s.board.sizeMinusOne % 2 ^ 32) s = Except.ok s1 ∧
      examined s1.trace = examined s.trace ++ (s.board.m_zones.drop (i + 1)).reverse ∧
      (s.board.m_zones.drop (i + 1)).reverse.Nodup ∧
      s1.board.m_zones.take (i + 1) = s.board.m_zones.take (i + 1) ∧
      s1.board.m_zones[i]? = some refZone := by
  have h32 : (2 : Nat) ^ 32 = 4294967296 := by norm_num
  have hi : i < s.board.m_zones.length := (List.getElem?_eq_some.1 href).1
  have hsz : s.board.sizeMinusOne = s.board.m_zones.length - 1 :=
    sizeMinusOne_eq s.board (by omega) hlen
  have hmod : (s.board.m_zones.length - 1) % 2 ^ 32 = s.board.m_zones.length - 1 := by
    rw [h32]
    rw [h32] at hlen
    omega
  rw [hsz, hmod]
  obtain ⟨s1, h1, hex, ht⟩ := innerLoop_scan K aNetCode aUseLocalFlags i refZone b1
    (s.board.m_zones.length - 1) s hn (by intro _; omega)
  refine ⟨s1, h1, ?_, ?_, ht, ?_⟩
  · rw [hex, Nat.sub_add_cancel (by omega), List.take_length]
  · exact List.nodup_reverse.2 (hn.sublist (List.drop_sublist _ _))
  · have h2 := congrArg (fun l : List ZONE_PTR => l[i]?) ht
    simp only [] at h2
    rw [List.getElem?_take_of_lt (by omega), List.getElem?_take_of_lt (by omega)] at h2
    rw [h2]
    exact href

/-- Instance of C23 on the board of two squares and a rectangle over both, scanned for the
index 0: zone 2 is read first, combined into zone 0 and removed from the collection; zone 1
is read next, at index 1 of the shorter collection; zone 0 is still at index 0. -/
theorem innerLoop_descending_scan_witness :
    (boardBridge.m_zones.Nodup ∧ boardBridge.m_zones.length < 2 ^ 32 ∧
      boardBridge.m_zones[0]? = some 0) ∧
    (returned (innerLoop specKernel 1 false 0 0 (specKernel.BBox (boardBridge.zone 0).outline)
        (boardBridge.sizeMinusOne % 2 ^ 32) ⟨boardBridge, false, false, []⟩)).map
      (fun s1 => (examined s1.trace, s1.board.m_zones, combines s1.trace)) =
      some ([2, 1], [0, 1], 1) ∧
    ∃ s1, innerLoop specKernel 1 false 0 0 (specKernel.BBox (boardBridge.zone 0).outline)
        (boardBridge.sizeMinusOne % 2 ^ 32) ⟨boardBridge, false, false, []⟩ = Except.ok s1 ∧
      examined s1.trace = examined [] ++ (boardBridge.m_zones.drop (0 + 1)).reverse ∧
      (boardBridge.m_zones.drop (0 + 1)).reverse.Nodup ∧
      s1.board.m_zones.take (0 + 1) = boardBridge.m_zones.take (0 + 1) ∧
      s1.board.m_zones[0]? = some 0 :=
  ⟨⟨(wellFormed_boardOf _ (by norm_num)).1, (wellFormed_boardOf _ (by norm_num)).2,
      by decide⟩,
    by decide,
    innerLoop_descending_scan specKernel 1 false 0 0
      (specKernel.BBox (boardBridge.zone 0).outline) ⟨boardBridge, false, false, []⟩
      (wellFormed_boardOf _ (by norm_num)).1 (wellFormed_boardOf _ (by norm_num)).2
      (by decide)⟩

/-! ## `CombineAllZonesInNet`: a second call -/

theorem CombineZones_same (K : KERNEL) (a b : BOARD) (ref other : ZONE_PTR)
    (h : a.sameZones b) :
    (CombineZones K a ref other).1 = (CombineZones K b ref other).1 ∧
    (CombineZones K a ref other).2.sameZones (CombineZones K b ref other).2 := by
  obtain ⟨z, m, d, l⟩ := a
  obtain ⟨z', m', d', l'⟩ := b
  obtain ⟨hz, hm, hd⟩ := h
  simp only [] at hz hm hd
  subst hz hm hd
  unfold CombineZones mergedOutlines
  simp only []
  split_ifs <;>
    simp [BOARD.sameZones, BOARD.HatchBorder, BOARD.SetLocalFlags, BOARD.RemoveZone,
      BOARD.SetOutline]

set_option maxHeartbeats 2000000 in
theorem innerBody_same (K : KERNEL) (aNetCode : Int) (aUseLocalFlags : Bool) (ia1 : Nat)
    (refZone : ZONE_PTR) (b1 : BOX2I) (ia2 : Nat) (s t : LOOP) (h : s.same t) :
    sameRun LOOP.same (innerBody K aNetCode aUseLocalFlags ia1 refZone b1 ia2 s)
      (innerBody K aNetCode aUseLocalFlags ia1 refZone b1 ia2 t) := by
  obtain ⟨⟨hz, hm, hd⟩, hmo, hmi⟩ := h
  have hc := fun other => CombineZones_same K s.board t.board refZone other ⟨hz, hm, hd⟩
  unfold innerBody
  rw [← hm, ← hz]
  cases hget : s.board.m_zones[ia2]? with
  | none => exact rfl
  | some otherZone =>
    simp only []
    obtain ⟨hc1, hc2⟩ := hc otherZone
    rw [← hc1]
    split_ifs <;>
      first
        | exact ⟨⟨hz, hm, hd⟩, hmo, hmi⟩
        | exact ⟨hc2, rfl, rfl⟩
        | exact ⟨hc2, hmo, hmi⟩

theorem innerLoop_same (K : KERNEL) (aNetCode : Int) (aUseLocalFlags : Bool) (ia1 : Nat)
    (refZone : ZONE_PTR) (b1 : BOX2I) :
    ∀ (n : Nat) (s t : LOOP), s.same t →
      sameRun LOOP.same (innerLoop K aNetCode aUseLocalFlags ia1 refZone b1 n s)
        (innerLoop K aNetCode aUseLocalFlags ia1 refZone b1 n t) := by
  intro n
  induction n with
  | zero =>
    intro s t h
    exact h
  | succ n ih =>
    intro s t h
    unfold innerLoop
    by_cases hgt : n + 1 > ia1
    · rw [if_pos hgt, if_pos hgt]
      have hb := innerBody_same K aNetCode aUseLocalFlags ia1 refZone b1 (n + 1) s t h
      cases hs : innerBody K aNetCode aUseLocalFlags ia1 refZone b1 (n + 1) s with
      | error e =>
        cases ht : innerBody K aNetCode aUseLocalFlags ia1 refZone b1 (n + 1) t with
        | error f =>
          rw [hs, ht] at hb
          exact hb
        | ok t1 =>
          rw [hs, ht] at hb
          exact hb.elim
      | ok s1 =>
        cases ht : innerBody K aNetCode aUseLocalFlags ia1 refZone b1 (n + 1) t with
        | error f =>
          rw [hs, ht] at hb
          exact hb.elim
        | ok t1 =>
          rw [hs, ht] at hb
          exact ih s1 t1 hb
    · rw [if_neg hgt, if_neg hgt]
      exact h

theorem sizeMinusOne_same (a b : BOARD) (h : a.m_zones = b.m_zones) :
    a.sizeMinusOne = b.sizeMinusOne := by
  unfold BOARD.sizeMinusOne BOARD.size
  rw [h]

theorem outerBody_same (K : KERNEL) (aNetCode : Int) (aUseLocalFlags : Bool) (ia1 : Nat)
    (s t : LOOP) (h : s.same t) :
    sameRun (fun x y : Nat × LOOP => x.1 = y.1 ∧ x.2.same y.2)
      (outerBody K aNetCode aUseLocalFlags ia1 s)
      (outerBody K aNetCode aUseLocalFlags ia1 t) := by
  obtain ⟨⟨hz, hm, hd⟩, hmo, hmi⟩ := h
  unfold outerBody
  rw [← sizeMinusOne_same s.board t.board hm, ← hm, ← hz]
  cases hget : s.board.m_zones[ia1]? with
  | none => exact rfl
  | some refZone =>
    simp only []
    by_cases hnet : (s.board.zone refZone).netCode ≠ aNetCode
    · rw [if_pos hnet, if_pos hnet]
      exact ⟨rfl, ⟨hz, hm, hd⟩, hmo, hmi⟩
    · rw [if_neg hnet, if_neg hnet]
      have hl := innerLoop_same K aNetCode aUseLocalFlags ia1 refZone
        (K.BBox (s.board.zone refZone).outline) (s.board.sizeMinusOne % 2 ^ 32)
        { s with mod_ia1 := false, trace := s.trace ++ [EVENT.outer ia1 refZone s.board] }
        { t with mod_ia1 := false, trace := t.trace ++ [EVENT.outer ia1 refZone t.board] }
        ⟨⟨hz, hm, hd⟩, hmo, rfl⟩
      cases hs : innerLoop K aNetCode aUseLocalFlags ia1 refZone
        (K.BBox (s.board.zone refZone).outline) (s.board.sizeMinusOne % 2 ^ 32)
        { s with mod_ia1 := false, trace := s.trace ++ [EVENT.outer ia1 refZone s.board] } with
      | error e =>
        cases ht : innerLoop K aNetCode aUseLocalFlags ia1 refZone
          (K.BBox (s.board.zone refZone).outline) (s.board.sizeMinusOne % 2 ^ 32)
          { t with mod_ia1 := false,
                   trace := t.trace ++ [EVENT.outer ia1 refZone t.board] } with
        | error f =>
          rw [hs, ht] at hl
          exact hl
        | ok t1 =>
          rw [hs, ht] at hl
          exact hl.elim
      | ok s1 =>
        cases ht : innerLoop K aNetCode aUseLocalFlags ia1 refZone
          (K.BBox (s.board.zone refZone).outline) (s.board.sizeMinusOne % 2 ^ 32)
          { t with mod_ia1 := false,
                   trace := t.trace ++ [EVENT.outer ia1 refZone t.board] } with
        | error f =>
          rw [hs, ht] at hl
          exact hl.elim
        | ok t1 =>
          rw [hs, ht] at hl
          simp only []
          refine ⟨?_, hl⟩
          show (_ + 1) % 2 ^ 32 = (_ + 1) % 2 ^ 32
          rw [hl.2.2]

theorem outerLoop_same (K : KERNEL) (aNetCode : Int) (aUseLocalFlags : Bool) :
    ∀ (fuel i : Nat) (s t : LOOP), s.same t →
      sameRun LOOP.same (outerLoop K aNetCode aUseLocalFlags fuel i s)
        (outerLoop K aNetCode aUseLocalFlags fuel i t) := by
  intro fuel
  induction fuel with
  | zero =>
    intro i s t h
    unfold outerLoop
    rw [← sizeMinusOne_same s.board t.board h.1.2.1]
    by_cases hlt : i < s.board.sizeMinusOne
    · rw [if_pos hlt, if_pos hlt]
      exact rfl
    · rw [if_neg hlt, if_neg hlt]
      exact h
  | succ fuel ih =>
    intro i s t h
    unfold outerLoop
    rw [← sizeMinusOne_same s.board t.board h.1.2.1]
    by_cases hlt : i < s.board.sizeMinusOne
    · rw [if_pos hlt, if_pos hlt]
      have hb := outerBody_same K aNetCode aUseLocalFlags i s t h
      cases hs : outerBody K aNetCode aUseLocalFlags i s with
      | error e =>
        cases ht : outerBody K aNetCode aUseLocalFlags i t with
        | error f =>
          rw [hs, ht] at hb
          exact hb
        | ok t1 =>
          rw [hs, ht] at hb
          exact hb.elim
      | ok s1 =>
        cases ht : outerBody K aNetCode aUseLocalFlags i t with
        | error f =>
          rw [hs, ht] at hb
          exact hb.elim
        | ok t1 =>
          rw [hs, ht] at hb
          obtain ⟨i1, s1⟩ := s1
          obtain ⟨j1, t1⟩ := t1
          obtain ⟨hi, hst⟩ := hb
          simp only [] at hi
          subst hi
          exact ih i1 s1 t1 hst
    · rw [if_neg hlt, if_neg hlt]
      exact h

theorem CombineAllZonesInNet_same (K : KERNEL) (a b : BOARD) (aNetCode : Int)
    (aUseLocalFlags : Bool) (h : a.sameZones b) :
    sameRun (fun r q : RESULT => r.ret = q.ret ∧ r.board.sameZones q.board)
      (CombineAllZonesInNet K a aNetCode aUseLocalFlags)
      (CombineAllZonesInNet K b aNetCode aUseLocalFlags) := by
  unfold CombineAllZonesInNet BOARD.size
  rw [← h.2.1]
  by_cases hsz : a.m_zones.length % 2 ^ 64 ≤ 1
  · rw [if_pos hsz, if_pos hsz]
    exact ⟨rfl, h⟩
  · rw [if_neg hsz, if_neg hsz]
    have hl := outerLoop_same K aNetCode aUseLocalFlags (2 * a.m_zones.length) 0
      ⟨a, false, false, []⟩ ⟨b, false, false, []⟩ ⟨h, rfl, rfl⟩
    cases hs : outerLoop K aNetCode aUseLocalFlags (2 * a.m_zones.length) 0
      ⟨a, false, false, []⟩ with
    | error e =>
      cases ht : outerLoop K aNetCode aUseLocalFlags (2 * a.m_zones.length) 0
        ⟨b, false, false, []⟩ with
      | error f =>
        rw [hs, ht] at hl
        exact hl
      | ok t1 =>
        rw [hs, ht] at hl
        exact hl.elim
    | ok s1 =>
      cases ht : outerLoop K aNetCode aUseLocalFlags (2 * a.m_zones.length) 0
        ⟨b, false, false, []⟩ with
      | error f =>
        rw [hs, ht] at hl
        exact hl.elim
      | ok t1 =>
        rw [hs, ht] at hl
        exact ⟨hl.2.1, hl.1⟩

/-- C11, counterexample: the three squares of `boardFlagged` on net 1, called twice with
`aUseLocalFlags` true.  The first call skips the pair of the first two squares, both
with the local flag 0, combines the third square into the second, which sets the local
flag of the second, and returns true with two zones left.  The second call then combines
the second zone into the first and returns true, with one zone left. -/
theorem CombineAllZonesInNet_twice_counterexample :
    (returned (CombineAllZonesInNet specKernel boardFlagged 1 true)).bind
      (fun r1 => (returned (CombineAllZonesInNet specKernel r1.board 1 true)).map
        (fun r2 => (r1.ret, r1.board.m_zones, r2.ret, r2.board.m_zones,
          decide ((r2.board.zone 0).outline = (r1.board.zone 0).outline)))) =
      some (true, [0, 1], true, [0], false) := by
  decide

/-- C11, amended: on a board that holds every zone once and fewer than `2 ^ 32` zones, two
calls of `CombineAllZonesInNet` with the same arguments, one after the other, both return;
if the first call returns false, it left the collection, the deleted list and every zone as
they were, and the second call returns false and leaves them as they were too. (A first
call that returns true can leave zones that the second call combines.) -/
theorem CombineAllZonesInNet_twice (K : KERNEL) (b : BOARD) (aNetCode : Int)
    (aUseLocalFlags : Bool) (hb : b.wellFormed) :
    ∃ r1 r2, CombineAllZonesInNet K b aNetCode aUseLocalFlags = Except.ok r1 ∧
      CombineAllZonesInNet K r1.board aNetCode aUseLocalFlags = Except.ok r2 ∧
      (r1.ret = false →
        r1.board.sameZones b ∧ r2.ret = false ∧ r2.board.sameZones r1.board) := by
  obtain ⟨r1, h1⟩ := CombineAllZonesInNet_returns K b aNetCode aUseLocalFlags hb.1 hb.2
  have hsub := (CombineAllZonesInNet_removed K b aNetCode aUseLocalFlags r1 h1).1
  have hfl := (CombineAllZonesInNet_removed K b aNetCode aUseLocalFlags r1 h1).2.2
  have hlen : r1.board.m_zones.length < 2 ^ 32 := lt_of_le_of_lt hsub.length_le hb.2
  obtain ⟨r2, h2⟩ := CombineAllZonesInNet_returns K r1.board aNetCode aUseLocalFlags
    (hb.1.sublist hsub) hlen
  refine ⟨r1, r2, h1, h2, fun hret => ?_⟩
  obtain ⟨hm, hd, hz⟩ := hfl hret
  have hs : r1.board.sameZones b := ⟨hz, hm, hd⟩
  have hrun := CombineAllZonesInNet_same K r1.board b aNetCode aUseLocalFlags hs
  rw [h2, h1] at hrun
  obtain ⟨hr, hbb⟩ := hrun
  exact ⟨hs, by rw [hr]; exact hret, hbb⟩

/-- Instance of C11 (amended) on the two squares far from each other. -/
theorem CombineAllZonesInNet_twice_witness :
    boardApart.wellFormed ∧
    (returned (CombineAllZonesInNet specKernel boardApart 1 false)).map
      (fun r1 => (r1.ret, r1.board.m_zones)) = some (false, [0, 1]) ∧
    ∃ r1 r2, CombineAllZonesInNet specKernel boardApart 1 false = Except.ok r1 ∧
      CombineAllZonesInNet specKernel r1.board 1 false = Except.ok r2 ∧
      (r1.ret = false →
        r1.board.sameZones boardApart ∧ r2.ret = false ∧ r2.board.sameZones r1.board) :=
  ⟨wellFormed_boardOf _ (by norm_num), by decide,
    CombineAllZonesInNet_twice specKernel boardApart 1 false
      (wellFormed_boardOf _ (by norm_num))⟩

/-! ## Hot key names: from the code to the name and back -/

theorem table_round_trip :
    ∀ e ∈ hotkeyNameList, e.m_KeyCode ≠ KEY_NON_FOUND →
      ∀ mac ctrl alt shift : Bool,
        KeyCodeFromKeyName
            (KeyNameFromKeyCode mac (e.m_KeyCode + modifierBits ctrl alt shift)).1 =
          some (e.m_KeyCode + modifierBits ctrl alt shift) := by
  decide

set_option maxRecDepth 100000 in
theorem printable_round_trip_list :
    ∀ b ∈ List.range 127, 32 < b →
      ∀ mac ctrl alt shift : Bool,
        KeyCodeFromKeyName
            (KeyNameFromKeyCode mac ((b : Int) + modifierBits ctrl alt shift)).1 =
          some ((b : Int) + modifierBits ctrl alt shift) := by
  decide

theorem unknown_name_code :
    ∀ mac ctrl alt shift : Bool,
      KeyCodeFromKeyName (modifierNames mac ctrl alt shift ++ wxT "<unknown>") =
        some KEY_NON_FOUND := by
  decide

theorem searchName_unknown (aKeycode : Int) :
    ∀ l : List hotkey_name_descr,
      aKeycode ∉ (l.filter (fun e => decide (e.m_KeyCode ≠ KEY_NON_FOUND))).map
        hotkey_name_descr.m_KeyCode →
      searchName l aKeycode = (wxT "<unknown>", false) := by
  intro l
  induction l with
  | nil =>
    intro _
    rfl
  | cons e rest ih =>
    intro h
    unfold searchName
    by_cases h1 : e.m_KeyCode = KEY_NON_FOUND
    · rw [if_pos h1]
    · rw [if_neg h1]
      rw [List.filter_cons_of_pos (by simpa using h1), List.map_cons, List.mem_cons,
        not_or] at h
      rw [if_neg (fun h2 => h.1 h2.symm)]
      exact ih h.2

theorem bits_of_sum (base k c a s : Int) (hc : c = 0 ∨ c = 1) (ha : a = 0 ∨ a = 1)
    (hs : s = 0 ∨ s = 1)
    (h : base - base / 8192 % 2 * 8192 - base / 16384 % 2 * 16384 - base / 4096 % 2 * 4096 =
      base)
    (hk : k = base + (8192 * c + 16384 * a + 4096 * s)) :
    k / 8192 % 2 * 8192 = 8192 * c ∧ k / 16384 % 2 * 16384 = 16384 * a ∧
    k / 4096 % 2 * 4096 = 4096 * s := by
  subst hk
  refine ⟨?_, ?_, ?_⟩ <;> omega

theorem modifierBits_eq (ctrl alt shift : Bool) :
    modifierBits ctrl alt shift =
      8192 * (if ctrl then 1 else 0) + 16384 * (if alt then 1 else 0) +
        4096 * (if shift then 1 else 0) := by
  cases ctrl <;> cases alt <;> cases shift <;> rfl

theorem modifier_bits (base : Int) (ctrl alt shift : Bool) (h : clearModifiers base = base) :
    bitAnd (base + modifierBits ctrl alt shift) MD_CTRL = (if ctrl then MD_CTRL else 0) ∧
    bitAnd (base + modifierBits ctrl alt shift) MD_ALT = (if alt then MD_ALT else 0) ∧
    bitAnd (base + modifierBits ctrl alt shift) MD_SHIFT = (if shift then MD_SHIFT else 0) ∧
    clearModifiers (base + modifierBits ctrl alt shift) = base := by
  have h' : base - base / 8192 % 2 * 8192 - base / 16384 % 2 * 16384 -
      base / 4096 % 2 * 4096 = base := h
  obtain ⟨h1, h2, h3⟩ := bits_of_sum base (base + modifierBits ctrl alt shift)
    (if ctrl then 1 else 0) (if alt then 1 else 0) (if shift then 1 else 0)
    (by cases ctrl <;> simp) (by cases alt <;> simp) (by cases shift <;> simp) h'
    (by rw [modifierBits_eq])
  have e1 : bitAnd (base + modifierBits ctrl alt shift) MD_CTRL =
      (if ctrl then MD_CTRL else 0) := by
    show (base + modifierBits ctrl alt shift) / 8192 % 2 * 8192 = _
    rw [h1]
    cases ctrl <;> rfl
  have e2 : bitAnd (base + modifierBits ctrl alt shift) MD_ALT =
      (if alt then MD_ALT else 0) := by
    show (base + modifierBits ctrl alt shift) / 16384 % 2 * 16384 = _
    rw [h2]
    cases alt <;> rfl
  have e3 : bitAnd (base + modifierBits ctrl alt shift) MD_SHIFT =
      (if shift then MD_SHIFT else 0) := by
    show (base + modifierBits ctrl alt shift) / 4096 % 2 * 4096 = _
    rw [h3]
    cases shift <;> rfl
  refine ⟨e1, e2, e3, ?_⟩
  unfold clearModifiers
  rw [e1, e2, e3, modifierBits_eq]
  cases ctrl <;> cases alt <;> cases shift <;>
    simp only [MD_CTRL, MD_ALT, MD_SHIFT, if_true, if_false, Bool.false_eq_true] <;> omega

theorem KeyNameFromKeyCode_unknown (mac ctrl alt shift : Bool) (base : Int)
    (hp : ¬ (32 < base ∧ base < 0x7F)) (ht : base ∉ tableCodes)
    (hb : clearModifiers base = base) :
    KeyNameFromKeyCode mac (base + modifierBits ctrl alt shift) =
      (modifierNames mac ctrl alt shift ++ wxT "<unknown>", false) := by
  obtain ⟨h1, h2, h3, h4⟩ := modifier_bits base ctrl alt shift hb
  unfold KeyNameFromKeyCode
  simp only []
  rw [h1, h2, h3, h4, if_neg hp, searchName_unknown base hotkeyNameList ht]
  cases mac <;> cases ctrl <;> cases alt <;> cases shift <;> rfl

theorem stripModifiers_returns :
    ∀ (fuel : Nat) (key : wxString) (modifier : Int), key.length < fuel →
      ∃ r, stripModifiers fuel key modifier = some r := by
  intro fuel
  induction fuel with
  | zero =>
    intro key modifier h
    exact absurd h (Nat.not_lt_zero _)
  | succ fuel ih =>
    intro key modifier h
    have hdrop : ∀ pre : wxString, 1 ≤ pre.length → StartsWith key pre = true →
        (key.drop pre.length).length < fuel := by
      intro pre hpre hs
      have hle := (List.isPrefixOf_iff_prefix.1 hs).length_le
      rw [List.length_drop]
      omega
    unfold stripModifiers
    by_cases h1 : StartsWith key MODIFIER_CTRL_BASE = true
    · rw [if_pos h1]
      exact ih _ _ (hdrop _ (by decide) h1)
    · rw [if_neg h1]
      by_cases h2 : StartsWith key MODIFIER_CMD_MAC = true
      · rw [if_pos h2]
        exact ih _ _ (hdrop _ (by decide) h2)
      · rw [if_neg h2]
        by_cases h3 : StartsWith key MODIFIER_ALT = true
        · rw [if_pos h3]
          exact ih _ _ (hdrop _ (by decide) h3)
        · rw [if_neg h3]
          by_cases h4 : StartsWith key MODIFIER_SHIFT = true
          · rw [if_pos h4]
            exact ih _ _ (hdrop _ (by decide) h4)
          · rw [if_neg h4]
            exact ⟨_, rfl⟩

theorem KeyCodeFromKeyName_returns (keyname : wxString) :
    ∃ keycode, KeyCodeFromKeyName keyname = some keycode := by
  obtain ⟨⟨key, modifier⟩, hr⟩ :=
    stripModifiers_returns (keyname.length + 1) keyname 0 (Nat.lt_succ_self _)
  unfold KeyCodeFromKeyName
  rw [hr]
  simp only []
  by_cases h : key.length = 1 ∧ key.headD 0 > 32 ∧ key.headD 0 < 0x7F
  · rw [if_pos h]
    exact ⟨_, rfl⟩
  · rw [if_neg h]
    exact ⟨_, rfl⟩

theorem mem_range_of_printable (base : Int) (h : 32 < base ∧ base < 0x7F) :
    base.toNat ∈ List.range 127 ∧ 32 < base.toNat ∧ (base.toNat : Int) = base := by
  refine ⟨List.mem_range.2 (by omega), by omega, by omega⟩

/-- C30: let `base` be a key code and `k` the sum of `base` and any of the modifier bits
`MD_CTRL`, `MD_ALT`, `MD_SHIFT`.  If `base` is the code of a printable character
(`' ' < base < 0x7F`) or the key code of an entry of `hotkeyNameList` before the end-of-list
entry, `KeyCodeFromKeyName` returns `k` for the name `KeyNameFromKeyCode` gives for `k`.
If `base` is neither (and has none of the three modifier bits set itself), the name for `k`
is the names of the modifiers followed by "<unknown>", so it ends in "<unknown>", and
`KeyCodeFromKeyName` returns `KEY_NON_FOUND` for it.  Both hold with and without
`USING_MAC_CMD`. -/
theorem KeyCodeFromKeyName_KeyNameFromKeyCode (usingMacCmd ctrl alt shift : Bool)
    (base : Int) :
    (((32 < base ∧ base < 0x7F) ∨ base ∈ tableCodes) →
      KeyCodeFromKeyName
          (KeyNameFromKeyCode usingMacCmd (base + modifierBits ctrl alt shift)).1 =
        some (base + modifierBits ctrl alt shift)) ∧
    (¬ (32 < base ∧ base < 0x7F) → base ∉ tableCodes → clearModifiers base = base →
      (KeyNameFromKeyCode usingMacCmd (base + modifierBits ctrl alt shift)).1 =
        modifierNames usingMacCmd ctrl alt shift ++ wxT "<unknown>" ∧
      wxT "<unknown>" <:+
        (KeyNameFromKeyCode usingMacCmd (base + modifierBits ctrl alt shift)).1 ∧
      KeyCodeFromKeyName
          (KeyNameFromKeyCode usingMacCmd (base + modifierBits ctrl alt shift)).1 =
        some KEY_NON_FOUND) := by
  constructor
  · intro h
    rcases h with h | h
    · obtain ⟨hm, hgt, hcast⟩ := mem_range_of_printable base h
      have := printable_round_trip_list base.toNat hm hgt usingMacCmd ctrl alt shift
      rw [hcast] at this
      exact this
    · unfold tableCodes at h
      obtain ⟨e, he, hc⟩ := List.mem_map.1 h
      obtain ⟨hmem, hne⟩ := List.mem_filter.1 he
      have := table_round_trip e hmem (of_decide_eq_true hne) usingMacCmd ctrl alt shift
      rw [hc] at this
      exact this
  · intro hp ht hb
    have hn := KeyNameFromKeyCode_unknown usingMacCmd ctrl alt shift base hp ht hb
    rw [hn]
    exact ⟨rfl, List.suffix_append _ _, unknown_name_code usingMacCmd ctrl alt shift⟩

/-- Instance of C30: `Ctrl+Shift+A` and `Alt+F5`, and the code 200, neither printable nor
in the table, with the `Ctrl` bit. -/
theorem KeyCodeFromKeyName_KeyNameFromKeyCode_witness :
    ((KeyNameFromKeyCode false (65 + modifierBits true false true)).1 = wxT "Ctrl+Shift+A" ∧
      KeyCodeFromKeyName (KeyNameFromKeyCode false (65 + modifierBits true false true)).1 =
        some (65 + modifierBits true false true)) ∧
    ((KeyNameFromKeyCode false (200 + modifierBits true false false)).1 =
        modifierNames false true false false ++ wxT "<unknown>" ∧
      wxT "<unknown>" <:+ (KeyNameFromKeyCode false (200 + modifierBits true false false)).1 ∧
      KeyCodeFromKeyName (KeyNameFromKeyCode false (200 + modifierBits true false false)).1 =
        some KEY_NON_FOUND) :=
  ⟨⟨by decide,
      (KeyCodeFromKeyName_KeyNameFromKeyCode false true false true 65).1
        (Or.inl (by decide))⟩,
    (KeyCodeFromKeyName_KeyNameFromKeyCode false true false false 200).2
      (by decide) (by decide) (by decide)⟩

/-! ## `CombineZones`: outlines that meet at one corner -/

theorem examinedAgain_append (K : KERNEL) (t u : List EVENT) (v : VISIT)
    (h : examinedAgain K t v) : examinedAgain K (t ++ u) v := by
  obtain ⟨t1, t2, w, ht, hw, h1, h2, h3⟩ := h
  refine ⟨t1, t2 ++ u, w, ?_, ?_, h1, h2, h3⟩
  · rw [ht, List.append_assoc, List.cons_append]
  · rw [← List.cons_append]
    exact List.mem_append_left _ hw

theorem examinedAgain_later (K : KERNEL) (t : List EVENT) (v w : VISIT)
    (hv : EVENT.inner v ∈ t) (h1 : w.refZone = v.refZone) (h2 : w.otherZone = v.otherZone)
    (h3 : w.branch ≠ BRANCH.boxReject ∨ w.fresh K) :
    examinedAgain K (t ++ [EVENT.inner w]) v := by
  obtain ⟨t1, t2, ht⟩ := List.append_of_mem hv
  refine ⟨t1, t2 ++ [EVENT.inner w], w, ?_, ?_, h1, h2, h3⟩
  · rw [ht, List.append_assoc, List.cons_append]
  · rw [← List.cons_append]
    exact List.mem_append_right _ (List.mem_singleton.2 rfl)

theorem examinedAgain_self (K : KERNEL) (t : List EVENT) (w : VISIT)
    (h3 : w.branch ≠ BRANCH.boxReject ∨ w.fresh K) :
    examinedAgain K (t ++ [EVENT.inner w]) w :=
  ⟨t, [], w, rfl, List.mem_singleton.2 rfl, rfl, rfl, h3⟩

theorem drop_filter_ne (l : List ZONE_PTR) (hn : l.Nodup) (a : ZONE_PTR) (i j : Nat)
    (hj : l[j]? = some a) (hij : i < j) :
    (l.filter (fun z => decide (z ≠ a))).drop (i + 1) =
      (l.drop (i + 1)).filter (fun z => decide (z ≠ a)) := by
  have hlen : i + 1 ≤ l.length := by
    have := (List.getElem?_eq_some.1 hj).1
    omega
  have hnot : a ∉ l.take (i + 1) := by
    intro hmem
    obtain ⟨k, hk⟩ := List.mem_iff_getElem?.1 hmem
    have hk1 : k < i + 1 := by
      have := (List.getElem?_eq_some.1 hk).1
      rw [List.length_take] at this
      omega
    rw [List.getElem?_take_of_lt hk1] at hk
    have := nodup_index_unique l hn a k j hk hj
    omega
  have h3 : l.filter (fun z => decide (z ≠ a)) =
      l.take (i + 1) ++ (l.drop (i + 1)).filter (fun z => decide (z ≠ a)) := by
    conv_lhs => rw [← List.take_append_drop (i + 1) l]
    rw [List.filter_append, filter_ne_of_not_mem _ a hnot]
  rw [h3, List.drop_left' (by rw [List.length_take]; omega)]

theorem mem_drop_of_getElem? (l : List ZONE_PTR) (a : ZONE_PTR) (i j : Nat)
    (hj : l[j]? = some a) (hij : i < j) : a ∈ l.drop (i + 1) := by
  refine List.mem_iff_getElem?.2 ⟨j - (i + 1), ?_⟩
  rw [List.getElem?_drop, show i + 1 + (j - (i + 1)) = j by omega]
  exact hj

theorem innerLoop_invariant_indexed (K : KERNEL) (aNetCode : Int) (aUseLocalFlags : Bool)
    (ia1 : Nat) (refZone : ZONE_PTR) (b1 : BOX2I) (Q : Nat → LOOP → Prop)
    (hstep : ∀ n s s1, ia1 < n + 1 → Q (n + 1) s →
      innerBody K aNetCode aUseLocalFlags ia1 refZone b1 (n + 1) s = Except.ok s1 → Q n s1) :
    ∀ (n : Nat) (s s1 : LOOP), Q n s →
      innerLoop K aNetCode aUseLocalFlags ia1 refZone b1 n s = Except.ok s1 →
      ∃ m, m ≤ ia1 ∧ Q m s1 := by
  intro n
  induction n with
  | zero =>
    intro s s1 hq h
    unfold innerLoop at h
    cases Except.ok.inj h
    exact ⟨0, Nat.zero_le _, hq⟩
  | succ n ih =>
    intro s s1 hq h
    unfold innerLoop at h
    by_cases hgt : n + 1 > ia1
    · rw [if_pos hgt] at h
      cases hb : innerBody K aNetCode aUseLocalFlags ia1 refZone b1 (n + 1) s with
      | error e =>
        rw [hb] at h
        simp only [] at h
        exact Except.noConfusion h
      | ok s2 =>
        rw [hb] at h
        simp only [] at h
        exact ih s2 s1 (hstep _ _ _ hgt hq hb) h
    · rw [if_neg hgt] at h
      cases Except.ok.inj h
      exact ⟨n + 1, by omega, hq⟩

theorem rescanInv_step (K : KERNEL) (aNetCode : Int) (aUseLocalFlags : Bool) (i : Nat)
    (ref : ZONE_PTR) (b1 : BOX2I) (n : Nat) (s s1 : LOOP) (hlt : i < n + 1)
    (hq : rescanInv K aNetCode i ref b1 (n + 1) s)
    (hb : innerBody K aNetCode aUseLocalFlags i ref b1 (n + 1) s = Except.ok s1) :
    rescanInv K aNetCode i ref b1 n s1 := by
  obtain ⟨hn, hlen, href, hnet, hfresh, hvis⟩ := hq
  obtain ⟨other, br, hget, htr, hc⟩ :=
    innerBody_ok K aNetCode aUseLocalFlags i ref b1 (n + 1) s s1 hb
  have hother : other ∈ s.board.m_zones.drop (i + 1) :=
    mem_drop_of_getElem? _ _ _ _ hget hlt
  -- what the iteration leaves of the collection and of the reference zone
  have hkey : s1.board.m_zones.Nodup ∧ s1.board.m_zones.length < 4294967296 ∧
      s1.board.m_zones[i]? = some ref ∧ (s1.board.zone ref).netCode = aNetCode ∧
      (s1.mod_ia1 = false → b1 = K.BBox (s1.board.zone ref).outline) ∧
      s1.board.m_zones.take (n + 1) = s.board.m_zones.take (n + 1) ∧
      (∀ x, x ≠ other → x ∈ s.board.m_zones.drop (i + 1) →
        x ∈ s1.board.m_zones.drop (i + 1)) ∧
      (s.mod_ia1 = true → s1.mod_ia1 = true) ∧
      ((br ≠ BRANCH.boxReject ∨ b1 = K.BBox (s.board.zone ref).outline) ∨
        (s1.mod_ia1 = true ∧ other ∈ s1.board.m_zones.drop (i + 1))) := by
    rcases hc with ⟨ret, hbr, -, -, hret, hbd, -, hmod⟩ | ⟨hbr, hbd, -, hmod, -, -⟩
    · have hgood : br ≠ BRANCH.boxReject := by
        rw [hbr]
        exact fun h => BRANCH.noConfusion h
      cases ret with
      | true =>
        obtain ⟨-, hz, -, -, -, -⟩ := CombineZones_true_effect K s.board ref other hret
        have hattr := congrArg ZONE.netCode (CombineZones_attributes K s.board ref other ref)
        have hm1 : s1.mod_ia1 = true := by rw [hmod]; simp
        rw [hbd, hz]
        refine ⟨hn.filter _, lt_of_le_of_lt (List.length_filter_le _ _) hlen, ?_, ?_, ?_,
          take_filter_ne _ hn other (n + 1) hget, ?_, fun _ => hm1, Or.inl (Or.inl hgood)⟩
        · rw [getElem?_filter_ne _ hn other (n + 1) hget i hlt]
          exact href
        · exact hattr.trans hnet
        · intro hf
          rw [hm1] at hf
          exact absurd hf (by simp)
        · intro x hx hmem
          rw [drop_filter_ne _ hn other i (n + 1) hget hlt]
          exact List.mem_filter.2 ⟨hmem, by simpa using hx⟩
      | false =>
        obtain ⟨-, hz, -, hzz⟩ := CombineZones_false_frame K s.board ref other hret
        have hm1 : s1.mod_ia1 = s.mod_ia1 := by rw [hmod]; simp
        rw [hbd, hz, hzz, hm1]
        exact ⟨hn, hlen, href, hnet, hfresh, rfl, fun x _ hmem => hmem, fun h => h,
          Or.inl (Or.inl hgood)⟩
    · rw [hbd, hmod]
      refine ⟨hn, hlen, href, hnet, hfresh, rfl, fun x _ hmem => hmem, fun h => h, ?_⟩
      cases hm : s.mod_ia1 with
      | false => exact Or.inl (Or.inr (hfresh hm))
      | true => exact Or.inr ⟨rfl, hother⟩
  obtain ⟨hn1, hlen1, href1, hnet1, hfresh1, htake, hdrop, hmono, hnew⟩ := hkey
  refine ⟨hn1, hlen1, href1, hnet1, hfresh1, ?_⟩
  have hsplit : (s.board.m_zones.take (n + 1 + 1)).drop (i + 1) =
      (s.board.m_zones.take (n + 1)).drop (i + 1) ++ [other] := by
    rw [List.take_succ, hget, Option.toList_some,
      List.drop_append_of_le_length (by
        rw [List.length_take]
        have := (List.getElem?_eq_some.1 hget).1
        omega)]
  -- a visit of the pair `ref`, `other` recorded before is settled by the new visit, or waits
  -- for the next scan
  have hpair : ∀ v, EVENT.inner v ∈ s.trace → v.refZone = ref → v.otherZone = other →
      examinedAgain K s1.trace v ∨
      (v.refZone = ref ∧ v.otherZone ∈ (s1.board.m_zones.take (n + 1)).drop (i + 1)) ∨
      (s1.mod_ia1 = true ∧ v.refZone = ref ∧ v.otherZone ∈ s1.board.m_zones.drop (i + 1)) := by
    intro v hv hr ho
    rcases hnew with hgood | ⟨hm, hmem⟩
    · refine Or.inl ?_
      rw [htr]
      exact examinedAgain_later K s.trace v _ hv hr.symm ho.symm hgood
    · exact Or.inr (Or.inr ⟨hm, hr, by rw [ho]; exact hmem⟩)
  intro v hv hvb
  rw [htr, mem_trace_inner] at hv
  rcases hv with hv | hv
  · rcases hvis v hv hvb with h | ⟨hr, hmem⟩ | ⟨hm, hr, hmem⟩
    · refine Or.inl ?_
      rw [htr]
      exact examinedAgain_append K _ _ v h
    · by_cases ho : v.otherZone = other
      · exact hpair v hv hr ho
      · rw [hsplit, List.mem_append, List.mem_singleton] at hmem
        rcases hmem with hmem | hmem
        · exact Or.inr (Or.inl ⟨hr, by rw [htake]; exact hmem⟩)
        · exact absurd hmem ho
    · by_cases ho : v.otherZone = other
      · exact hpair v hv hr ho
      · exact Or.inr (Or.inr ⟨hmono hm, hr, hdrop _ ho hmem⟩)
  · subst hv
    rcases hnew with hgood | ⟨hm, hmem⟩
    · refine Or.inl ?_
      rw [htr]
      exact examinedAgain_self K s.trace _ hgood
    · exact Or.inr (Or.inr ⟨hm, rfl, hmem⟩)

theorem rescanOuterInv_step (K : KERNEL) (aNetCode : Int) (aUseLocalFlags : Bool) (i : Nat)
    (s : LOOP) (i1 : Nat) (s1 : LOOP) (hp : rescanOuterInv K aNetCode i s)
    (hlt : i < s.board.sizeMinusOne)
    (hb : outerBody K aNetCode aUseLocalFlags i s = Except.ok (i1, s1)) :
    rescanOuterInv K aNetCode i1 s1 := by
  have h32 : (2 : Nat) ^ 32 = 4294967296 := by norm_num
  obtain ⟨hn, hlen, hvis⟩ := hp
  obtain ⟨ref, hget, hc | hc⟩ := outerBody_ok K aNetCode aUseLocalFlags i s i1 s1 hb
  · obtain ⟨hnet, hs, -⟩ := hc
    rw [hs]
    refine ⟨hn, hlen, ?_⟩
    intro v hv hvb
    rcases hvis v hv hvb with h | ⟨hr, hnet2, -⟩
    · exact Or.inl h
    · rw [hget] at hr
      rw [← Option.some.inj hr] at hnet2
      exact absurd hnet2 hnet
  · obtain ⟨hnet, hin, hyes, hno⟩ := hc
    have hpos : i < s.board.m_zones.length := (List.getElem?_eq_some.1 hget).1
    have hsz : s.board.sizeMinusOne = s.board.m_zones.length - 1 :=
      sizeMinusOne_eq s.board (by omega) (by rw [h32]; exact hlen)
    have hmod : (s.board.m_zones.length - 1) % 2 ^ 32 = s.board.m_zones.length - 1 := by
      rw [h32]
      omega
    rw [hsz, hmod] at hin
    have hq0 : rescanInv K aNetCode i ref (K.BBox (s.board.zone ref).outline)
        (s.board.m_zones.length - 1)
        { s with mod_ia1 := false, trace := s.trace ++ [EVENT.outer i ref s.board] } := by
      refine ⟨hn, hlen, hget, hnet, fun _ => rfl, ?_⟩
      intro v hv hvb
      have hv' : EVENT.inner v ∈ s.trace := (mem_trace_outer _ _ _ _ _).1 hv
      rcases hvis v hv' hvb with h | ⟨hr, -, hmem⟩
      · exact Or.inl (examinedAgain_append K _ _ v h)
      · refine Or.inr (Or.inl ⟨?_, ?_⟩)
        · rw [hget] at hr
          exact (Option.some.inj hr).symm
        · show v.otherZone ∈ (s.board.m_zones.take (s.board.m_zones.length - 1 + 1)).drop (i + 1)
          rw [Nat.sub_add_cancel (by omega), List.take_length]
          exact hmem
    obtain ⟨m, hm, hn1, hlen1, href1, hnet1, -, hvis1⟩ :=
      innerLoop_invariant_indexed K aNetCode aUseLocalFlags i ref _
        (rescanInv K aNetCode i ref (K.BBox (s.board.zone ref).outline))
        (fun n s s1 hlt hq hb =>
          rescanInv_step K aNetCode aUseLocalFlags i ref _ n s s1 hlt hq hb)
        _ _ s1 hq0 hin
    refine ⟨hn1, hlen1, ?_⟩
    intro v hv hvb
    rcases hvis1 v hv hvb with h | ⟨-, hmem⟩ | ⟨hmd, hr, hmem⟩
    · exact Or.inl h
    · rw [List.drop_eq_nil_of_le (by rw [List.length_take]; omega)] at hmem
      exact absurd hmem (List.not_mem_nil _)
    · have hi1 : i1 = i := by
        rw [hyes hmd, h32]
        by_cases h0 : i = 0
        · rw [if_pos h0, h0]
        · rw [if_neg h0]
          omega
      rw [hi1]
      exact Or.inr ⟨by rw [hr]; exact href1, by rw [hr]; exact hnet1, hmem⟩

theorem absorbedBefore_append (t u : List EVENT) (v : VISIT) (h : absorbedBefore t v) :
    absorbedBefore (t ++ u) v := by
  obtain ⟨t1, t2, w, ht, hw, h1, h2, h3⟩ := h
  refine ⟨t1, t2 ++ u, w, ?_, hw, h1, h2, h3⟩
  rw [ht, List.append_assoc, List.cons_append]

theorem CombineAllZonesInNet_box_before (K : KERNEL) (b : BOARD) (aNetCode : Int)
    (aUseLocalFlags : Bool) (r : RESULT)
    (h : CombineAllZonesInNet K b aNetCode aUseLocalFlags = Except.ok r) :
    ∀ v, EVENT.inner v ∈ r.trace → v.fresh K ∨ absorbedBefore r.trace v := by
  obtain ⟨s, hp, -, -, htrace⟩ := CombineAllZonesInNet_invariant K b aNetCode aUseLocalFlags
    (fun s => ∀ v, EVENT.inner v ∈ s.trace → v.fresh K ∨ absorbedBefore s.trace v)
    (fun i refZone b1 s =>
      (∀ v, EVENT.inner v ∈ s.trace → v.fresh K ∨ absorbedBefore s.trace v) ∧
      (b1 = K.BBox (s.board.zone refZone).outline ∨
        ∃ w, EVENT.inner w ∈ s.trace ∧ w.branch = BRANCH.combine true ∧
          w.refZone = refZone ∧ w.ia1 = i))
    (by intro v hv; simp at hv)
    (by
      intro i refZone s hp _ _
      refine ⟨?_, Or.inl rfl⟩
      intro v hv
      rw [mem_trace_outer] at hv
      rcases hp v hv with h | h
      · exact Or.inl h
      · exact Or.inr (absorbedBefore_append _ _ v h))
    (by
      intro i refZone b1 ia2 s s1 hlt hq hb
      obtain ⟨hP, hQ⟩ := hq
      obtain ⟨otherZone, br, hget, htr, hc⟩ :=
        innerBody_ok K aNetCode aUseLocalFlags i refZone b1 ia2 s s1 hb
      have hmono : ∀ w, EVENT.inner w ∈ s.trace → EVENT.inner w ∈ s1.trace := by
        intro w hw
        rw [htr, mem_trace_inner]
        exact Or.inl hw
      have hnew : EVENT.inner ⟨s.board, i, ia2, refZone, otherZone, b1, br⟩ ∈ s1.trace := by
        rw [htr, mem_trace_inner]
        exact Or.inr rfl
      refine ⟨?_, ?_⟩
      · intro v hv
        rw [htr, mem_trace_inner] at hv
        rcases hv with hv | hv
        · rcases hP v hv with h | h
          · exact Or.inl h
          · refine Or.inr ?_
            rw [htr]
            exact absorbedBefore_append _ _ v h
        · subst hv
          rcases hQ with h | ⟨w, hw, h1, h2, h3⟩
          · exact Or.inl h
          · refine Or.inr ?_
            rw [htr]
            exact ⟨s.trace, [], w, rfl, hw, h1, h2, h3⟩
      · rcases hc with ⟨ret, hbr, -, -, hret, hbd, -, -⟩ | ⟨-, hbd, -⟩
        · cases ret with
          | true => exact Or.inr ⟨_, hnew, hbr, rfl, rfl⟩
          | false =>
            obtain ⟨-, -, -, hzz⟩ := CombineZones_false_frame K s.board refZone otherZone hret
            rcases hQ with h | ⟨w, hw, h⟩
            · exact Or.inl (by rw [hbd, hzz]; exact h)
            · exact Or.inr ⟨w, hmono w hw, h⟩
        · rcases hQ with h | ⟨w, hw, h⟩
          · exact Or.inl (by rw [hbd]; exact h)
          · exact Or.inr ⟨w, hmono w hw, h⟩)
    (fun _ _ _ _ hq => hq.1) r h
  rw [htrace]
  exact hp

/-- C25, amended: the box `b1` is computed once, before the inner scan, and is not
computed again when the reference zone absorbs a zone during the scan.  On a board that
holds every zone once and fewer than `2 ^ 32` zones the call returns, and for every pair
skipped because `b1.Intersects( b2 )` is false: `TestZoneIntersection` is false on the two
zones as they are at that moment whenever `b1` is the box of the outline the reference zone
has then; `b1` is that box unless the reference zone absorbed a zone at this outer index
earlier in the call; and the pair is not lost: at this visit or at a later one in the same
call the same two zones are examined and either get past the box test, or are rejected with
the box of the outline the reference zone has at that moment, `TestZoneIntersection` being
false on them then. -/
theorem CombineAllZonesInNet_box_reject (K : KERNEL) (b : BOARD) (aNetCode : Int)
    (aUseLocalFlags : Bool) (hb : b.wellFormed) :
    ∃ r, CombineAllZonesInNet K b aNetCode aUseLocalFlags = Except.ok r ∧
      ∀ v, EVENT.inner v ∈ r.trace → v.branch = BRANCH.boxReject →
        K.Intersects v.b1 (K.BBox (v.before.zone v.otherZone).outline) = false ∧
        (v.b1 = K.BBox (v.before.zone v.refZone).outline →
          TestZoneIntersection K (v.before.zone v.refZone) (v.before.zone v.otherZone)
            = false) ∧
        (v.b1 = K.BBox (v.before.zone v.refZone).outline ∨
          ∃ t1 t2 w, r.trace = t1 ++ EVENT.inner v :: t2 ∧ EVENT.inner w ∈ t1 ∧
            w.branch = BRANCH.combine true ∧ w.refZone = v.refZone ∧ w.ia1 = v.ia1) ∧
        ∃ t1 t2 w, r.trace = t1 ++ EVENT.inner v :: t2 ∧
          EVENT.inner w ∈ EVENT.inner v :: t2 ∧
          w.refZone = v.refZone ∧ w.otherZone = v.otherZone ∧
          (w.branch ≠ BRANCH.boxReject ∨
            (w.b1 = K.BBox (w.before.zone w.refZone).outline ∧
              TestZoneIntersection K (w.before.zone w.refZone) (w.before.zone w.otherZone)
                = false)) := by
  have h32 : (2 : Nat) ^ 32 = 4294967296 := by norm_num
  have h64 : (2 : Nat) ^ 64 = 18446744073709551616 := by norm_num
  obtain ⟨r, hr⟩ := CombineAllZonesInNet_returns K b aNetCode aUseLocalFlags hb.1 hb.2
  refine ⟨r, hr, ?_⟩
  have hsound : ∀ v, EVENT.inner v ∈ r.trace → v.branch = BRANCH.boxReject →
      K.Intersects v.b1 (K.BBox (v.before.zone v.otherZone).outline) = false ∧
      (v.b1 = K.BBox (v.before.zone v.refZone).outline →
        TestZoneIntersection K (v.before.zone v.refZone) (v.before.zone v.otherZone)
          = false) := by
    intro v hv hvb
    have hs := (CombineAllZonesInNet_visits K b aNetCode aUseLocalFlags r hr).2 v hv
    have hbox := hs.2.2.2.2.2.2.2 hvb
    refine ⟨hbox, ?_⟩
    intro hfresh
    rw [hfresh] at hbox
    exact TestZoneIntersection_of_boxes K _ _ hbox
  have hagain : ∀ v, EVENT.inner v ∈ r.trace → v.branch = BRANCH.boxReject →
      examinedAgain K r.trace v := by
    have hr' := hr
    unfold CombineAllZonesInNet at hr'
    by_cases hsz : b.size ≤ 1
    · rw [if_pos hsz] at hr'
      cases Except.ok.inj hr'
      intro v hv
      simp at hv
    · rw [if_neg hsz] at hr'
      cases ho : outerLoop K aNetCode aUseLocalFlags (2 * b.m_zones.length) 0
          ⟨b, false, false, []⟩ with
      | error e =>
        rw [ho] at hr'
        simp only [] at hr'
        exact Except.noConfusion hr'
      | ok s =>
        rw [ho] at hr'
        simp only [] at hr'
        cases Except.ok.inj hr'
        obtain ⟨i1, hI, hexit⟩ := outerLoop_invariant K aNetCode aUseLocalFlags
          (rescanOuterInv K aNetCode)
          (fun i s i1 s1 hp hlt hb =>
            rescanOuterInv_step K aNetCode aUseLocalFlags i s i1 s1 hp hlt hb)
          _ 0 _ s
          ⟨hb.1, by rw [← h32]; exact hb.2, by intro v hv; simp at hv⟩
          ho
        obtain ⟨hn1, hlen1, hvis1⟩ := hI
        intro v hv hvb
        rcases hvis1 v hv hvb with h | ⟨hget, -, hmem⟩
        · exact h
        · exfalso
          have hpos : i1 < s.board.m_zones.length := (List.getElem?_eq_some.1 hget).1
          have hsz1 : s.board.sizeMinusOne = s.board.m_zones.length - 1 :=
            sizeMinusOne_eq s.board (by omega) (by rw [h32]; exact hlen1)
          have hd : 0 < (s.board.m_zones.drop (i1 + 1)).length :=
            List.length_pos_of_mem hmem
          rw [List.length_drop] at hd
          rw [hsz1] at hexit
          omega
  intro v hv hvb
  obtain ⟨h1, h2⟩ := hsound v hv hvb
  refine ⟨h1, h2, CombineAllZonesInNet_box_before K b aNetCode aUseLocalFlags r hr v hv, ?_⟩
  obtain ⟨t1, t2, w, ht, hw, hwr, hwo, hgood⟩ := hagain v hv hvb
  refine ⟨t1, t2, w, ht, hw, hwr, hwo, ?_⟩
  by_cases hwb : w.branch = BRANCH.boxReject
  · rcases hgood with hg | hg
    · exact absurd hwb hg
    · have hwt : EVENT.inner w ∈ r.trace := by
        rw [ht]
        exact List.mem_append_right _ hw
      exact Or.inr ⟨hg, (hsound w hwt hwb).2 hg⟩
  · exact Or.inl hwb

/-- Instance of C25 (amended) on the board of the counterexample: zone 0 absorbs zone 2;
zone 1 is rejected with the box zone 0 had before; the scan for the index 0 is run again,
with the box of the merged outline, and zone 1 is examined again and absorbed. -/
theorem CombineAllZonesInNet_box_reject_witness :
    boardBridge.wellFormed ∧
    (returned (CombineAllZonesInNet specKernel boardBridge 1 false)).map
      (fun r => (r.trace.filterMap (EVENT.boxSummary specKernel), r.board.m_zones)) =
      some ([(0, 2, BRANCH.combine true, true), (0, 1, BRANCH.boxReject, false),
        (0, 1, BRANCH.combine true, true)], [0]) ∧
    ∃ r, CombineAllZonesInNet specKernel boardBridge 1 false = Except.ok r ∧
      ∀ v, EVENT.inner v ∈ r.trace → v.branch = BRANCH.boxReject →
        specKernel.Intersects v.b1 (specKernel.BBox (v.before.zone v.otherZone).outline)
          = false ∧
        (v.b1 = specKernel.BBox (v.before.zone v.refZone).outline →
          TestZoneIntersection specKernel (v.before.zone v.refZone)
            (v.before.zone v.otherZone) = false) ∧
        (v.b1 = specKernel.BBox (v.before.zone v.refZone).outline ∨
          ∃ t1 t2 w, r.trace = t1 ++ EVENT.inner v :: t2 ∧ EVENT.inner w ∈ t1 ∧
            w.branch = BRANCH.combine true ∧ w.refZone = v.refZone ∧ w.ia1 = v.ia1) ∧
        ∃ t1 t2 w, r.trace = t1 ++ EVENT.inner v :: t2 ∧
          EVENT.inner w ∈ EVENT.inner v :: t2 ∧
          w.refZone = v.refZone ∧ w.otherZone = v.otherZone ∧
          (w.branch ≠ BRANCH.boxReject ∨
            (w.b1 = specKernel.BBox (w.before.zone w.refZone).outline ∧
              TestZoneIntersection specKernel (w.before.zone w.refZone)
                (w.before.zone w.otherZone) = false)) :=
  ⟨wellFormed_boardOf _ (by norm_num), by decide,
    CombineAllZonesInNet_box_reject specKernel boardBridge 1 false
      (wellFormed_boardOf _ (by norm_num))⟩

end KiCad
